import Mathlib

/-!
# Satellite signal processing: a verification development

Shallow embedding of the numerical core of the repository
(`doppler_compensator.h`, `signal_processor.h`, `satellite_ephemeris.h`).

Modelling conventions.

* A C++ `double` is an element of a linearly ordered field `α`; arithmetic is
  exact (no rounding, no infinities, no NaN).  The definitions are polymorphic
  in `α`, so they can be evaluated over `ℚ` and reasoned about over `ℝ`.
  Where the code divides, the theorems assume the divisor is non-zero: a zero
  divisor would leave the finite numbers the embedding speaks about.
* The `<cmath>` functions and the constant `M_PI` are collected in a record
  `Libm α` that the functions using them take as a parameter; `realLibm` is the
  intended interpretation over `ℝ`, in which the decimal literal of `M_PI` (and
  so `DEG_TO_RAD`, `RAD_TO_DEG`) stands for `π`.
* `std::complex<double>` is a pair of doubles with the usual product.
* A `while` loop is run with a step budget and yields `none` when the budget
  is exhausted before the loop condition becomes false.
* A C++ function without a `throw` returns a plain value.  For the constructors
  and the method whose error reporting is examined, the call is also given as
  an outcome of type `Except CallError _`, which is `ok` for every input.
-/

namespace SatelliteSignal

/-! ## Numeric primitives -/

/-- The functions of `<cmath>` used by the code, and the constant `M_PI`. -/
structure Libm (α : Type) where
  /-- The function `std::sin`. -/
  sin : α → α
  /-- The function `std::cos`. -/
  cos : α → α
  /-- The constant `M_PI` (also `PI` of `signal_processor.h`). -/
  M_PI : α
  /-- The function `std::sqrt`. -/
  sqrt : α → α
  /-- The function `std::atan2(y, x)`. -/
  atan2 : α → α → α
  /-- The function `std::asin`. -/
  asin : α → α
  /-- The function `std::fmod(x, y)`. -/
  fmod : α → α → α
  /-- The function `std::pow(x, y)`. -/
  pow : α → α → α
  /-- The function `std::log10`. -/
  log10 : α → α

/-- The interpretation of `<cmath>` over the real numbers: `atan2(y, x)` is the
argument of `x + i y` in `(-π, π]` (0 at the origin), and `fmod(x, y)` is
`x - y * trunc(x / y)`, which has the sign of `x`. -/
noncomputable def realLibm : Libm ℝ where
  sin := Real.sin
  cos := Real.cos
  M_PI := Real.pi
  sqrt := Real.sqrt
  atan2 := fun y x => Complex.arg ⟨x, y⟩
  asin := Real.arcsin
  fmod := fun x y => x - y * (if 0 ≤ x / y then (⌊x / y⌋ : ℝ) else (⌈x / y⌉ : ℝ))
  pow := fun x y => x ^ y
  log10 := fun x => Real.log x / Real.log 10

/-- The type `std::complex<double>` (`ComplexSample` in `signal_processor.h`). -/
structure ComplexSample (α : Type) where
  /-- The in-phase (real) part. -/
  re : α
  /-- The quadrature (imaginary) part. -/
  im : α
deriving DecidableEq

section Defs

variable {α : Type} [LinearOrderedField α]

/-- Complex product, `operator*` of `std::complex`. -/
def ComplexSample.mul (a b : ComplexSample α) : ComplexSample α :=
  ⟨a.re * b.re - a.im * b.im, a.re * b.im + a.im * b.re⟩

/-- The function `std::polar(rho, theta)`. -/
def polar (m : Libm α) (rho theta : α) : ComplexSample α :=
  ⟨rho * m.cos theta, rho * m.sin theta⟩

/-- A `while (cond) body` loop run with a budget of `fuel` iterations:
`none` when the condition still holds after `fuel` iterations. -/
def whileLoop {σ : Type} (cond : σ → Bool) (body : σ → σ) : Nat → σ → Option σ
  | 0, s => if cond s then none else some s
  | fuel + 1, s => if cond s then whileLoop cond body fuel (body s) else some s

/-! ## `doppler_compensator.h`: class `DopplerCompensator` -/

/-- The private fields of `DopplerCompensator`. -/
structure DopplerCompensator (α : Type) where
  /-- Smoothed shift, Hz. -/
  current_doppler_shift : α
  /-- Rate-limited target shift, Hz. -/
  target_doppler_shift : α
  /-- Phase accumulator, radians. -/
  phase_accumulator : α
  /-- Sample rate, Hz. -/
  sample_rate : α
  /-- Exponential smoothing factor. -/
  smoothing_factor : α
  /-- Slew limit, Hz per second. -/
  max_rate_of_change : α
deriving DecidableEq

/-- The constructor `DopplerCompensator(sample_rate_hz, smoothing)`. -/
def DopplerCompensator.new (sample_rate_hz smoothing : α) : DopplerCompensator α where
  current_doppler_shift := 0
  target_doppler_shift := 0
  phase_accumulator := 0
  sample_rate := sample_rate_hz
  smoothing_factor := smoothing
  max_rate_of_change := 1000

/-- The constructor with its default argument `smoothing = 0.95`. -/
def DopplerCompensator.new_default (sample_rate_hz : α) : DopplerCompensator α :=
  DopplerCompensator.new sample_rate_hz (95 / 100)

/-- The method `update_doppler(doppler_hz)`.  (With `sample_rate = 0` the slew
limit of the code is infinite and no step is clamped; that quotient is not a
number of this embedding, and the theorems that settle a property of the
result of this method assume a non-zero sample rate.) -/
def DopplerCompensator.update_doppler (s : DopplerCompensator α) (doppler_hz : α) :
    DopplerCompensator α :=
  let delta := doppler_hz - s.target_doppler_shift
  let delta :=
    if delta > s.max_rate_of_change / s.sample_rate then
      s.max_rate_of_change / s.sample_rate
    else if delta < -s.max_rate_of_change / s.sample_rate then
      -s.max_rate_of_change / s.sample_rate
    else delta
  let target := s.target_doppler_shift + delta
  { s with
    target_doppler_shift := target
    current_doppler_shift :=
      s.smoothing_factor * s.current_doppler_shift + (1 - s.smoothing_factor) * target }

/-- The phase wrapping of `compensate`: the loop `while (p >= 2π) p -= 2π`
followed by the loop `while (p < 0) p += 2π`. -/
def wrap_phase (m : Libm α) (fuel : Nat) (p : α) : Option α :=
  (whileLoop (fun p => decide (p ≥ 2 * m.M_PI)) (fun p => p - 2 * m.M_PI) fuel p).bind
    (whileLoop (fun p => decide (p < 0)) (fun p => p + 2 * m.M_PI) fuel)

/-- The method `compensate(sample)`: the new state and the returned sample.
(With `sample_rate = 0` the phase increment of the code is infinite and its wrap
loop does not end; the theorems that settle a property of the result of this
method assume a non-zero sample rate.) -/
def DopplerCompensator.compensate (m : Libm α) (fuel : Nat) (s : DopplerCompensator α)
    (sample : ComplexSample α) : Option (DopplerCompensator α × ComplexSample α) :=
  let phase_increment := s.current_doppler_shift * 2 * m.M_PI / s.sample_rate
  (wrap_phase m fuel (s.phase_accumulator + phase_increment)).map fun phase =>
    let corrector := polar m 1 phase
    ({ s with phase_accumulator := phase }, sample.mul corrector)

/-- The method `reset()`. -/
def DopplerCompensator.reset (s : DopplerCompensator α) : DopplerCompensator α :=
  { s with current_doppler_shift := 0, target_doppler_shift := 0, phase_accumulator := 0 }

/-- The method `get_phase()`. -/
def DopplerCompensator.get_phase (s : DopplerCompensator α) : α := s.phase_accumulator

/-- The method `get_current_doppler()`. -/
def DopplerCompensator.get_current_doppler (s : DopplerCompensator α) : α :=
  s.current_doppler_shift

/-- Spec wording: `clamp(x, lo, hi)`, the value of `x` limited to the interval
from `lo` to `hi` (as `std::clamp`), used to state the slew limit of
`update_doppler`. -/
def clamp (x lo hi : α) : α :=
  if x < lo then lo else if hi < x then hi else x

/-- A counted loop `for (size_t i = start; i < start + count; ++i) body`, whose
body may fail to terminate within its own budget. -/
def forLoopM {σ : Type} (body : Nat → σ → Option σ) : Nat → Nat → σ → Option σ
  | 0, _, st => some st
  | count + 1, i, st => (body i st).bind (forLoopM body count (i + 1))

/-- The method `compensate_buffer(samples)`: the output vector is created with
`samples.size()` entries and entry `i` is overwritten with
`compensate(samples[i])`, for `i` from 0 upwards. -/
def DopplerCompensator.compensate_buffer (m : Libm α) (fuel : Nat) (s : DopplerCompensator α)
    (samples : List (ComplexSample α)) :
    Option (DopplerCompensator α × List (ComplexSample α)) :=
  forLoopM
    (fun i (st : DopplerCompensator α × List (ComplexSample α)) =>
      (st.1.compensate m fuel (samples.getD i ⟨0, 0⟩)).map fun r => (r.1, st.2.set i r.2))
    samples.length 0 (s, List.replicate samples.length ⟨0, 0⟩)

/-- Spec wording: successive `compensate` calls on the inputs in order, each on
the state left by the previous one; the final state and the list of results. -/
def DopplerCompensator.compensate_each (m : Libm α) (fuel : Nat) :
    DopplerCompensator α → List (ComplexSample α) →
      Option (DopplerCompensator α × List (ComplexSample α))
  | s, [] => some (s, [])
  | s, x :: xs =>
    (s.compensate m fuel x).bind fun r =>
      (DopplerCompensator.compensate_each m fuel r.1 xs).map fun q => (q.1, r.2 :: q.2)

/-- A call made by a client of a `DopplerCompensator`. -/
inductive Call (α : Type) where
  /-- The call `update_doppler(doppler_hz)`. -/
  | update_doppler (doppler_hz : α)
  /-- The call `compensate(sample)`. -/
  | compensate (sample : ComplexSample α)
  /-- The call `reset()`. -/
  | reset

/-- The state after one call (the value returned by `compensate` is dropped). -/
def DopplerCompensator.step (m : Libm α) (fuel : Nat) (s : DopplerCompensator α) :
    Call α → Option (DopplerCompensator α)
  | Call.update_doppler hz => some (s.update_doppler hz)
  | Call.compensate x => (s.compensate m fuel x).map Prod.fst
  | Call.reset => some s.reset

/-- The state after a sequence of calls, made in list order. -/
def DopplerCompensator.run (m : Libm α) (fuel : Nat) :
    DopplerCompensator α → List (Call α) → Option (DopplerCompensator α)
  | s, [] => some s
  | s, c :: cs => (s.step m fuel c).bind fun s1 => DopplerCompensator.run m fuel s1 cs

/-- Spec wording: de-rotation, the sample multiplied by the unit-magnitude
exponential of the negated phase, `s * (cos φ - i sin φ)`. -/
def derotate (m : Libm α) (sample : ComplexSample α) (phi : α) : ComplexSample α :=
  sample.mul ⟨m.cos phi, -m.sin phi⟩

/-! ## `signal_processor.h`: class `FIRFilter` -/

/-- A counted loop `for (size_t i = start; i < start + count; ++i) body` whose
body always terminates. -/
def forLoop {σ : Type} (body : Nat → σ → σ) : Nat → Nat → σ → σ
  | 0, _, st => st
  | count + 1, i, st => forLoop body count (i + 1) (body i st)

/-- The private fields of `FIRFilter`.  Vectors are lists; an index of type
`size_t` is a natural number (the sums of indices formed by the code stay below
twice the vector length, far from `2^64`). -/
structure FIRFilter (α : Type) where
  /-- The taps. -/
  coefficients : List α
  /-- The circular delay line. -/
  delay_line : List α
  /-- The write index into the delay line. -/
  delay_index : Nat
deriving DecidableEq

/-- The constructor `FIRFilter(taps)`: the delay line has `taps.size()` zeros. -/
def FIRFilter.new (taps : List α) : FIRFilter α where
  coefficients := taps
  delay_line := List.replicate taps.length 0
  delay_index := 0

/-- The method `process(sample)`: the new state and the output.  (With no taps
the code writes out of bounds and divides by zero; here the write is then
dropped, and nothing is claimed about that case.) -/
def FIRFilter.process (f : FIRFilter α) (sample : α) : FIRFilter α × α :=
  let delay_line := f.delay_line.set f.delay_index sample
  let output :=
    forLoop
      (fun i output =>
        let idx := (f.delay_index + i) % f.coefficients.length
        output + f.coefficients.getD i 0 * delay_line.getD idx 0)
      f.coefficients.length 0 0
  let delay_index := (f.delay_index + f.coefficients.length - 1) % f.coefficients.length
  ({ f with delay_line := delay_line, delay_index := delay_index }, output)

/-- The method `process_buffer(input)`: the output vector is created with
`input.size()` entries and entry `i` is overwritten with `process(input[i])`. -/
def FIRFilter.process_buffer (f : FIRFilter α) (input : List α) : FIRFilter α × List α :=
  forLoop
    (fun i (st : FIRFilter α × List α) =>
      let r := st.1.process (input.getD i 0)
      (r.1, st.2.set i r.2))
    input.length 0 (f, List.replicate input.length 0)

/-- Successive `process` calls on the inputs in order: the final state and the
list of outputs. -/
def FIRFilter.process_each : FIRFilter α → List α → FIRFilter α × List α
  | f, [] => (f, [])
  | f, x :: xs =>
    let r := f.process x
    let q := FIRFilter.process_each r.1 xs
    (q.1, r.2 :: q.2)

/-- The state of a filter with taps `h` that has been fed the samples `hist`
(most recent first): the delay line has one entry per tap, the write index is in
bounds, and the entry `j + 1` places after the write index (circularly) is the
sample fed `j + 1` calls ago, or zero when there were fewer calls. -/
def FIRFilter.Fed (f : FIRFilter α) (h hist : List α) : Prop :=
  f.coefficients = h ∧ f.delay_line.length = h.length ∧ f.delay_index < h.length ∧
    ∀ j, j < h.length →
      f.delay_line.getD ((f.delay_index + 1 + j) % h.length) 0 = hist.getD j 0

/-- Spec wording: causal convolution with zero initial history,
`y[k] = Σ_{i = 0}^{min(k, T-1)} h[i] * x[k-i]`. -/
def causal_convolution (h x : List α) (k : Nat) : α :=
  ∑ i in Finset.range (min k (h.length - 1) + 1), h.getD i 0 * x.getD (k - i) 0

/-! ## `signal_processor.h`: class `LowpassFilter` -/

/-- The conversion `(int)` of a `size_t` value to a 32-bit `int` (modular). -/
def toInt32 (n : Nat) : Int := ((n : Int) + 2 ^ 31) % 2 ^ 32 - 2 ^ 31

/-- The value stored in `taps[i]` by iteration `i` of the first loop of
`generate_sinc_taps`: `2 * cutoff` at the centre, and elsewhere
`sin(2π·cutoff·n) / (π·n)` multiplied by the Hamming window value
`0.54 - 0.46 cos(2π·i / (num_taps - 1))`, where `n = i - center`.  (The body
runs only for `num_taps ≥ 1`, where the `size_t` subtraction does not wrap.) -/
def sinc_tap (m : Libm α) (cutoff : α) (num_taps : Nat) (i : Nat) : α :=
  let center : Int := toInt32 (num_taps / 2)
  let n : Int := (i : Int) - center
  if n = 0 then 2 * cutoff
  else
    m.sin (2 * m.M_PI * cutoff * (n : α)) / (m.M_PI * (n : α)) *
      (54 / 100 - 46 / 100 * m.cos (2 * m.M_PI * (i : α) / ((num_taps - 1 : Nat) : α)))

/-- The first loop of `generate_sinc_taps`: the taps before normalisation and
the accumulated `sum`. -/
def sinc_taps_unnormalized (m : Libm α) (cutoff : α) (num_taps : Nat) : List α × α :=
  forLoop
    (fun i (st : List α × α) =>
      let tap := sinc_tap m cutoff num_taps i
      (st.1.set i tap, st.2 + tap))
    (toInt32 num_taps).toNat 0 (List.replicate num_taps 0, 0)

/-- The function `LowpassFilter::generate_sinc_taps(cutoff, num_taps)`: the first
loop followed by `for (auto& tap : taps) tap /= sum`. -/
def generate_sinc_taps (m : Libm α) (cutoff : α) (num_taps : Nat) : List α :=
  let st := sinc_taps_unnormalized m cutoff num_taps
  st.1.map fun tap => tap / st.2

/-- The constructor `LowpassFilter(cutoff_freq, num_taps)`. -/
def LowpassFilter.new (m : Libm α) (cutoff_freq : α) (num_taps : Nat) : FIRFilter α :=
  FIRFilter.new (generate_sinc_taps m cutoff_freq num_taps)

/-! ## `satellite_ephemeris.h`: Doppler model -/

/-- The struct `TopocentricView`. -/
structure TopocentricView (α : Type) where
  /-- Azimuth, degrees. -/
  azimuth : α
  /-- Elevation, degrees. -/
  elevation : α
  /-- Range, km. -/
  range : α
  /-- Range rate, km/s, positive when receding. -/
  range_rate : α
deriving DecidableEq

/-- The constant `SPEED_OF_LIGHT` of `signal_processor.h`, in m/s. -/
def SPEED_OF_LIGHT : α := 299792458

/-- The method `SatelliteEphemeris::calculate_doppler_shift(view, carrier_frequency_hz)`. -/
def calculate_doppler_shift (view : TopocentricView α) (carrier_frequency_hz : α) : α :=
  let doppler_shift := -view.range_rate * 1000 * carrier_frequency_hz / (SPEED_OF_LIGHT * 1000)
  doppler_shift

/-- Spec wording: the Doppler shift `−range_rate_mps · carrier_hz / c`, with the
range rate of the view converted from km/s to m/s and `c = 299792458` m/s. -/
def doppler_shift_spec (view : TopocentricView α) (carrier_hz : α) : α :=
  -(view.range_rate * 1000) * carrier_hz / 299792458

/-! ## `satellite_ephemeris.h`: Kepler solver -/

/-- One pass of the loop body of `solve_kepler_equation`: the Newton iterate
`E_new = E - f / df`. -/
def kepler_newton (m : Libm α) (mean_anomaly eccentricity E : α) : α :=
  let f := E - eccentricity * m.sin E - mean_anomaly
  let df := 1 - eccentricity * m.cos E
  E - f / df

/-- The loop of `solve_kepler_equation` with `k` of its `MAX_ITERATIONS = 50`
iterations left; `TOLERANCE = 1e-8` and `std::fabs` is the absolute value. -/
def kepler_loop (m : Libm α) (mean_anomaly eccentricity : α) : Nat → α → α
  | 0, E => E
  | k + 1, E =>
    let E_new := kepler_newton m mean_anomaly eccentricity E
    if |E_new - E| < 1 / 100000000 then E_new
    else kepler_loop m mean_anomaly eccentricity k E_new

/-- The method `SatelliteEphemeris::solve_kepler_equation(mean_anomaly, eccentricity)`. -/
def solve_kepler_equation (m : Libm α) (mean_anomaly eccentricity : α) : α :=
  kepler_loop m mean_anomaly eccentricity 50 mean_anomaly

/-- Spec wording: the residual `E − e·sin(E) − M` of Kepler's equation. -/
def kepler_residual (m : Libm α) (mean_anomaly eccentricity E : α) : α :=
  E - eccentricity * m.sin E - mean_anomaly

/-! ## `doppler_compensator.h`: class `FrequencySearcher` -/

/-- The struct `FrequencySearcher::SearchResult`. -/
structure SearchResult (α : Type) where
  /-- Frequency of the best candidate, Hz. -/
  best_frequency : α
  /-- Metric of the best candidate. -/
  best_metric : α
  /-- Whether a candidate replaced the initial result. -/
  found : Bool
deriving DecidableEq

/-- The function `FrequencySearcher::compute_correlation(samples, frequency,
sample_rate)`; the loop state is `(phase, real_sum, imag_sum)`. -/
def compute_correlation (m : Libm α) (samples : List (ComplexSample α))
    (frequency sample_rate : α) : α :=
  let phase_increment := frequency * 2 * m.M_PI / sample_rate
  let st :=
    samples.foldl
      (fun (st : α × α × α) sample =>
        let local_oscillator := polar m 1 st.1
        let correlated := sample.mul local_oscillator
        (st.1 + phase_increment, st.2.1 + correlated.re, st.2.2 + correlated.im))
      (0, 0, 0)
  m.sqrt (st.2.1 * st.2.1 + st.2.2 * st.2.2) / (samples.length : α)

/-- The loop `for (double freq = start; freq <= end_freq; freq += step_size)`
with a budget of `fuel` iterations; `visit freq` is the loop body acting on the
rest of the state. -/
def sweep {σ : Type} (end_freq step_size : α) (visit : α → σ → σ) (fuel : Nat)
    (start_freq : α) (init : σ) : Option σ :=
  (whileLoop (fun p : α × σ => decide (p.1 ≤ end_freq))
    (fun p => (p.1 + step_size, visit p.1 p.2)) fuel (start_freq, init)).map Prod.snd

/-- The body of the loop of `search_frequency_range` for a candidate whose
metric is `correlation`. -/
def SearchResult.consider (result : SearchResult α) (freq correlation : α) : SearchResult α :=
  if correlation > result.best_metric then
    { best_metric := correlation, best_frequency := freq, found := true }
  else result

/-- The loop of `search_frequency_range` for an arbitrary metric. -/
def search_with (metric : α → α) (fuel : Nat)
    (center_freq search_width step_size : α) : Option (SearchResult α) :=
  let result : SearchResult α := { best_frequency := center_freq, best_metric := 0, found := false }
  let start_freq := center_freq - search_width / 2
  let end_freq := center_freq + search_width / 2
  sweep end_freq step_size
    (fun freq result =>
      let correlation := metric freq
      result.consider freq correlation)
    fuel start_freq result

/-- The function `FrequencySearcher::search_frequency_range(samples, center_freq,
search_width, step_size, sample_rate)`. -/
def search_frequency_range (m : Libm α) (fuel : Nat) (samples : List (ComplexSample α))
    (center_freq search_width step_size sample_rate : α) : Option (SearchResult α) :=
  search_with (fun freq => compute_correlation m samples freq sample_rate) fuel
    center_freq search_width step_size

/-- The candidate frequencies the loop of `search_frequency_range` visits, in
sweep order: the same loop with a body that records `freq`. -/
def swept_candidates (fuel : Nat) (center_freq search_width step_size : α) : Option (List α) :=
  sweep (center_freq + search_width / 2) step_size (fun freq visited => visited ++ [freq])
    fuel (center_freq - search_width / 2) []

/-- Spec wording: the noise-free complex tone `samples[k] = exp(+i·2π·f·k/fs)`,
`k = 0, …, n - 1`. -/
def tone (m : Libm α) (f fs : α) (n : Nat) : List (ComplexSample α) :=
  (List.range n).map fun k => polar m 1 (2 * m.M_PI * f * (k : α) / fs)

/-! ## `signal_processor.h`: classes `PhaseLockedLoop` and `QPSKDemodulator` -/

/-- The function `std::conj`. -/
def ComplexSample.conj (a : ComplexSample α) : ComplexSample α := ⟨a.re, -a.im⟩

/-- The function `std::arg`, `atan2(imag, real)`. -/
def arg (m : Libm α) (z : ComplexSample α) : α := m.atan2 z.im z.re

/-- The private fields of `PhaseLockedLoop`. -/
structure PhaseLockedLoop (α : Type) where
  /-- Frequency estimate. -/
  frequency : α
  /-- Local-oscillator phase. -/
  phase : α
  /-- Proportional gain. -/
  kp : α
  /-- Integral gain. -/
  ki : α
  /-- Integral of the phase error. -/
  integral_error : α
deriving DecidableEq

/-- The constructor `PhaseLockedLoop(initial_freq, kp_val, ki_val)`. -/
def PhaseLockedLoop.new (initial_freq kp_val ki_val : α) : PhaseLockedLoop α where
  frequency := initial_freq
  phase := 0
  kp := kp_val
  ki := ki_val
  integral_error := 0

/-- The constructor with its default gains `kp_val = 0.1`, `ki_val = 0.01`. -/
def PhaseLockedLoop.new_default (initial_freq : α) : PhaseLockedLoop α :=
  PhaseLockedLoop.new initial_freq (1 / 10) (1 / 100)

/-- The method `PhaseLockedLoop::process(input)`: the new state and the output. -/
def PhaseLockedLoop.process (m : Libm α) (p : PhaseLockedLoop α) (input : ComplexSample α) :
    PhaseLockedLoop α × ComplexSample α :=
  let carrier := polar m 1 p.phase
  let output := input.mul carrier.conj
  let phase_error := arg m output
  let integral_error := p.integral_error + phase_error
  let freq_correction := p.kp * phase_error + p.ki * integral_error
  let frequency := p.frequency + freq_correction * (1 / 100)
  let phase := p.phase + frequency * 2 * m.M_PI / 1000000
  ({ p with frequency := frequency, phase := phase, integral_error := integral_error }, output)

/-- Successive `process` calls on the inputs in order: the final state and the
list of outputs. -/
def PhaseLockedLoop.process_each (m : Libm α) :
    PhaseLockedLoop α → List (ComplexSample α) → PhaseLockedLoop α × List (ComplexSample α)
  | p, [] => (p, [])
  | p, x :: xs =>
    let r := p.process m x
    let q := PhaseLockedLoop.process_each m r.1 xs
    (q.1, r.2 :: q.2)

/-- The private fields of `QPSKDemodulator`; a decision (`int`) is a natural number. -/
structure QPSKDemodulator (α : Type) where
  /-- The matched filter (not used by `demodulate`). -/
  matched_filter : FIRFilter α
  /-- The carrier-tracking loop. -/
  pll : PhaseLockedLoop α
  /-- The decisions of the last `demodulate` call. -/
  decisions : List Nat
deriving DecidableEq

/-- The function `QPSKDemodulator::generate_matched_filter()`: 32 taps of `1/32`. -/
def generate_matched_filter : List α := List.replicate 32 (1 / 32)

/-- The constructor `QPSKDemodulator(carrier_freq)`. -/
def QPSKDemodulator.new (carrier_freq : α) : QPSKDemodulator α where
  matched_filter := FIRFilter.new generate_matched_filter
  pll := PhaseLockedLoop.new_default carrier_freq
  decisions := []

/-- The decision made in the loop body of `demodulate` from the in-phase and
quadrature parts of the tracked symbol. -/
def qpsk_bits (i q : α) : Nat :=
  let bits := 0
  let bits := if i > 0 then bits ||| 1 else bits
  let bits := if q > 0 then bits ||| 2 else bits
  bits

/-- The method `QPSKDemodulator::demodulate(symbols)`: the new state and the
returned copy of `decisions`. -/
def QPSKDemodulator.demodulate (m : Libm α) (d : QPSKDemodulator α)
    (symbols : List (ComplexSample α)) : QPSKDemodulator α × List Nat :=
  let d0 := { d with decisions := [] }
  let d1 :=
    symbols.foldl
      (fun (d : QPSKDemodulator α) symbol =>
        let r := d.pll.process m symbol
        let tracked := r.2
        let i := tracked.re
        let q := tracked.im
        let bits := qpsk_bits i q
        { d with pll := r.1, decisions := d.decisions ++ [bits] })
      d0
  (d1, d1.decisions)

/-! ## `satellite_ephemeris.h`: class `SatelliteEphemeris` -/

/-- The constant `EARTH_RADIUS_KM`. -/
def EARTH_RADIUS_KM : α := 6371

/-- The constant `EARTH_MU`, in km³/s². -/
def EARTH_MU : α := 3986004418 / 10000

/-- The constant `DEG_TO_RAD`, the literal of `M_PI` divided by 180. -/
def DEG_TO_RAD (m : Libm α) : α := m.M_PI / 180

/-- The constant `RAD_TO_DEG`, 180 divided by the literal of `M_PI`. -/
def RAD_TO_DEG (m : Libm α) : α := 180 / m.M_PI

/-- The struct `StateVector`: position in km and velocity in km/s, ECI. -/
structure StateVector (α : Type) where
  /-- Position, x. -/
  x : α
  /-- Position, y. -/
  y : α
  /-- Position, z. -/
  z : α
  /-- Velocity, x. -/
  vx : α
  /-- Velocity, y. -/
  vy : α
  /-- Velocity, z. -/
  vz : α
deriving DecidableEq

/-- The struct `GroundStation`: latitude and longitude in degrees, elevation in metres. -/
structure GroundStation (α : Type) where
  /-- Latitude, degrees. -/
  latitude : α
  /-- Longitude, degrees. -/
  longitude : α
  /-- Elevation, metres. -/
  elevation : α
deriving DecidableEq

/-- The fields of the struct `TLE` that the propagator reads. -/
structure TLE (α : Type) where
  /-- Mean motion, revolutions per day. -/
  mean_motion : α
  /-- Inclination, radians. -/
  inclination : α
  /-- Right ascension of the ascending node, radians. -/
  raan : α
  /-- Eccentricity. -/
  eccentricity : α
  /-- Argument of perigee, radians. -/
  argument_perigee : α
  /-- Mean anomaly at epoch, radians. -/
  mean_anomaly : α
deriving DecidableEq

/-- The private fields of `SatelliteEphemeris`. -/
structure SatelliteEphemeris (α : Type) where
  /-- The element set. -/
  tle : TLE α
  /-- Semi-major axis. -/
  semi_major_axis : α
  /-- Mean motion, radians per minute. -/
  mean_motion_radians : α
deriving DecidableEq

/-- The constructor `SatelliteEphemeris(tle_data)`, with the body of `initialize()`. -/
def SatelliteEphemeris.new (m : Libm α) (tle_data : TLE α) : SatelliteEphemeris α :=
  let mean_motion_rev_per_day := tle_data.mean_motion
  let mean_motion_radians := mean_motion_rev_per_day * 2 * m.M_PI / 1440
  let n := mean_motion_radians
  let semi_major_axis := m.pow (EARTH_MU / (n * n)) (1 / 3)
  { tle := tle_data, semi_major_axis := semi_major_axis,
    mean_motion_radians := mean_motion_radians }

/-- The method `perifocal_to_eci(true_anomaly, radius)`. -/
def SatelliteEphemeris.perifocal_to_eci (m : Libm α) (s : SatelliteEphemeris α)
    (true_anomaly radius : α) : StateVector α :=
  let cos_ta := m.cos true_anomaly
  let sin_ta := m.sin true_anomaly
  let p_x := radius * cos_ta
  let p_y := radius * sin_ta
  let v_magnitude :=
    m.sqrt (EARTH_MU / s.semi_major_axis * (2 / radius - 1 / s.semi_major_axis))
  let v_x := -v_magnitude * sin_ta
  let v_y := v_magnitude * (s.tle.eccentricity + cos_ta)
  let cos_raan := m.cos s.tle.raan
  let sin_raan := m.sin s.tle.raan
  let cos_inc := m.cos s.tle.inclination
  let sin_inc := m.sin s.tle.inclination
  let cos_arg := m.cos s.tle.argument_perigee
  let sin_arg := m.sin s.tle.argument_perigee
  { x := (cos_raan * cos_arg - sin_raan * sin_arg * cos_inc) * p_x +
         (-cos_raan * sin_arg - sin_raan * cos_arg * cos_inc) * p_y
    y := (sin_raan * cos_arg + cos_raan * sin_arg * cos_inc) * p_x +
         (-sin_raan * sin_arg + cos_raan * cos_arg * cos_inc) * p_y
    z := sin_inc * sin_arg * p_x + sin_inc * cos_arg * p_y
    vx := (cos_raan * cos_arg - sin_raan * sin_arg * cos_inc) * v_x +
          (-cos_raan * sin_arg - sin_raan * cos_arg * cos_inc) * v_y
    vy := (sin_raan * cos_arg + cos_raan * sin_arg * cos_inc) * v_x +
          (-sin_raan * sin_arg + cos_raan * cos_arg * cos_inc) * v_y
    vz := sin_inc * sin_arg * v_x + sin_inc * cos_arg * v_y }

/-- The method `get_position(minutes_from_epoch)`. -/
def SatelliteEphemeris.get_position (m : Libm α) (s : SatelliteEphemeris α)
    (minutes_from_epoch : α) : StateVector α :=
  let mean_anomaly := s.tle.mean_anomaly + s.mean_motion_radians * minutes_from_epoch
  let mean_anomaly := m.fmod mean_anomaly (2 * m.M_PI)
  let eccentric_anomaly := solve_kepler_equation m mean_anomaly s.tle.eccentricity
  let true_anomaly :=
    2 * m.atan2
      (m.sqrt (1 + s.tle.eccentricity) * m.sin (eccentric_anomaly / 2))
      (m.sqrt (1 - s.tle.eccentricity) * m.cos (eccentric_anomaly / 2))
  let radius := s.semi_major_axis * (1 - s.tle.eccentricity * m.cos eccentric_anomaly)
  s.perifocal_to_eci m true_anomaly radius

/-- The method `ground_station_to_eci(station)`. -/
def ground_station_to_eci (m : Libm α) (station : GroundStation α) : StateVector α :=
  let lat_rad := station.latitude * DEG_TO_RAD m
  let lon_rad := station.longitude * DEG_TO_RAD m
  let alt_km := station.elevation / 1000
  let radius := EARTH_RADIUS_KM + alt_km
  let cos_lat := m.cos lat_rad
  let sin_lat := m.sin lat_rad
  let x := radius * cos_lat * m.cos lon_rad
  let y := radius * cos_lat * m.sin lon_rad
  let z := radius * sin_lat
  let earth_rotation_rate : α := 7292115 / 100000000000
  { x := x, y := y, z := z,
    vx := -earth_rotation_rate * y, vy := earth_rotation_rate * x, vz := 0 }

/-- The local variable `south` of `get_topocentric`. -/
def sez_south (m : Libm α) (station : GroundStation α) (dx dy dz : α) : α :=
  let lat_rad := station.latitude * DEG_TO_RAD m
  let lon_rad := station.longitude * DEG_TO_RAD m
  m.sin lat_rad * m.cos lon_rad * dx + m.sin lat_rad * m.sin lon_rad * dy - m.cos lat_rad * dz

/-- The local variable `east` of `get_topocentric`. -/
def sez_east (m : Libm α) (station : GroundStation α) (dx dy : α) : α :=
  let lon_rad := station.longitude * DEG_TO_RAD m;
  -m.sin lon_rad * dx + m.cos lon_rad * dy

/-- The local variable `zenith` of `get_topocentric`. -/
def sez_zenith (m : Libm α) (station : GroundStation α) (dx dy dz : α) : α :=
  let lat_rad := station.latitude * DEG_TO_RAD m
  let lon_rad := station.longitude * DEG_TO_RAD m
  m.cos lat_rad * m.cos lon_rad * dx + m.cos lat_rad * m.sin lon_rad * dy + m.sin lat_rad * dz

/-- The method `get_topocentric(satellite_pos, station)`. -/
def get_topocentric (m : Libm α) (satellite_pos : StateVector α) (station : GroundStation α) :
    TopocentricView α :=
  let station_pos := ground_station_to_eci m station
  let dx := satellite_pos.x - station_pos.x
  let dy := satellite_pos.y - station_pos.y
  let dz := satellite_pos.z - station_pos.z
  let range := m.sqrt (dx * dx + dy * dy + dz * dz)
  let south := sez_south m station dx dy dz
  let east := sez_east m station dx dy
  let zenith := sez_zenith m station dx dy dz
  let azimuth := m.atan2 east south * RAD_TO_DEG m
  let azimuth := if azimuth < 0 then azimuth + 360 else azimuth
  let elevation := m.asin (zenith / range) * RAD_TO_DEG m
  let range_rate :=
    ((satellite_pos.vx - station_pos.vx) * dx + (satellite_pos.vy - station_pos.vy) * dy +
      (satellite_pos.vz - station_pos.vz) * dz) / range
  { azimuth := azimuth, elevation := elevation, range := range, range_rate := range_rate }

/-- The local variable `mean_anomaly` of `get_position` after the `std::fmod`:
the value passed to the Kepler solver. -/
def SatelliteEphemeris.mean_anomaly_at (m : Libm α) (s : SatelliteEphemeris α)
    (minutes_from_epoch : α) : α :=
  m.fmod (s.tle.mean_anomaly + s.mean_motion_radians * minutes_from_epoch) (2 * m.M_PI)

/-- The local variable `eccentric_anomaly` of `get_position`. -/
def SatelliteEphemeris.eccentric_anomaly_at (m : Libm α) (s : SatelliteEphemeris α)
    (minutes_from_epoch : α) : α :=
  solve_kepler_equation m (s.mean_anomaly_at m minutes_from_epoch) s.tle.eccentricity

/-- The local variable `true_anomaly` of `get_position`. -/
def SatelliteEphemeris.true_anomaly_at (m : Libm α) (s : SatelliteEphemeris α)
    (minutes_from_epoch : α) : α :=
  2 * m.atan2
    (m.sqrt (1 + s.tle.eccentricity) * m.sin (s.eccentric_anomaly_at m minutes_from_epoch / 2))
    (m.sqrt (1 - s.tle.eccentricity) * m.cos (s.eccentric_anomaly_at m minutes_from_epoch / 2))

/-- The local variable `radius` of `get_position`. -/
def SatelliteEphemeris.radius_at (m : Libm α) (s : SatelliteEphemeris α)
    (minutes_from_epoch : α) : α :=
  s.semi_major_axis *
    (1 - s.tle.eccentricity * m.cos (s.eccentric_anomaly_at m minutes_from_epoch))

/-! ## `signal_processor.h`: class `SignalAnalyzer` -/

/-- The struct `SignalMetrics`. -/
structure SignalMetrics (α : Type) where
  /-- Signal-to-noise ratio, dB. -/
  snr_db : α
  /-- Mean power of the samples. -/
  signal_power : α
  /-- Noise-floor estimate. -/
  noise_power : α
  /-- Largest magnitude. -/
  peak_amplitude : α
  /-- Mean magnitude. -/
  mean_amplitude : α
  /-- Whether the ratio exceeds 3 dB. -/
  is_locked : Bool
deriving DecidableEq

/-- The function `std::abs` on a complex sample: `sqrt(re² + im²)`. -/
def ComplexSample.abs (m : Libm α) (s : ComplexSample α) : α :=
  m.sqrt (s.re * s.re + s.im * s.im)

/-- The private function `SignalAnalyzer::calculate_noise_floor(signal)`.  The
call of `std::sort` is an insertion sort here: the sorted vector of numbers is
the same whatever the algorithm. -/
def SignalAnalyzer.calculate_noise_floor (m : Libm α) (signal : List (ComplexSample α)) : α :=
  if signal.length < 2 then 0
  else
    let magnitudes := signal.map (ComplexSample.abs m)
    let magnitudes := magnitudes.insertionSort (· ≤ ·)
    let noise_samples := signal.length / 10
    let noise :=
      forLoop (fun i noise => noise + magnitudes.getD i 0 * magnitudes.getD i 0)
        noise_samples 0 0
    noise / (noise_samples : α)

/-- The function `SignalAnalyzer::analyze(signal)`; the loop state is
`(signal_power, peak, mean)`. -/
def SignalAnalyzer.analyze (m : Libm α) (signal : List (ComplexSample α)) : SignalMetrics α :=
  let st :=
    signal.foldl
      (fun (st : α × α × α) sample =>
        let magnitude := ComplexSample.abs m sample
        (st.1 + magnitude * magnitude, max st.2.1 magnitude, st.2.2 + magnitude))
      (0, 0, 0)
  let signal_power := st.1 / (signal.length : α)
  let mean := st.2.2 / (signal.length : α)
  let noise_power := SignalAnalyzer.calculate_noise_floor m signal
  let snr_db := 10 * m.log10 (signal_power / (noise_power + 1 / 1000000000000))
  { snr_db := snr_db, signal_power := signal_power, noise_power := noise_power,
    peak_amplitude := st.2.1, mean_amplitude := mean, is_locked := decide (snr_db > 3) }

/-- Spec wording: the mean of the squared sample magnitudes,
`(Σ (re² + im²)) / N`. -/
def mean_square_magnitude (signal : List (ComplexSample α)) : α :=
  (signal.map fun s => s.re * s.re + s.im * s.im).sum / (signal.length : α)

/-! ## Windowed-sinc design, in the words of the specification -/

/-- Spec wording: the normalised sinc function, `sinc(x) = sin(πx) / (πx)` with
`sinc(0) = 1`. -/
def sinc (m : Libm α) (x : α) : α :=
  if x = 0 then 1 else m.sin (m.M_PI * x) / (m.M_PI * x)

/-- Spec wording: the Hamming window value at index `i` of `N` taps,
`0.54 - 0.46 cos(2π·i / (N - 1))`. -/
def hamming (m : Libm α) (N i : Nat) : α :=
  54 / 100 - 46 / 100 * m.cos (2 * m.M_PI * (i : α) / ((N - 1 : Nat) : α))

/-- Spec wording: the windowed ideal response at index `i` of `N` taps,
`sinc(2·cutoff·n)` at the offset `n = i - floor(N / 2)` from the centre,
multiplied by the Hamming window value at `i`. -/
def windowed_sinc (m : Libm α) (cutoff : α) (N i : Nat) : α :=
  sinc m (2 * cutoff * (((i : Int) - ((N / 2 : Nat) : Int) : Int) : α)) * hamming m N i

/-! ## Error reporting -/

/-- An error reported to the caller of a constructor or a method (what a C++
`throw` would carry): a configuration error or a domain error. -/
inductive CallError where
  /-- Invalid configuration given to a constructor. -/
  | configuration_error
  /-- Degenerate input given to a method. -/
  | domain_error
deriving DecidableEq

/-- The call `DopplerCompensator(sample_rate_hz, smoothing)` as the caller sees
it.  The constructor is a member-initialiser list with an empty body: it has no
test of `sample_rate_hz` and no `throw`, so every call returns the object. -/
def DopplerCompensator.new_outcome (sample_rate_hz smoothing : α) :
    Except CallError (DopplerCompensator α) :=
  Except.ok (DopplerCompensator.new sample_rate_hz smoothing)

/-- The call `SatelliteEphemeris(tle_data)` as the caller sees it.  The
constructor copies the elements and runs `initialize()`; neither has a test of
the elements or a `throw`, so every call returns the object. -/
def SatelliteEphemeris.new_outcome (m : Libm α) (tle_data : TLE α) :
    Except CallError (SatelliteEphemeris α) :=
  Except.ok (SatelliteEphemeris.new m tle_data)

/-- The call `get_topocentric(satellite_pos, station)` as the caller sees it.
The body is straight-line code apart from `if (azimuth < 0)`: it has no test of
`range` and no `throw`, so every call returns the view it computed. -/
def get_topocentric_outcome (m : Libm α) (satellite_pos : StateVector α)
    (station : GroundStation α) : Except CallError (TopocentricView α) :=
  Except.ok (get_topocentric m satellite_pos station)

end Defs

/-! # Theorems -/

section Loops

/-- A loop that exits within a budget exits with the same result within any larger one. -/
theorem whileLoop_mono {σ : Type} (cond : σ → Bool) (body : σ → σ) :
    ∀ (n : Nat) (s r : σ), whileLoop cond body n s = some r →
      ∀ n', n ≤ n' → whileLoop cond body n' s = some r := by
  intro n
  induction n with
  | zero =>
    intro s r h n' _
    unfold whileLoop at h
    split_ifs at h with hc
    cases n' with
    | zero => simp [whileLoop, hc, h]
    | succ k => simp [whileLoop, hc, h]
  | succ n ih =>
    intro s r h n' hn
    unfold whileLoop at h
    cases n' with
    | zero => omega
    | succ k =>
      unfold whileLoop
      split_ifs at h ⊢ with hc
      · exact ih _ _ h k (by omega)
      · exact h

/-- On exit the loop condition is false. -/
theorem whileLoop_exit {σ : Type} (cond : σ → Bool) (body : σ → σ) :
    ∀ (n : Nat) (s r : σ), whileLoop cond body n s = some r → cond r = false := by
  intro n
  induction n with
  | zero =>
    intro s r h
    unfold whileLoop at h
    split_ifs at h with hc
    simp at h; subst h; simpa using hc
  | succ n ih =>
    intro s r h
    unfold whileLoop at h
    split_ifs at h with hc
    · exact ih _ _ h
    · simp at h; subst h; simpa using hc

/-- A property preserved by the body whenever the condition holds is preserved by the loop. -/
theorem whileLoop_invariant {σ : Type} (cond : σ → Bool) (body : σ → σ) (I : σ → Prop)
    (hI : ∀ s, I s → cond s = true → I (body s)) :
    ∀ (n : Nat) (s r : σ), I s → whileLoop cond body n s = some r → I r := by
  intro n
  induction n with
  | zero =>
    intro s r hs h
    unfold whileLoop at h
    split_ifs at h with hc
    simp at h; subst h; exact hs
  | succ n ih =>
    intro s r hs h
    unfold whileLoop at h
    split_ifs at h with hc
    · exact ih _ _ (hI s hs hc) h
    · simp at h; subst h; exact hs

variable {α : Type} [LinearOrderedField α]

/-- The loop `while (p >= T) p -= T` exits within `n` iterations when `p < (n + 1) T`. -/
theorem wrap_down_terminates (T : α) :
    ∀ (n : Nat) (p : α), p < (n + 1) * T →
      ∃ q, whileLoop (fun p => decide (p ≥ T)) (fun p => p - T) n p = some q := by
  intro n
  induction n with
  | zero =>
    intro p hp
    refine ⟨p, ?_⟩
    have : ¬ (p ≥ T) := by simpa using hp
    simp [whileLoop, this]
  | succ n ih =>
    intro p hp
    unfold whileLoop
    by_cases hc : p ≥ T
    · simp only [hc, decide_True, if_true]
      apply ih
      push_cast at hp
      linarith
    · exact ⟨p, by simp [hc]⟩

/-- The loop `while (p < 0) p += T` exits within `n` iterations when `0 ≤ p + n T`. -/
theorem wrap_up_terminates (T : α) :
    ∀ (n : Nat) (p : α), 0 ≤ p + n * T →
      ∃ q, whileLoop (fun p => decide (p < 0)) (fun p => p + T) n p = some q := by
  intro n
  induction n with
  | zero =>
    intro p hp
    refine ⟨p, ?_⟩
    have : ¬ (p < 0) := by simpa using hp
    simp [whileLoop, this]
  | succ n ih =>
    intro p hp
    unfold whileLoop
    by_cases hc : p < 0
    · simp only [hc, decide_True, if_true]
      apply ih
      push_cast at hp
      linarith
    · exact ⟨p, by simp [hc]⟩

end Loops

section DopplerCompensatorArithmetic

variable {α : Type} [LinearOrderedField α]

/-- The slew bound `max_rate_of_change / sample_rate` is non-negative for a
positive sample rate and a non-negative limit. -/
theorem slew_bound_nonneg (s : DopplerCompensator α) (hfs : 0 < s.sample_rate)
    (hR : 0 ≤ s.max_rate_of_change) : 0 ≤ s.max_rate_of_change / s.sample_rate :=
  div_nonneg hR hfs.le

/-- The constructor fixes the slew limit at 1000 Hz/s. -/
theorem new_max_rate_of_change (fs sm : α) :
    (DopplerCompensator.new fs sm).max_rate_of_change = 1000 := rfl

/-- The method `update_doppler` changes neither the slew limit nor the sample rate. -/
theorem update_doppler_config (s : DopplerCompensator α) (hz : α) :
    (s.update_doppler hz).max_rate_of_change = s.max_rate_of_change ∧
    (s.update_doppler hz).sample_rate = s.sample_rate ∧
    (s.update_doppler hz).smoothing_factor = s.smoothing_factor ∧
    (s.update_doppler hz).phase_accumulator = s.phase_accumulator :=
  ⟨rfl, rfl, rfl, rfl⟩

/-- The clamped delta of `update_doppler` is the difference of new and old target. -/
theorem update_doppler_target (s : DopplerCompensator α) (hz : α) :
    (s.update_doppler hz).target_doppler_shift = s.target_doppler_shift +
      (if hz - s.target_doppler_shift > s.max_rate_of_change / s.sample_rate then
        s.max_rate_of_change / s.sample_rate
      else if hz - s.target_doppler_shift < -s.max_rate_of_change / s.sample_rate then
        -s.max_rate_of_change / s.sample_rate
      else hz - s.target_doppler_shift) := rfl

/-- C1. Slew-rate limiting: for a compensator with a positive sample rate (and the
non-negative slew limit every constructed compensator has), one call of
`update_doppler` moves the tracked target by at most
`max_rate_of_change / sample_rate` in absolute value, whatever the request. -/
theorem update_doppler_slew_limit (s : DopplerCompensator α) (request : α)
    (hfs : 0 < s.sample_rate) (hR : 0 ≤ s.max_rate_of_change) :
    |(s.update_doppler request).target_doppler_shift - s.target_doppler_shift| ≤
      s.max_rate_of_change / s.sample_rate := by
  have hb := slew_bound_nonneg s hfs hR
  rw [update_doppler_target, add_sub_cancel_left, neg_div]
  split_ifs with h1 h2
  · rw [abs_of_nonneg hb]
  · rw [abs_neg, abs_of_nonneg hb]
  · rw [abs_le]
    exact ⟨not_lt.mp h2, not_lt.mp h1⟩

/-- Witness for C1: a compensator at 1 MHz asked to jump by 5000 Hz. -/
theorem update_doppler_slew_limit_witness :
    (0 : ℚ) < (DopplerCompensator.new_default (1000000 : ℚ)).sample_rate ∧
    (0 : ℚ) ≤ (DopplerCompensator.new_default (1000000 : ℚ)).max_rate_of_change ∧
    |((DopplerCompensator.new_default (1000000 : ℚ)).update_doppler 5000).target_doppler_shift
        - (DopplerCompensator.new_default (1000000 : ℚ)).target_doppler_shift| ≤
      (DopplerCompensator.new_default (1000000 : ℚ)).max_rate_of_change /
        (DopplerCompensator.new_default (1000000 : ℚ)).sample_rate :=
  ⟨by norm_num [DopplerCompensator.new_default, DopplerCompensator.new],
   by norm_num [DopplerCompensator.new_default, DopplerCompensator.new],
   update_doppler_slew_limit _ 5000
     (by norm_num [DopplerCompensator.new_default, DopplerCompensator.new])
     (by norm_num [DopplerCompensator.new_default, DopplerCompensator.new])⟩

/-- C4. Order of `update_doppler`: clamp, accumulate, blend.  With
`d = clamp (request - target) (-R/fs) (R/fs)` the new target is `target + d`, and the
new current shift is `alpha * current_old + (1 - alpha) * target_new`, computed from
the target already updated.  The clamp interval is non-empty: the sample rate is
positive and the slew limit non-negative, as for every constructed compensator. -/
theorem update_doppler_clamp_accumulate_blend (s : DopplerCompensator α) (request : α)
    (hfs : 0 < s.sample_rate) (hR : 0 ≤ s.max_rate_of_change) :
    (s.update_doppler request).target_doppler_shift =
      s.target_doppler_shift +
        clamp (request - s.target_doppler_shift)
          (-(s.max_rate_of_change / s.sample_rate)) (s.max_rate_of_change / s.sample_rate) ∧
    (s.update_doppler request).current_doppler_shift =
      s.smoothing_factor * s.current_doppler_shift +
        (1 - s.smoothing_factor) * (s.update_doppler request).target_doppler_shift := by
  have hb := slew_bound_nonneg s hfs hR
  refine ⟨?_, rfl⟩
  rw [update_doppler_target, neg_div]
  unfold clamp
  congr 1
  split_ifs with h1 h2 h3 <;> first | rfl | (exfalso; linarith)

/-- Witness for C4: from target 0 and current 0 at `fs = 1000`, `alpha = 1/2`, a
request of 5 is clamped to `R/fs = 1`; the new target is 1 and the new current
shift is `1/2`, which is neither the blend with the old target (0) nor the
blend with the raw request (`5/2`). -/
theorem update_doppler_clamp_accumulate_blend_witness :
    ((DopplerCompensator.new (1000 : ℚ) (1 / 2)).update_doppler 5).target_doppler_shift = 1 ∧
    ((DopplerCompensator.new (1000 : ℚ) (1 / 2)).update_doppler 5).current_doppler_shift
      = 1 / 2 := by
  have h := update_doppler_clamp_accumulate_blend (DopplerCompensator.new (1000 : ℚ) (1 / 2)) 5
    (by norm_num [DopplerCompensator.new]) (by norm_num [DopplerCompensator.new])
  have ht : ((DopplerCompensator.new (1000 : ℚ) (1 / 2)).update_doppler 5).target_doppler_shift
      = 1 := by
    rw [h.1]
    norm_num [DopplerCompensator.new, clamp]
  refine ⟨ht, ?_⟩
  rw [h.2, ht]
  norm_num [DopplerCompensator.new]

end DopplerCompensatorArithmetic

section PhaseWrap

variable {α : Type} [LinearOrderedField α]

/-- Whatever the budget, a phase returned by `wrap_phase` lies in `[0, 2π)` and
differs from the input by an integer multiple of `2π`. -/
theorem wrap_phase_range (m : Libm α) (fuel : Nat) (p q : α)
    (h : wrap_phase m fuel p = some q) :
    0 ≤ q ∧ q < 2 * m.M_PI ∧ ∃ k : ℤ, q = p + k * (2 * m.M_PI) := by
  unfold wrap_phase at h
  rcases Option.bind_eq_some.mp h with ⟨q1, h1, h2⟩
  have e1 := whileLoop_exit _ _ _ _ _ h1
  have e2 := whileLoop_exit _ _ _ _ _ h2
  have hq1 : q1 < 2 * m.M_PI := by simpa using e1
  have hq0 : 0 ≤ q := by simpa using e2
  have hq2 : q < 2 * m.M_PI :=
    whileLoop_invariant _ _ (fun x => x < 2 * m.M_PI)
      (fun x _ hc => by
        have hx : x < 0 := by simpa using hc
        show x + 2 * m.M_PI < 2 * m.M_PI
        linarith) _ _ _ hq1 h2
  have k1 : ∃ k : ℤ, q1 = p + k * (2 * m.M_PI) :=
    whileLoop_invariant _ _ (fun x => ∃ k : ℤ, x = p + k * (2 * m.M_PI))
      (fun x hx _ => by
        obtain ⟨k, hk⟩ := hx
        refine ⟨k - 1, ?_⟩
        show x - 2 * m.M_PI = _
        rw [hk]; push_cast; ring) _ _ _ ⟨0, by simp⟩ h1
  have k2 : ∃ k : ℤ, q = p + k * (2 * m.M_PI) :=
    whileLoop_invariant _ _ (fun x => ∃ k : ℤ, x = p + k * (2 * m.M_PI))
      (fun x hx _ => by
        obtain ⟨k, hk⟩ := hx
        refine ⟨k + 1, ?_⟩
        show x + 2 * m.M_PI = _
        rw [hk]; push_cast; ring) _ _ _ k1 h2
  exact ⟨hq0, hq2, k2⟩

/-- More budget does not change the result of `wrap_phase`. -/
theorem wrap_phase_mono (m : Libm α) (n n' : Nat) (hn : n ≤ n') (p q : α)
    (h : wrap_phase m n p = some q) : wrap_phase m n' p = some q := by
  unfold wrap_phase at h ⊢
  rcases Option.bind_eq_some.mp h with ⟨q1, h1, h2⟩
  rw [whileLoop_mono _ _ _ _ _ h1 _ hn]
  exact whileLoop_mono _ _ _ _ _ h2 _ hn

/-- Both wrapping loops terminate: for every phase there is a budget within
which `wrap_phase` returns. -/
theorem wrap_phase_terminates [Archimedean α] (m : Libm α) (hpi : 0 < m.M_PI) (p : α) :
    ∃ N q, wrap_phase m N p = some q := by
  have hT : 0 < 2 * m.M_PI := by linarith
  obtain ⟨n1, hn1⟩ := exists_nat_gt (p / (2 * m.M_PI))
  have hp1 : p < (n1 + 1) * (2 * m.M_PI) := by
    rw [div_lt_iff₀ hT] at hn1
    nlinarith
  obtain ⟨q1, hq1⟩ := wrap_down_terminates (2 * m.M_PI) n1 p hp1
  obtain ⟨n2, hn2⟩ := exists_nat_gt (-q1 / (2 * m.M_PI))
  have hp2 : 0 ≤ q1 + n2 * (2 * m.M_PI) := by
    rw [div_lt_iff₀ hT] at hn2
    linarith
  obtain ⟨q, hq⟩ := wrap_up_terminates (2 * m.M_PI) n2 q1 hp2
  refine ⟨max n1 n2, q, ?_⟩
  unfold wrap_phase
  rw [whileLoop_mono _ _ _ _ _ hq1 _ (le_max_left _ _)]
  exact whileLoop_mono _ _ _ _ _ hq _ (le_max_right _ _)

/-- What `compensate` returns when it returns: the phase accumulator advanced by
`current * 2π / fs` and wrapped to `φ ∈ [0, 2π)`, the other fields unchanged, and
the sample multiplied by `cos φ + i sin φ`. -/
theorem compensate_some (m : Libm α) (fuel : Nat)
    (s : DopplerCompensator α) (x : ComplexSample α)
    (r : DopplerCompensator α × ComplexSample α) (h : s.compensate m fuel x = some r) :
    ∃ phi : α,
      wrap_phase m fuel
        (s.phase_accumulator + s.current_doppler_shift * 2 * m.M_PI / s.sample_rate) = some phi ∧
      0 ≤ phi ∧ phi < 2 * m.M_PI ∧
      (∃ k : ℤ, phi = s.phase_accumulator +
        s.current_doppler_shift * 2 * m.M_PI / s.sample_rate + k * (2 * m.M_PI)) ∧
      r.1 = { s with phase_accumulator := phi } ∧
      r.2 = x.mul ⟨m.cos phi, m.sin phi⟩ := by
  simp only [DopplerCompensator.compensate] at h
  rcases Option.map_eq_some'.mp h with ⟨phi, hphi, hr⟩
  obtain ⟨h0, h1, hk⟩ := wrap_phase_range m fuel _ _ hphi
  refine ⟨phi, hphi, h0, h1, hk, ?_, ?_⟩
  · rw [← hr]
  · rw [← hr]; simp [polar]

/-- More budget does not change the result of `compensate`. -/
theorem compensate_mono (m : Libm α) (n n' : Nat) (hn : n ≤ n') (s : DopplerCompensator α)
    (x : ComplexSample α) (r : DopplerCompensator α × ComplexSample α)
    (h : s.compensate m n x = some r) : s.compensate m n' x = some r := by
  simp only [DopplerCompensator.compensate] at h ⊢
  rcases Option.map_eq_some'.mp h with ⟨phi, hphi, hr⟩
  rw [wrap_phase_mono m n n' hn _ _ hphi]
  simpa using hr

/-- The method `compensate` terminates: there is a budget within which it returns. -/
theorem compensate_terminates [Archimedean α] (m : Libm α) (hpi : 0 < m.M_PI)
    (s : DopplerCompensator α) (x : ComplexSample α) :
    ∃ N r, s.compensate m N x = some r := by
  obtain ⟨N, q, hq⟩ := wrap_phase_terminates m hpi
    (s.phase_accumulator + s.current_doppler_shift * 2 * m.M_PI / s.sample_rate)
  refine ⟨N, ({ s with phase_accumulator := q }, x.mul (polar m 1 q)), ?_⟩
  simp only [DopplerCompensator.compensate, hq, Option.map_some']

end PhaseWrap

section CompensatorRuns

variable {α : Type} [LinearOrderedField α]

/-- More budget does not change the state after a call. -/
theorem step_mono (m : Libm α) (n n' : Nat) (hn : n ≤ n') (s s1 : DopplerCompensator α)
    (c : Call α) (h : s.step m n c = some s1) : s.step m n' c = some s1 := by
  cases c with
  | update_doppler hz => exact h
  | reset => exact h
  | compensate x =>
    simp only [DopplerCompensator.step] at h ⊢
    rcases Option.map_eq_some'.mp h with ⟨r, hr, hr1⟩
    rw [compensate_mono m n n' hn s x r hr]
    simpa using hr1

/-- Every call terminates. -/
theorem step_terminates [Archimedean α] (m : Libm α) (hpi : 0 < m.M_PI)
    (s : DopplerCompensator α) (c : Call α) : ∃ N s1, s.step m N c = some s1 := by
  cases c with
  | update_doppler hz => exact ⟨0, _, rfl⟩
  | reset => exact ⟨0, _, rfl⟩
  | compensate x =>
    obtain ⟨N, r, hr⟩ := compensate_terminates m hpi s x
    exact ⟨N, r.1, by simp only [DopplerCompensator.step, hr, Option.map_some']⟩

/-- Every call keeps the phase accumulator in `[0, 2π)` and the sample rate unchanged. -/
theorem step_phase (m : Libm α) (hpi : 0 < m.M_PI) (fuel : Nat)
    (s s1 : DopplerCompensator α) (c : Call α)
    (hs : 0 ≤ s.phase_accumulator ∧ s.phase_accumulator < 2 * m.M_PI)
    (h : s.step m fuel c = some s1) :
    0 ≤ s1.phase_accumulator ∧ s1.phase_accumulator < 2 * m.M_PI := by
  cases c with
  | update_doppler hz =>
    simp only [DopplerCompensator.step, Option.some.injEq] at h
    rw [← h]
    exact hs
  | reset =>
    simp only [DopplerCompensator.step, Option.some.injEq] at h
    rw [← h]
    exact ⟨le_refl _, by show (0 : α) < 2 * m.M_PI; linarith⟩
  | compensate x =>
    simp only [DopplerCompensator.step] at h
    rcases Option.map_eq_some'.mp h with ⟨r, hr, hr1⟩
    obtain ⟨phi, -, h0, h1, -, hst, -⟩ := compensate_some m fuel s x r hr
    rw [← hr1, hst]
    exact ⟨h0, h1⟩

/-- More budget does not change the state after a sequence of calls. -/
theorem run_mono (m : Libm α) (n n' : Nat) (hn : n ≤ n') (calls : List (Call α)) :
    ∀ (s s1 : DopplerCompensator α), s.run m n calls = some s1 → s.run m n' calls = some s1 := by
  induction calls with
  | nil => intro s s1 h; exact h
  | cons c cs ih =>
    intro s s1 h
    simp only [DopplerCompensator.run] at h ⊢
    rcases Option.bind_eq_some.mp h with ⟨s2, h2, h3⟩
    rw [step_mono m n n' hn s s2 c h2]
    exact ih s2 s1 h3

/-- Every sequence of calls terminates. -/
theorem run_terminates [Archimedean α] (m : Libm α) (hpi : 0 < m.M_PI)
    (calls : List (Call α)) :
    ∀ s : DopplerCompensator α, ∃ N s1, s.run m N calls = some s1 := by
  induction calls with
  | nil => intro s; exact ⟨0, s, rfl⟩
  | cons c cs ih =>
    intro s
    obtain ⟨N1, s2, h2⟩ := step_terminates m hpi s c
    obtain ⟨N2, s1, h1⟩ := ih s2
    refine ⟨max N1 N2, s1, ?_⟩
    simp only [DopplerCompensator.run]
    rw [step_mono m N1 _ (le_max_left _ _) s s2 c h2]
    exact run_mono m N2 _ (le_max_right _ _) cs s2 s1 h1

/-- A sequence of calls keeps the phase accumulator in `[0, 2π)`. -/
theorem run_phase (m : Libm α) (hpi : 0 < m.M_PI) (fuel : Nat) (calls : List (Call α)) :
    ∀ (s s1 : DopplerCompensator α),
      (0 ≤ s.phase_accumulator ∧ s.phase_accumulator < 2 * m.M_PI) →
      s.run m fuel calls = some s1 →
      0 ≤ s1.phase_accumulator ∧ s1.phase_accumulator < 2 * m.M_PI := by
  induction calls with
  | nil =>
    intro s s1 hs h
    simp only [DopplerCompensator.run, Option.some.injEq] at h
    rw [← h]
    exact hs
  | cons c cs ih =>
    intro s s1 hs h
    simp only [DopplerCompensator.run] at h
    rcases Option.bind_eq_some.mp h with ⟨s2, h2, h3⟩
    exact ih s2 s1 (step_phase m hpi fuel s s2 c hs h2) h3

/-- No call changes the configuration: the sample rate, the smoothing factor and
the slew limit stay what the constructor made them. -/
theorem run_config (m : Libm α) (fuel : Nat) (calls : List (Call α)) :
    ∀ (s s1 : DopplerCompensator α), s.run m fuel calls = some s1 →
      s1.sample_rate = s.sample_rate ∧ s1.smoothing_factor = s.smoothing_factor ∧
        s1.max_rate_of_change = s.max_rate_of_change := by
  induction calls with
  | nil =>
    intro s s1 h
    simp only [DopplerCompensator.run, Option.some.injEq] at h
    rw [← h]
    exact ⟨rfl, rfl, rfl⟩
  | cons c cs ih =>
    intro s s1 h
    simp only [DopplerCompensator.run] at h
    rcases Option.bind_eq_some.mp h with ⟨s2, h2, h3⟩
    have e : s2.sample_rate = s.sample_rate ∧ s2.smoothing_factor = s.smoothing_factor ∧
        s2.max_rate_of_change = s.max_rate_of_change := by
      cases c with
      | update_doppler hz =>
        simp only [DopplerCompensator.step, Option.some.injEq] at h2
        rw [← h2]
        exact ⟨rfl, rfl, rfl⟩
      | reset =>
        simp only [DopplerCompensator.step, Option.some.injEq] at h2
        rw [← h2]
        exact ⟨rfl, rfl, rfl⟩
      | compensate x =>
        simp only [DopplerCompensator.step] at h2
        rcases Option.map_eq_some'.mp h2 with ⟨r, hr, hr1⟩
        obtain ⟨phi, -, -, -, -, hst, -⟩ := compensate_some m fuel s x r hr
        rw [← hr1, hst]
        exact ⟨rfl, rfl, rfl⟩
    obtain ⟨i1, i2, i3⟩ := ih s2 s1 h3
    exact ⟨i1.trans e.1, i2.trans e.2.1, i3.trans e.2.2⟩

/-- C2. Phase-wrap invariant: from a freshly constructed or freshly reset
compensator with a non-zero sample rate (so that every phase increment is finite),
every finite sequence of `update_doppler`, `compensate` and `reset` calls
terminates (all wrapping loops exit within some budget, and within every larger
one with the same result) and leaves `0 ≤ phase_accumulator < 2π`. -/
theorem phase_wrap_invariant [Archimedean α] (m : Libm α) (hpi : 0 < m.M_PI)
    (init : DopplerCompensator α)
    (hinit : (∃ fs sm, init = DopplerCompensator.new fs sm) ∨
      ∃ s : DopplerCompensator α, init = s.reset)
    (_hfs : init.sample_rate ≠ 0) (calls : List (Call α)) :
    ∃ N s1, (∀ fuel, N ≤ fuel → init.run m fuel calls = some s1) ∧
      0 ≤ s1.phase_accumulator ∧ s1.phase_accumulator < 2 * m.M_PI := by
  have h0 : init.phase_accumulator = 0 := by
    rcases hinit with ⟨fs, sm, h⟩ | ⟨s, h⟩ <;> rw [h] <;> rfl
  obtain ⟨N, s1, h1⟩ := run_terminates m hpi calls init
  refine ⟨N, s1, fun fuel hf => run_mono m N fuel hf calls init s1 h1, ?_⟩
  refine run_phase m hpi N calls init s1 ?_ h1
  rw [h0]
  exact ⟨le_refl _, by linarith⟩

/-- Witness for C2: a compensator at 1 MHz, updated towards 1000 Hz and then
applied to two samples, over the reals. -/
theorem phase_wrap_invariant_witness :
    (0 : ℝ) < realLibm.M_PI ∧
    (DopplerCompensator.new_default (1000000 : ℝ)).sample_rate ≠ 0 ∧
    ∃ N s1, (∀ fuel, N ≤ fuel →
        (DopplerCompensator.new_default (1000000 : ℝ)).run realLibm fuel
          [Call.update_doppler 1000, Call.compensate ⟨1, 0⟩, Call.compensate ⟨0, 1⟩] = some s1) ∧
      0 ≤ s1.phase_accumulator ∧ s1.phase_accumulator < 2 * realLibm.M_PI :=
  ⟨Real.pi_pos, by norm_num [DopplerCompensator.new_default, DopplerCompensator.new],
   phase_wrap_invariant realLibm Real.pi_pos _ (Or.inl ⟨_, _, rfl⟩)
     (by norm_num [DopplerCompensator.new_default, DopplerCompensator.new]) _⟩

end CompensatorRuns

section CompensateRotation

/-- The state used below: constructed at 4 Hz with smoothing 0 and updated to a
shift of 1 Hz, so that one sample advances the phase by a quarter turn. -/
theorem quarter_turn_state :
    (DopplerCompensator.new (4 : ℝ) 0).update_doppler 1 =
      { current_doppler_shift := 1, target_doppler_shift := 1, phase_accumulator := 0,
        sample_rate := 4, smoothing_factor := 0, max_rate_of_change := 1000 } := by
  norm_num [DopplerCompensator.update_doppler, DopplerCompensator.new]

/-- C3. The rotation applied by `compensate` is by the accumulated phase, not by
its negation: on the quarter-turn state the sample `1` is returned as `+i`
(`cos φ + i sin φ` with `φ = π/2`, the phase accumulator after the call), while
the de-rotation `s * (cos φ - i sin φ)` of the contract gives `-i`. -/
theorem compensate_rotates_by_positive_phase :
    ((DopplerCompensator.new (4 : ℝ) 0).update_doppler 1).compensate realLibm 0 ⟨1, 0⟩ =
      some ({ current_doppler_shift := 1, target_doppler_shift := 1,
              phase_accumulator := Real.pi / 2,
              sample_rate := 4, smoothing_factor := 0, max_rate_of_change := 1000 },
            ⟨0, 1⟩) ∧
    derotate realLibm ⟨1, 0⟩ (Real.pi / 2) = ⟨0, -1⟩ ∧
    (⟨0, 1⟩ : ComplexSample ℝ) ≠ ⟨0, -1⟩ := by
  have hpi := Real.pi_pos
  have h1 : ¬ (2 * Real.pi ≤ Real.pi / 2) := by
    intro h; linarith
  have h2 : ¬ (Real.pi / 2 < 0) := by
    intro h; linarith
  have h3 : (0 : ℝ) + 1 * 2 * Real.pi / 4 = Real.pi / 2 := by ring
  refine ⟨?_, ?_, ?_⟩
  · rw [quarter_turn_state]
    simp only [DopplerCompensator.compensate, wrap_phase, whileLoop, realLibm, ge_iff_le, h3, h1,
      h2, decide_False, Bool.false_eq_true, if_false, Option.some_bind, Option.map_some',
      polar, ComplexSample.mul, Real.cos_pi_div_two, Real.sin_pi_div_two]
    norm_num
  · simp [derotate, ComplexSample.mul, realLibm]
  · intro h
    have := congrArg ComplexSample.im h
    norm_num at this

end CompensateRotation

section CompensateBuffer

variable {α : Type} [LinearOrderedField α]

/-- Overwriting entry `i` and keeping the first `i + 1` entries appends the new
entry to the first `i` old ones. -/
theorem take_succ_set {β : Type} (y : β) : ∀ (l : List β) (i : Nat), i < l.length →
    (l.set i y).take (i + 1) = l.take i ++ [y] := by
  intro l
  induction l with
  | nil => intro i h; simp at h
  | cons a t ih =>
    intro i h
    cases i with
    | zero => simp
    | succ j =>
      simp only [List.set_cons_succ, List.take_succ_cons, List.cons_append]
      rw [ih j (by simpa using h)]

/-- The loop of `compensate_buffer` from index `i` on: it leaves the first `i`
output entries alone and fills the rest with the results of successive
`compensate` calls on the remaining inputs. -/
theorem compensate_buffer_loop (m : Libm α) (fuel : Nat) (samples : List (ComplexSample α)) :
    ∀ (k i : Nat) (s : DopplerCompensator α) (out : List (ComplexSample α)),
      i + k = samples.length → out.length = samples.length →
      forLoopM
        (fun i (st : DopplerCompensator α × List (ComplexSample α)) =>
          (st.1.compensate m fuel (samples.getD i ⟨0, 0⟩)).map fun r => (r.1, st.2.set i r.2))
        k i (s, out) =
      (DopplerCompensator.compensate_each m fuel s (samples.drop i)).map
        fun q => (q.1, out.take i ++ q.2) := by
  intro k
  induction k with
  | zero =>
    intro i s out hi ho
    have hi2 : samples.length ≤ i := by omega
    rw [List.drop_eq_nil_of_le hi2, List.take_of_length_le (by omega)]
    simp [forLoopM, DopplerCompensator.compensate_each]
  | succ k ih =>
    intro i s out hi ho
    have hi2 : i < samples.length := by omega
    rw [List.drop_eq_getElem_cons hi2]
    simp only [forLoopM, DopplerCompensator.compensate_each, List.getD_eq_getElem _ _ hi2]
    cases hc : s.compensate m fuel samples[i] with
    | none => simp
    | some r =>
      simp only [Option.map_some', Option.some_bind]
      rw [ih (i + 1) r.1 (out.set i r.2) (by omega) (by simpa using ho),
        take_succ_set _ _ _ (by omega)]
      cases DopplerCompensator.compensate_each m fuel r.1 (List.drop (i + 1) samples) with
      | none => simp
      | some q => simp

/-- The method `compensate_buffer` computes exactly the successive `compensate`
calls, whatever the budget. -/
theorem compensate_buffer_eq_each (m : Libm α) (fuel : Nat) (s : DopplerCompensator α)
    (samples : List (ComplexSample α)) :
    s.compensate_buffer m fuel samples = DopplerCompensator.compensate_each m fuel s samples := by
  unfold DopplerCompensator.compensate_buffer
  rw [compensate_buffer_loop m fuel samples samples.length 0 s _ (by omega) (by simp)]
  simp only [List.drop_zero, List.take_zero, List.nil_append]
  cases DopplerCompensator.compensate_each m fuel s samples with
  | none => rfl
  | some q => rfl

/-- Successive `compensate` calls return one result per input. -/
theorem compensate_each_length (m : Libm α) (fuel : Nat) (samples : List (ComplexSample α)) :
    ∀ (s : DopplerCompensator α) (r : DopplerCompensator α × List (ComplexSample α)),
      DopplerCompensator.compensate_each m fuel s samples = some r →
      r.2.length = samples.length := by
  induction samples with
  | nil =>
    intro s r h
    simp only [DopplerCompensator.compensate_each, Option.some.injEq] at h
    rw [← h]
  | cons x xs ih =>
    intro s r h
    simp only [DopplerCompensator.compensate_each] at h
    rcases Option.bind_eq_some.mp h with ⟨r1, -, h2⟩
    rcases Option.map_eq_some'.mp h2 with ⟨q, hq, hq2⟩
    rw [← hq2]
    simp [ih r1.1 q hq]

/-- More budget does not change the result of successive `compensate` calls. -/
theorem compensate_each_mono (m : Libm α) (n n' : Nat) (hn : n ≤ n')
    (samples : List (ComplexSample α)) :
    ∀ (s : DopplerCompensator α) (r : DopplerCompensator α × List (ComplexSample α)),
      DopplerCompensator.compensate_each m n s samples = some r →
      DopplerCompensator.compensate_each m n' s samples = some r := by
  induction samples with
  | nil => intro s r h; exact h
  | cons x xs ih =>
    intro s r h
    simp only [DopplerCompensator.compensate_each] at h ⊢
    rcases Option.bind_eq_some.mp h with ⟨r1, h1, h2⟩
    rcases Option.map_eq_some'.mp h2 with ⟨q, hq, hq2⟩
    rw [compensate_mono m n n' hn s x r1 h1]
    simp only [Option.some_bind]
    rw [ih r1.1 q hq]
    simpa using hq2

/-- Successive `compensate` calls terminate. -/
theorem compensate_each_terminates [Archimedean α] (m : Libm α) (hpi : 0 < m.M_PI)
    (samples : List (ComplexSample α)) :
    ∀ s : DopplerCompensator α, ∃ N r, DopplerCompensator.compensate_each m N s samples = some r := by
  induction samples with
  | nil => intro s; exact ⟨0, (s, []), rfl⟩
  | cons x xs ih =>
    intro s
    obtain ⟨N1, r1, h1⟩ := compensate_terminates m hpi s x
    obtain ⟨N2, q, hq⟩ := ih r1.1
    refine ⟨max N1 N2, (q.1, r1.2 :: q.2), ?_⟩
    simp only [DopplerCompensator.compensate_each]
    rw [compensate_mono m N1 _ (le_max_left _ _) s x r1 h1]
    simp only [Option.some_bind]
    rw [compensate_each_mono m N2 _ (le_max_right _ _) xs r1.1 q hq]
    rfl

/-- C5. For every compensator state with a non-zero sample rate and every input
buffer, the empty one included, `compensate_buffer` returns (within some budget
for the wrapping loops, and within every larger one) a buffer of the length of
the input and a final state, and these are the results and the final state of
successive `compensate` calls on the inputs in order. -/
theorem compensate_buffer_sequential [Archimedean α] (m : Libm α) (hpi : 0 < m.M_PI)
    (s : DopplerCompensator α) (_hfs : s.sample_rate ≠ 0) (samples : List (ComplexSample α)) :
    ∃ N r, (∀ fuel, N ≤ fuel →
        s.compensate_buffer m fuel samples = some r ∧
        DopplerCompensator.compensate_each m fuel s samples = some r) ∧
      r.2.length = samples.length := by
  obtain ⟨N, r, hr⟩ := compensate_each_terminates m hpi samples s
  refine ⟨N, r, fun fuel hf => ?_, compensate_each_length m N samples s r hr⟩
  have h := compensate_each_mono m N fuel hf samples s r hr
  exact ⟨by rw [compensate_buffer_eq_each, h], h⟩

/-- Witness for C5: a buffer of two samples at 1 MHz, over the reals. -/
theorem compensate_buffer_sequential_witness :
    (0 : ℝ) < realLibm.M_PI ∧
    (DopplerCompensator.new_default (1000000 : ℝ)).sample_rate ≠ 0 ∧
    ∃ N r, (∀ fuel, N ≤ fuel →
        (DopplerCompensator.new_default (1000000 : ℝ)).compensate_buffer realLibm fuel
          [⟨1, 0⟩, ⟨0, 1⟩] = some r ∧
        DopplerCompensator.compensate_each realLibm fuel
          (DopplerCompensator.new_default (1000000 : ℝ)) [⟨1, 0⟩, ⟨0, 1⟩] = some r) ∧
      r.2.length = [(⟨1, 0⟩ : ComplexSample ℝ), ⟨0, 1⟩].length :=
  ⟨Real.pi_pos, by norm_num [DopplerCompensator.new_default, DopplerCompensator.new],
   compensate_buffer_sequential realLibm Real.pi_pos _
     (by norm_num [DopplerCompensator.new_default, DopplerCompensator.new]) _⟩

end CompensateBuffer

section FIR

variable {α : Type} [LinearOrderedField α]

/-- An accumulation loop computes a finite sum. -/
theorem forLoop_sum (g : Nat → α) : ∀ (k i0 : Nat) (a : α),
    forLoop (fun i acc => acc + g i) k i0 a = a + ∑ j in Finset.range k, g (i0 + j) := by
  intro k
  induction k with
  | zero => intro i0 a; simp [forLoop]
  | succ k ih =>
    intro i0 a
    simp only [forLoop]
    rw [ih, Finset.sum_range_succ', add_assoc]
    congr 1
    rw [add_comm]
    congr 1
    · apply Finset.sum_congr rfl
      intro j _
      congr 1
      omega

/-- A circular offset strictly between 0 and the length never comes back to the
index it starts from. -/
theorem circular_offset_ne (T idx i : Nat) (hidx : idx < T) (hi0 : 0 < i) (hi : i < T) :
    (idx + i) % T ≠ idx := by
  intro h
  have h1 : (idx + i) % T = (idx + 0) % T := by
    rw [h, Nat.add_zero, Nat.mod_eq_of_lt hidx]
  have h2 : i % T = 0 % T := Nat.ModEq.add_left_cancel' idx h1
  rw [Nat.mod_eq_of_lt hi, Nat.zero_mod] at h2
  omega

/-- After the write of `process`, the entry `i` places after the write index is
the sample fed `i` calls ago, the newest one included. -/
theorem process_delay_line (f : FIRFilter α) (h hist : List α) (x : α) (hf : f.Fed h hist) :
    ∀ i, i < h.length →
      (f.delay_line.set f.delay_index x).getD ((f.delay_index + i) % h.length) 0 =
        (x :: hist).getD i 0 := by
  obtain ⟨-, hlen, hidx, hd⟩ := hf
  intro i hi
  cases i with
  | zero =>
    rw [Nat.add_zero, Nat.mod_eq_of_lt hidx, List.getD_eq_getElem?_getD,
      List.getElem?_set, if_pos rfl, if_pos (by omega)]
    rfl
  | succ j =>
    have hne := circular_offset_ne h.length f.delay_index (j + 1) hidx (by omega) hi
    rw [List.getD_eq_getElem?_getD, List.getElem?_set, if_neg (Ne.symm hne),
      ← List.getD_eq_getElem?_getD]
    have := hd j (by omega)
    rw [show f.delay_index + 1 + j = f.delay_index + (j + 1) by omega] at this
    rw [this]
    rfl

/-- One `process` call on a filter fed `hist`: the output is the inner product
of the taps with the samples fed so far, newest first, and the filter is then
fed `x :: hist`. -/
theorem process_fed (f : FIRFilter α) (h hist : List α) (x : α) (hf : f.Fed h hist) :
    (f.process x).1.Fed h (x :: hist) ∧
    (f.process x).2 = ∑ i in Finset.range h.length, h.getD i 0 * (x :: hist).getD i 0 := by
  have hkey := process_delay_line f h hist x hf
  obtain ⟨hc, hlen, hidx, -⟩ := hf
  refine ⟨⟨hc, ?_, ?_, ?_⟩, ?_⟩
  · simp only [FIRFilter.process, List.length_set]
    exact hlen
  · simp only [FIRFilter.process, hc]
    exact Nat.mod_lt _ (by omega)
  · intro j hj
    simp only [FIRFilter.process, hc]
    have e : ((f.delay_index + h.length - 1) % h.length + 1 + j) % h.length =
        (f.delay_index + j) % h.length := by
      rw [Nat.add_assoc, Nat.mod_add_mod]
      have : f.delay_index + h.length - 1 + (1 + j) = f.delay_index + j + h.length := by omega
      rw [this, Nat.add_mod_right]
    rw [e]
    exact hkey j hj
  · simp only [FIRFilter.process, hc]
    rw [forLoop_sum, zero_add]
    apply Finset.sum_congr rfl
    intro i hi
    rw [Nat.zero_add, hkey i (Finset.mem_range.mp hi)]

/-- A freshly constructed filter with at least one tap has been fed nothing. -/
theorem new_fed (h : List α) (hne : h ≠ []) : (FIRFilter.new h).Fed h [] := by
  refine ⟨rfl, by simp [FIRFilter.new], ?_, ?_⟩
  · exact List.length_pos.mpr hne
  · intro j _
    simp [FIRFilter.new, List.getD_eq_getElem?_getD, List.getElem?_replicate]
    split_ifs <;> rfl

/-- The loop of `process_buffer` from index `i` on: it leaves the first `i`
output entries alone and fills the rest with the outputs of successive
`process` calls on the remaining inputs. -/
theorem process_buffer_loop (input : List α) :
    ∀ (k i : Nat) (f : FIRFilter α) (out : List α),
      i + k = input.length → out.length = input.length →
      forLoop
        (fun i (st : FIRFilter α × List α) =>
          let r := st.1.process (input.getD i 0)
          (r.1, st.2.set i r.2))
        k i (f, out) =
      ((FIRFilter.process_each f (input.drop i)).1,
        out.take i ++ (FIRFilter.process_each f (input.drop i)).2) := by
  intro k
  induction k with
  | zero =>
    intro i f out hi ho
    have hi2 : input.length ≤ i := by omega
    rw [List.drop_eq_nil_of_le hi2, List.take_of_length_le (by omega)]
    simp [forLoop, FIRFilter.process_each]
  | succ k ih =>
    intro i f out hi ho
    have hi2 : i < input.length := by omega
    rw [List.drop_eq_getElem_cons hi2]
    simp only [forLoop, FIRFilter.process_each, List.getD_eq_getElem _ _ hi2]
    rw [ih (i + 1) _ _ (by omega) (by simpa using ho), take_succ_set _ _ _ (by omega)]
    simp

/-- The method `process_buffer` computes exactly the successive `process` calls. -/
theorem process_buffer_eq_each (f : FIRFilter α) (input : List α) :
    f.process_buffer input = FIRFilter.process_each f input := by
  unfold FIRFilter.process_buffer
  rw [process_buffer_loop input input.length 0 f _ (by omega) (by simp)]
  simp

/-- Successive `process` calls return one output per input. -/
theorem process_each_length (input : List α) :
    ∀ f : FIRFilter α, (FIRFilter.process_each f input).2.length = input.length := by
  induction input with
  | nil => intro f; rfl
  | cons x xs ih => intro f; simp [FIRFilter.process_each, ih]

/-- The output number `k` of successive `process` calls on a filter fed `hist` is
the inner product of the taps with the samples fed up to then, newest first. -/
theorem process_each_output (h : List α) (input : List α) :
    ∀ (f : FIRFilter α) (hist : List α) (k : Nat), f.Fed h hist → k < input.length →
      (FIRFilter.process_each f input).2.getD k 0 =
        ∑ i in Finset.range h.length,
          h.getD i 0 * ((input.take (k + 1)).reverse ++ hist).getD i 0 := by
  induction input with
  | nil => intro f hist k _ hk; simp at hk
  | cons x xs ih =>
    intro f hist k hf hk
    obtain ⟨hf1, hout⟩ := process_fed f h hist x hf
    cases k with
    | zero =>
      simp only [FIRFilter.process_each, List.getD_cons_zero, hout]
      simp
    | succ j =>
      simp only [FIRFilter.process_each, List.getD_cons_succ]
      rw [ih (f.process x).1 (x :: hist) j hf1 (by simpa using hk)]
      simp

/-- The samples fed up to input `k`, newest first: entry `i` is `x[k - i]` for
`i ≤ k` and there is no entry beyond. -/
theorem reverse_take_getD (x : List α) (k i : Nat) (hk : k < x.length) :
    ((x.take (k + 1)).reverse ++ []).getD i 0 = if i ≤ k then x.getD (k - i) 0 else 0 := by
  have hl : (x.take (k + 1)).length = k + 1 := by
    rw [List.length_take]; omega
  rw [List.append_nil, List.getD_eq_getElem?_getD]
  split_ifs with hik
  · rw [List.getElem?_reverse (by omega), hl, List.getElem?_take_of_lt (by omega),
      ← List.getD_eq_getElem?_getD]
    congr 1
  · rw [List.getElem?_eq_none (by simp only [List.length_reverse]; omega)]
    rfl

/-- C6. For a non-empty tap vector `h` of length `T` and an input `x` of length
`N ≥ 0`, `process_buffer` on a freshly constructed filter returns `N` outputs,
and output `k` is the causal convolution
`Σ_{i = 0}^{min(k, T-1)} h[i] * x[k-i]` (zero initial history); in particular the
empty input gives the empty output. -/
theorem process_buffer_causal_convolution (h : List α) (hne : h ≠ []) (x : List α) :
    ((FIRFilter.new h).process_buffer x).2.length = x.length ∧
    ∀ k, k < x.length →
      ((FIRFilter.new h).process_buffer x).2.getD k 0 = causal_convolution h x k := by
  rw [process_buffer_eq_each]
  refine ⟨process_each_length x _, fun k hk => ?_⟩
  rw [process_each_output h x _ [] k (new_fed h hne) hk]
  unfold causal_convolution
  have hT : 0 < h.length := List.length_pos.mpr hne
  have hmin : min k (h.length - 1) ≤ k := Nat.min_le_left _ _
  have hmin2 : min k (h.length - 1) ≤ h.length - 1 := Nat.min_le_right _ _
  rw [Finset.sum_congr rfl (fun i _ => by rw [reverse_take_getD x k i hk])]
  symm
  trans ∑ i in Finset.range (min k (h.length - 1) + 1),
      h.getD i 0 * (if i ≤ k then x.getD (k - i) 0 else 0)
  · apply Finset.sum_congr rfl
    intro i hi
    rw [Finset.mem_range] at hi
    rw [if_pos (by omega)]
  · apply Finset.sum_subset
    · intro i hi
      rw [Finset.mem_range] at hi ⊢
      omega
    · intro i hi hni
      rw [Finset.mem_range] at hi hni
      have hik : ¬ i ≤ k := by
        intro hle
        apply hni
        have : i ≤ min k (h.length - 1) := le_min hle (by omega)
        omega
      rw [if_neg hik, mul_zero]

/-- Witness for C6: taps `[1, 2]` and input `[3, 4, 5]` over the rationals. -/
theorem process_buffer_causal_convolution_witness :
    ([1, 2] : List ℚ) ≠ [] ∧
    ((FIRFilter.new ([1, 2] : List ℚ)).process_buffer [3, 4, 5]).2.length
      = ([3, 4, 5] : List ℚ).length ∧
    ∀ k, k < ([3, 4, 5] : List ℚ).length →
      ((FIRFilter.new ([1, 2] : List ℚ)).process_buffer [3, 4, 5]).2.getD k 0
        = causal_convolution [1, 2] [3, 4, 5] k :=
  ⟨by simp, process_buffer_causal_convolution [1, 2] (by simp) [3, 4, 5]⟩

/-- The example of the witness evaluated: the outputs are `3`, `4 + 2·3` and
`5 + 2·4`, and the write index has gone 0, 1, 0, 1. -/
theorem process_buffer_example :
    (FIRFilter.new ([1, 2] : List ℚ)).process_buffer [3, 4, 5] =
      (⟨[1, 2], [5, 4], 1⟩, [3, 10, 13]) := by
  norm_num [FIRFilter.process_buffer, FIRFilter.process, FIRFilter.new, forLoop, List.replicate]

end FIR

section Lowpass

variable {α : Type} [LinearOrderedField α]

/-- A property of index and state that every iteration carries from `i` to
`i + 1` holds at the end of a counted loop. -/
theorem forLoop_invariant {σ : Type} (body : Nat → σ → σ) (J : Nat → σ → Prop) (stop : Nat)
    (hJ : ∀ i st, i < stop → J i st → J (i + 1) (body i st)) :
    ∀ (k i : Nat) (st : σ), i + k = stop → J i st → J stop (forLoop body k i st) := by
  intro k
  induction k with
  | zero =>
    intro i st hi h
    rw [Nat.add_zero] at hi
    rw [← hi]
    exact h
  | succ k ih =>
    intro i st hi h
    exact ih (i + 1) (body i st) (by omega) (hJ i st (by omega) h)

/-- Overwriting a zero entry with `t` adds `t` to the sum of a list. -/
theorem sum_set_zero (t : α) : ∀ (l : List α) (i : Nat), i < l.length → l.getD i 0 = 0 →
    (l.set i t).sum = l.sum + t := by
  intro l
  induction l with
  | nil => intro i h; simp at h
  | cons a r ih =>
    intro i h h0
    cases i with
    | zero =>
      simp only [List.getD_cons_zero] at h0
      simp [h0, add_comm]
    | succ j =>
      simp only [List.getD_cons_succ] at h0
      simp only [List.set_cons_succ, List.sum_cons]
      rw [ih j (by simpa using h) h0, add_assoc]

/-- Dividing every entry by `c` divides the sum by `c`. -/
theorem sum_map_div (c : α) (l : List α) : (l.map fun t => t / c).sum = l.sum / c := by
  induction l with
  | nil => simp
  | cons a r ih => simp [ih, add_div]

/-- The loop of `generate_sinc_taps` runs at most `num_taps` times. -/
theorem toInt32_toNat_le (n : Nat) : (toInt32 n).toNat ≤ n := by
  unfold toInt32
  omega

/-- For tap counts in the range of `int` the loop runs `num_taps` times. -/
theorem toInt32_of_lt (n : Nat) (h : n < 2 ^ 31) : toInt32 n = n := by
  unfold toInt32
  omega

/-- After the first loop of `generate_sinc_taps` the variable `sum` is the sum of
the taps, and there are `num_taps` taps. -/
theorem sinc_taps_unnormalized_sum (m : Libm α) (cutoff : α) (num_taps : Nat) :
    (sinc_taps_unnormalized m cutoff num_taps).1.length = num_taps ∧
    (sinc_taps_unnormalized m cutoff num_taps).2 =
      (sinc_taps_unnormalized m cutoff num_taps).1.sum := by
  have hle := toInt32_toNat_le num_taps
  have h := forLoop_invariant
    (fun i (st : List α × α) =>
      let tap := sinc_tap m cutoff num_taps i
      (st.1.set i tap, st.2 + tap))
    (fun i st => st.1.length = num_taps ∧ st.2 = st.1.sum ∧ ∀ j, i ≤ j → st.1.getD j 0 = 0)
    (toInt32 num_taps).toNat
    (fun i st hi hJ => by
      obtain ⟨h1, h2, h3⟩ := hJ
      refine ⟨by simpa using h1, ?_, ?_⟩
      · show st.2 + _ = (st.1.set i _).sum
        rw [sum_set_zero _ _ _ (by omega) (h3 i (le_refl _)), h2]
      · intro j hj
        show (st.1.set i _).getD j 0 = 0
        rw [List.getD_eq_getElem?_getD, List.getElem?_set, if_neg (by omega),
          ← List.getD_eq_getElem?_getD]
        exact h3 j (by omega))
    (toInt32 num_taps).toNat 0 (List.replicate num_taps 0, 0) (by omega)
    ⟨by simp, by simp, fun j _ => by
      simp only [List.getD_eq_getElem?_getD, List.getElem?_replicate]
      split_ifs <;> rfl⟩
  exact ⟨h.1, h.2.1⟩

/-- C7 (as stated): the tap sum is not 1 for every construction.  With
`num_taps = 0` no tap is produced and the sum is 0; with `cutoff = 0` and one tap
the accumulated `sum` is 0, the code divides the tap `0` by it, and the result
does not sum to 1. -/
theorem generate_sinc_taps_sum_ne_one :
    (generate_sinc_taps realLibm (1 / 10 : ℝ) 0 = [] ∧
      (generate_sinc_taps realLibm (1 / 10 : ℝ) 0).sum ≠ 1) ∧
    ((sinc_taps_unnormalized realLibm (0 : ℝ) 1).2 = 0 ∧
      (generate_sinc_taps realLibm (0 : ℝ) 1).sum ≠ 1) := by
  refine ⟨⟨?_, ?_⟩, ?_, ?_⟩
  · simp [generate_sinc_taps, sinc_taps_unnormalized, toInt32, forLoop]
  · simp [generate_sinc_taps, sinc_taps_unnormalized, toInt32, forLoop]
  · norm_num [sinc_taps_unnormalized, toInt32, forLoop, sinc_tap]
  · norm_num [generate_sinc_taps, sinc_taps_unnormalized, toInt32, forLoop, sinc_tap]

/-- C7 (amended). Tap normalisation: whenever the sum accumulated by the first
loop of `generate_sinc_taps` is non-zero (which needs at least one tap), the
returned taps sum to 1, for every cutoff and tap count. -/
theorem generate_sinc_taps_sum (m : Libm α) (cutoff : α) (num_taps : Nat)
    (hsum : (sinc_taps_unnormalized m cutoff num_taps).2 ≠ 0) :
    (generate_sinc_taps m cutoff num_taps).sum = 1 ∧
    (generate_sinc_taps m cutoff num_taps).length = num_taps ∧ 0 < num_taps := by
  obtain ⟨hlen, hs⟩ := sinc_taps_unnormalized_sum m cutoff num_taps
  refine ⟨?_, ?_, ?_⟩
  · simp only [generate_sinc_taps]
    rw [sum_map_div, ← hs, div_self hsum]
  · simp only [generate_sinc_taps, List.length_map]
    exact hlen
  · rcases Nat.eq_zero_or_pos num_taps with h0 | h0
    · exfalso
      apply hsum
      rw [hs, List.eq_nil_of_length_eq_zero (hlen.trans h0)]
      rfl
    · exact h0

/-- Witness for C7: three taps at cutoff `1/4`, over the reals.  The taps before
normalisation are `0.08/π`, `1/2`, `0.08/π`, with a positive sum. -/
theorem generate_sinc_taps_sum_witness :
    (sinc_taps_unnormalized realLibm (1 / 4 : ℝ) 3).2 ≠ 0 ∧
    (generate_sinc_taps realLibm (1 / 4 : ℝ) 3).sum = 1 := by
  have hpi := Real.pi_pos
  have hne : (sinc_taps_unnormalized realLibm (1 / 4 : ℝ) 3).2 ≠ 0 := by
    have t0 : sinc_tap realLibm (1 / 4 : ℝ) 3 0 = 8 / 100 / Real.pi := by
      simp only [sinc_tap, toInt32, realLibm]
      norm_num
      rw [show 2 * Real.pi * (1 / 4) = Real.pi / 2 by ring, Real.sin_pi_div_two]
      ring
    have t1 : sinc_tap realLibm (1 / 4 : ℝ) 3 1 = 1 / 2 := by
      simp only [sinc_tap, toInt32, realLibm]
      norm_num
    have t2 : sinc_tap realLibm (1 / 4 : ℝ) 3 2 = 8 / 100 / Real.pi := by
      simp only [sinc_tap, toInt32, realLibm]
      norm_num
      rw [show 2 * Real.pi * (1 / 4) = Real.pi / 2 by ring, Real.sin_pi_div_two]
      ring
    have e : (sinc_taps_unnormalized realLibm (1 / 4 : ℝ) 3).2 =
        8 / 100 / Real.pi + 1 / 2 + 8 / 100 / Real.pi := by
      have c3 : (toInt32 3).toNat = 3 := by rw [toInt32_of_lt 3 (by norm_num)]; rfl
      simp only [sinc_taps_unnormalized, c3, forLoop, t0, t1, t2]
      ring
    rw [e]
    positivity
  exact ⟨hne, (generate_sinc_taps_sum realLibm (1 / 4) 3 hne).1⟩

end Lowpass

section Kepler

open Real

/-- The sine is 1-Lipschitz. -/
theorem abs_sin_sub_sin_le (a b : ℝ) : |sin a - sin b| ≤ |a - b| := by
  rw [Real.sin_sub_sin]
  have h1 := Real.abs_sin_le_abs (x := (a - b) / 2)
  have h2 := Real.abs_cos_le_one ((a + b) / 2)
  rw [abs_mul, abs_mul, abs_two]
  have h3 : |(a - b) / 2| = |a - b| / 2 := by rw [abs_div, abs_two]
  rw [h3] at h1
  have h4 : 0 ≤ |sin ((a - b) / 2)| := abs_nonneg _
  nlinarith [abs_nonneg (cos ((a + b) / 2)), abs_nonneg (a - b)]

/-- The cosine is 1-Lipschitz. -/
theorem abs_cos_sub_cos_le (a b : ℝ) : |cos a - cos b| ≤ |a - b| := by
  rw [Real.cos_sub_cos]
  have h1 := Real.abs_sin_le_abs (x := (a - b) / 2)
  have h2 := Real.abs_sin_le_one ((a + b) / 2)
  rw [abs_mul, abs_mul, abs_neg, abs_two]
  have h3 : |(a - b) / 2| = |a - b| / 2 := by rw [abs_div, abs_two]
  rw [h3] at h1
  have h4 : 0 ≤ |sin ((a - b) / 2)| := abs_nonneg _
  nlinarith [abs_nonneg (sin ((a + b) / 2)), abs_nonneg (a - b)]

/-- On `[0, π]` the sine lies below its tangents. -/
theorem sin_le_tangent (a b : ℝ) (ha0 : 0 ≤ a) (ha : a ≤ π) (hb0 : 0 ≤ b) (hb : b ≤ π) :
    sin b ≤ sin a + cos a * (b - a) := by
  rcases lt_trichotomy a b with hab | hab | hab
  · obtain ⟨c, hc, hd⟩ := exists_deriv_eq_slope sin hab continuous_sin.continuousOn
      (differentiable_sin.differentiableOn)
    rw [Real.deriv_sin] at hd
    have hcos : cos c ≤ cos a := Real.cos_le_cos_of_nonneg_of_le_pi ha0 (by linarith [hc.2]) hc.1.le
    have hpos : 0 < b - a := by linarith
    have : sin b - sin a = cos c * (b - a) := by
      rw [hd]; field_simp
    nlinarith
  · rw [hab]; simp
  · obtain ⟨c, hc, hd⟩ := exists_deriv_eq_slope sin hab continuous_sin.continuousOn
      (differentiable_sin.differentiableOn)
    rw [Real.deriv_sin] at hd
    have hcos : cos a ≤ cos c := Real.cos_le_cos_of_nonneg_of_le_pi (by linarith [hc.1]) ha hc.2.le
    have hpos : 0 < a - b := by linarith
    have : sin a - sin b = cos c * (a - b) := by
      rw [hd]; field_simp
    nlinarith

/-- Third-order lower bound of the sine on the non-negative reals. -/
theorem sub_cube_le_sin (x : ℝ) (hx : 0 ≤ x) : x - x ^ 3 / 6 ≤ sin x := by
  rcases hx.eq_or_lt with h0 | hpos
  · rw [← h0]; simp
  have hder : ∀ c : ℝ, HasDerivAt (fun y : ℝ => sin y - y + y ^ 3 / 6) (cos c - 1 + c ^ 2 / 2) c := by
    intro c
    have h := ((Real.hasDerivAt_sin c).sub (hasDerivAt_id c)).add
      ((hasDerivAt_pow 3 c).div_const 6)
    convert h using 1
    · simp; ring
  obtain ⟨c, hc, hd⟩ := exists_deriv_eq_slope (fun y : ℝ => sin y - y + y ^ 3 / 6) hpos
    (by fun_prop) (fun y _ => (hder y).differentiableAt.differentiableWithinAt)
  rw [(hder c).deriv] at hd
  have hcos := Real.one_sub_sq_div_two_le_cos (x := c)
  have hval : sin x - x + x ^ 3 / 6 = (cos c - 1 + c ^ 2 / 2) * x := by
    rw [hd]; field_simp; ring
  have : 0 ≤ (cos c - 1 + c ^ 2 / 2) * x := mul_nonneg (by linarith) hpos.le
  linarith

/-- Fourth-order upper bound of the cosine on the non-negative reals. -/
theorem cos_le_taylor4 (x : ℝ) (hx : 0 ≤ x) : cos x ≤ 1 - x ^ 2 / 2 + x ^ 4 / 24 := by
  rcases hx.eq_or_lt with h0 | hpos
  · rw [← h0]; simp
  have hder : ∀ c : ℝ, HasDerivAt (fun y : ℝ => 1 - y ^ 2 / 2 + y ^ 4 / 24 - cos y)
      (sin c - c + c ^ 3 / 6) c := by
    intro c
    have h := (((hasDerivAt_const c (1 : ℝ)).sub ((hasDerivAt_pow 2 c).div_const 2)).add
      ((hasDerivAt_pow 4 c).div_const 24)).sub (Real.hasDerivAt_cos c)
    convert h using 1
    · simp; ring
  obtain ⟨c, hc, hd⟩ := exists_deriv_eq_slope (fun y : ℝ => 1 - y ^ 2 / 2 + y ^ 4 / 24 - cos y) hpos
    (by fun_prop) (fun y _ => (hder y).differentiableAt.differentiableWithinAt)
  rw [(hder c).deriv] at hd
  have hsin := sub_cube_le_sin c hc.1.le
  have hval : 1 - x ^ 2 / 2 + x ^ 4 / 24 - cos x = (sin c - c + c ^ 3 / 6) * x := by
    rw [hd]; field_simp; ring
  have : 0 ≤ (sin c - c + c ^ 3 / 6) * x := mul_nonneg (by linarith) hpos.le
  linarith

/-- The polynomial inequality behind `kepler_first_step_le_pi`. -/
theorem poly_ineq (M : ℝ) (h0 : 0 ≤ M) (h1 : M ≤ 1575 / 1000) :
    9 / 10 * M ≤ (314 / 100 - M) * (1 / 10 + 45 / 100 * M ^ 2 - 375 / 10000 * M ^ 4) := by
  have h2 := mul_nonneg h0 h0
  have h3 := mul_nonneg h2 h0
  have h4 := mul_nonneg h3 h0
  have hd := sub_nonneg.mpr h1
  nlinarith [h2, h3, sq_nonneg (M - 7 / 10), sq_nonneg (M ^ 2 - 1 / 2), mul_nonneg h0 hd,
    mul_nonneg h2 hd, mul_nonneg h3 hd, mul_nonneg h4 hd]

/-- The derivative `1 - e cos x` of Kepler's function lies in `[1/10, 19/10]`. -/
theorem kepler_df_bounds (e x : ℝ) (he0 : 0 ≤ e) (he : e ≤ 9 / 10) :
    1 / 10 ≤ 1 - e * cos x ∧ 1 - e * cos x ≤ 19 / 10 := by
  have h1 := Real.cos_le_one x
  have h2 := Real.neg_one_le_cos x
  constructor <;> nlinarith

/-- The Newton iterate over the reals. -/
theorem kepler_newton_real (M e x : ℝ) :
    kepler_newton realLibm M e x = x - (x - e * sin x - M) / (1 - e * cos x) := rfl

/-- The residual over the reals. -/
theorem kepler_residual_real (M e x : ℝ) :
    kepler_residual realLibm M e x = x - e * sin x - M := rfl

/-- The residual after a Newton step of length `δ` is at most `2 e |δ|`. -/
theorem kepler_residual_newton (M e x : ℝ) (he0 : 0 ≤ e) (he : e ≤ 9 / 10) :
    |kepler_residual realLibm M e (kepler_newton realLibm M e x)| ≤
      2 * e * |kepler_newton realLibm M e x - x| := by
  obtain ⟨hd1, -⟩ := kepler_df_bounds e x he0 he
  have hd : (1 - e * cos x) ≠ 0 := by linarith
  set y := kepler_newton realLibm M e x with hy
  have hstep : (y - x) * (1 - e * cos x) = -(x - e * sin x - M) := by
    rw [hy, kepler_newton_real]
    field_simp
    ring
  have hres : kepler_residual realLibm M e y = e * ((y - x) * cos x) - e * (sin y - sin x) := by
    rw [kepler_residual_real]
    linarith
  rw [hres]
  have h1 := abs_sin_sub_sin_le y x
  have h2 : |(y - x) * cos x| ≤ |y - x| := by
    rw [abs_mul]
    exact mul_le_of_le_one_right (abs_nonneg _) (Real.abs_cos_le_one x)
  have habs : ∀ A : ℝ, |e * A| = e * |A| := fun A => by rw [abs_mul, abs_of_nonneg he0]
  calc |e * ((y - x) * cos x) - e * (sin y - sin x)|
      ≤ |e * ((y - x) * cos x)| + |e * (sin y - sin x)| := abs_sub _ _
    _ = e * |(y - x) * cos x| + e * |sin y - sin x| := by
        rw [habs, habs]
    _ ≤ e * |y - x| + e * |y - x| := by
        gcongr
    _ = 2 * e * |y - x| := by ring

/-- Kepler's function increases at a rate between `1 - e` and `1 + e`. -/
theorem kepler_residual_slope (M e a b : ℝ) (he0 : 0 ≤ e) (hab : a ≤ b) :
    (1 - e) * (b - a) ≤ kepler_residual realLibm M e b - kepler_residual realLibm M e a ∧
    kepler_residual realLibm M e b - kepler_residual realLibm M e a ≤ (1 + e) * (b - a) := by
  rw [kepler_residual_real, kepler_residual_real]
  have h := abs_sin_sub_sin_le b a
  rw [abs_of_nonneg (sub_nonneg.mpr hab)] at h
  obtain ⟨h1, h2⟩ := abs_le.mp h
  constructor <;> nlinarith

/-- On `[0, π]` Kepler's function lies above its tangents. -/
theorem kepler_residual_tangent (M e a b : ℝ) (he0 : 0 ≤ e) (ha0 : 0 ≤ a) (ha : a ≤ π)
    (hb0 : 0 ≤ b) (hb : b ≤ π) :
    kepler_residual realLibm M e a + (1 - e * cos a) * (b - a) ≤ kepler_residual realLibm M e b := by
  rw [kepler_residual_real, kepler_residual_real]
  have h := sin_le_tangent a b ha0 ha hb0 hb
  nlinarith

/-- For a mean anomaly in `[0, π]` Kepler's equation has a root between `M` and `π`. -/
theorem kepler_root_exists (M e : ℝ) (he0 : 0 ≤ e) (hM0 : 0 ≤ M) (hM : M ≤ π) :
    ∃ r, M ≤ r ∧ r ≤ π ∧ kepler_residual realLibm M e r = 0 := by
  have hcont : ContinuousOn (fun x : ℝ => x - e * sin x - M) (Set.Icc M π) := by fun_prop
  have hmem : (0 : ℝ) ∈ Set.Icc (M - e * sin M - M) (π - e * sin π - M) := by
    have hs := Real.sin_nonneg_of_nonneg_of_le_pi hM0 hM
    constructor
    · nlinarith
    · rw [Real.sin_pi]; linarith
  obtain ⟨r, hr, hr0⟩ := intermediate_value_Icc hM hcont hmem
  exact ⟨r, hr.1, hr.2, hr0⟩

/-- The first Newton step from `E₀ = M ∈ [0, π]` does not pass `π`. -/
theorem kepler_first_step_le_pi (M e : ℝ) (he0 : 0 ≤ e) (he : e ≤ 9 / 10) (hM0 : 0 ≤ M)
    (hM : M ≤ π) : e * sin M ≤ (π - M) * (1 - e * cos M) := by
  have hpi1 := Real.pi_gt_d2
  have hpi2 := Real.pi_lt_d2
  have hs0 := Real.sin_nonneg_of_nonneg_of_le_pi hM0 hM
  rcases le_total (π / 2) M with hhalf | hhalf
  · have hc : cos M ≤ 0 := Real.cos_nonpos_of_pi_div_two_le_of_le hhalf (by linarith)
    have hs : sin M ≤ π - M := by
      rw [← Real.sin_pi_sub]
      exact Real.sin_le (by linarith)
    nlinarith [mul_nonneg he0 (neg_nonneg.mpr hc), mul_nonneg (sub_nonneg.mpr hM) (mul_nonneg he0 (neg_nonneg.mpr hc))]
  · have hc0 : 0 ≤ cos M := Real.cos_nonneg_of_neg_pi_div_two_le_of_le (by linarith) hhalf
    have hs : sin M ≤ M := Real.sin_le hM0
    have hc := cos_le_taylor4 M hM0
    have hp := poly_ineq M hM0 (by linarith)
    have h1 : e * sin M ≤ 9 / 10 * M := by nlinarith
    have h2 : 1 / 10 + 45 / 100 * M ^ 2 - 375 / 10000 * M ^ 4 ≤ 1 - e * cos M := by nlinarith
    have h3 : 0 ≤ 1 / 10 + 45 / 100 * M ^ 2 - 375 / 10000 * M ^ 4 := by
      have hM2 : M ^ 2 ≤ 3 := by nlinarith
      have : M ^ 4 ≤ 3 * M ^ 2 := by nlinarith [mul_nonneg (sq_nonneg M) (sub_nonneg.mpr hM2)]
      nlinarith [sq_nonneg M]
    have h4 : 314 / 100 - M ≤ π - M := by linarith
    have h5 : 0 ≤ 314 / 100 - M := by linarith
    calc e * sin M ≤ 9 / 10 * M := h1
      _ ≤ (314 / 100 - M) * (1 / 10 + 45 / 100 * M ^ 2 - 375 / 10000 * M ^ 4) := hp
      _ ≤ (π - M) * (1 / 10 + 45 / 100 * M ^ 2 - 375 / 10000 * M ^ 4) :=
          mul_le_mul_of_nonneg_right h4 h3
      _ ≤ (π - M) * (1 - e * cos M) := mul_le_mul_of_nonneg_left h2 (by linarith)

/-- The first Newton step from `E₀ = M ∈ [0, π]` lands between the root and `π`. -/
theorem kepler_first_step (M e r : ℝ) (he0 : 0 ≤ e) (he : e ≤ 9 / 10) (hM0 : 0 ≤ M)
    (hM : M ≤ π) (hr1 : M ≤ r) (hr2 : r ≤ π) (hr : kepler_residual realLibm M e r = 0) :
    r ≤ kepler_newton realLibm M e M ∧ kepler_newton realLibm M e M ≤ π := by
  obtain ⟨hd1, -⟩ := kepler_df_bounds e M he0 he
  have hd : 0 < 1 - e * cos M := by linarith
  have ht := kepler_residual_tangent M e M r he0 hM0 hM (by linarith) hr2
  rw [hr, kepler_residual_real] at ht
  have h3 := kepler_first_step_le_pi M e he0 he hM0 hM
  rw [kepler_newton_real]
  have hq : (M - e * sin M - M) / (1 - e * cos M) * (1 - e * cos M) = M - e * sin M - M :=
    div_mul_cancel₀ _ hd.ne'
  set q := (M - e * sin M - M) / (1 - e * cos M) with hqq
  constructor
  · have : (r - M) * (1 - e * cos M) ≤ (-q) * (1 - e * cos M) := by
      rw [neg_mul, hq]; linarith
    have := le_of_mul_le_mul_right this hd
    linarith
  · have : (-q) * (1 - e * cos M) ≤ (π - M) * (1 - e * cos M) := by
      rw [neg_mul, hq]; linarith
    have := le_of_mul_le_mul_right this hd
    linarith

/-- A Newton step from a point `x` between the root `r` and `π` stays between the
root and `x`, and the distance `ε` to the root becomes at most `9 ε² / (1 + 9 ε)`. -/
theorem kepler_step_contracts (M e r x : ℝ) (he0 : 0 ≤ e) (he : e ≤ 9 / 10)
    (hr0 : 0 ≤ r) (hr : kepler_residual realLibm M e r = 0) (hx1 : r ≤ x) (hx2 : x ≤ π) :
    r ≤ kepler_newton realLibm M e x ∧ kepler_newton realLibm M e x ≤ x ∧
    (kepler_newton realLibm M e x - r) * (1 + 9 * (x - r)) ≤ 9 * (x - r) ^ 2 := by
  obtain ⟨hd1, -⟩ := kepler_df_bounds e x he0 he
  obtain ⟨ha1, -⟩ := kepler_df_bounds e r he0 he
  have hd : 0 < 1 - e * cos x := by linarith
  have hrpi : r ≤ π := le_trans hx1 hx2
  have hx0 : 0 ≤ x := le_trans hr0 hx1
  -- the tangent at `x` evaluated at `r`, and the tangent at `r` evaluated at `x`
  have ht1 := kepler_residual_tangent M e x r he0 hx0 hx2 hr0 hrpi
  have ht2 := kepler_residual_tangent M e r x he0 hr0 hrpi hx0 hx2
  rw [hr] at ht1 ht2
  have hF0 : 0 ≤ kepler_residual realLibm M e x := by
    have := (kepler_residual_slope M e r x he0 hx1).1
    rw [hr] at this
    nlinarith
  have hlip := abs_cos_sub_cos_le r x
  rw [abs_sub_comm r x, abs_of_nonneg (sub_nonneg.mpr hx1)] at hlip
  have hcos : cos r - cos x ≤ x - r := (abs_le.mp hlip).2
  set F := kepler_residual realLibm M e x with hF
  set d := 1 - e * cos x with hdd
  set a := 1 - e * cos r with haa
  set ε := x - r with hε
  have hε0 : 0 ≤ ε := sub_nonneg.mpr hx1
  have hnew : kepler_newton realLibm M e x = x - F / d := rfl
  have hq : F / d * d = F := div_mul_cancel₀ F hd.ne'
  set q := F / d with hqq
  have hq0 : 0 ≤ q := div_nonneg hF0 hd.le
  rw [hnew]
  -- the derivative grows by at most `e ε` between the root and `x`
  have hda : d - a ≤ e * ε := by
    have : d - a = e * (cos r - cos x) := by rw [hdd, haa]; ring
    rw [this]
    exact mul_le_mul_of_nonneg_left hcos he0
  have ht1' : F ≤ ε * d := by
    have : d * (r - x) = -(ε * d) := by rw [hε]; ring
    linarith
  have h1 : q ≤ ε := by
    have : q * d ≤ ε * d := by rw [hq]; exact ht1'
    exact le_of_mul_le_mul_right this hd
  refine ⟨by linarith, by linarith, ?_⟩
  -- the contraction bound, multiplied through by the derivative `d`
  have key : (x - q - r) * (1 + 9 * ε) * d ≤ 9 * ε ^ 2 * d := by
    have e1 : (x - q - r) * d = ε * d - F := by rw [← hq, hε]; ring
    have e2 : ε * d - F ≤ ε * (d - a) := by nlinarith
    have e3 : (d - a) * (1 + 9 * ε) ≤ 9 * ε * d := by nlinarith
    have e4 : 0 ≤ ε * d - F := by nlinarith
    calc (x - q - r) * (1 + 9 * ε) * d = (ε * d - F) * (1 + 9 * ε) := by rw [← e1]; ring
      _ ≤ ε * (d - a) * (1 + 9 * ε) := by
          apply mul_le_mul_of_nonneg_right e2; linarith
      _ = ε * ((d - a) * (1 + 9 * ε)) := by ring
      _ ≤ ε * (9 * ε * d) := mul_le_mul_of_nonneg_left e3 hε0
      _ = 9 * ε ^ 2 * d := by ring
  exact le_of_mul_le_mul_right key hd

/-- One Newton step turns a bound `b` on the distance to the root into any `b'`
with `9 b² ≤ b' (1 + 9 b)`. -/
theorem kepler_chain_step (M e r x b b' : ℝ) (he0 : 0 ≤ e) (he : e ≤ 9 / 10)
    (hr0 : 0 ≤ r) (hr : kepler_residual realLibm M e r = 0)
    (hx : r ≤ x ∧ x ≤ π ∧ x - r ≤ b) (hb : 9 * b ^ 2 ≤ b' * (1 + 9 * b)) :
    r ≤ kepler_newton realLibm M e x ∧ kepler_newton realLibm M e x ≤ π ∧
      kepler_newton realLibm M e x - r ≤ b' := by
  obtain ⟨hx1, hx2, hx3⟩ := hx
  obtain ⟨h1, h2, h3⟩ := kepler_step_contracts M e r x he0 he hr0 hr hx1 hx2
  refine ⟨h1, le_trans h2 hx2, ?_⟩
  set ε := x - r with hε
  set ε' := kepler_newton realLibm M e x - r with hε'
  have hε0 : 0 ≤ ε := sub_nonneg.mpr hx1
  have hε'0 : 0 ≤ ε' := sub_nonneg.mpr h1
  have hb0 : 0 ≤ b := le_trans hε0 hx3
  have hmono : ε ^ 2 * (1 + 9 * b) ≤ b ^ 2 * (1 + 9 * ε) := by
    nlinarith [mul_nonneg (sub_nonneg.mpr hx3) (add_nonneg hb0 hε0),
      mul_nonneg (mul_nonneg hb0 hε0) (sub_nonneg.mpr hx3)]
  have hpos : 0 < (1 + 9 * ε) * (1 + 9 * b) := by positivity
  have key : ε' * ((1 + 9 * ε) * (1 + 9 * b)) ≤ b' * ((1 + 9 * ε) * (1 + 9 * b)) := by
    have hb1 : 0 ≤ 1 + 9 * b := by linarith
    have he1 : 0 ≤ 1 + 9 * ε := by linarith
    calc ε' * ((1 + 9 * ε) * (1 + 9 * b)) = ε' * (1 + 9 * ε) * (1 + 9 * b) := by ring
      _ ≤ 9 * ε ^ 2 * (1 + 9 * b) := mul_le_mul_of_nonneg_right h3 hb1
      _ = 9 * (ε ^ 2 * (1 + 9 * b)) := by ring
      _ ≤ 9 * (b ^ 2 * (1 + 9 * ε)) := by linarith
      _ = 9 * b ^ 2 * (1 + 9 * ε) := by ring
      _ ≤ b' * (1 + 9 * b) * (1 + 9 * ε) := mul_le_mul_of_nonneg_right hb he1
      _ = b' * ((1 + 9 * ε) * (1 + 9 * b)) := by ring
  exact le_of_mul_le_mul_right key hpos

/-- While the bound is at least 1, each Newton step lowers it by `1/10`. -/
theorem kepler_chain_far (M e r : ℝ) (he0 : 0 ≤ e) (he : e ≤ 9 / 10)
    (hr0 : 0 ≤ r) (hr : kepler_residual realLibm M e r = 0) :
    ∀ (n : ℕ) (x b : ℝ), (r ≤ x ∧ x ≤ π ∧ x - r ≤ b) → (n : ℝ) / 10 ≤ b - 9 / 10 →
      r ≤ (kepler_newton realLibm M e)^[n] x ∧ (kepler_newton realLibm M e)^[n] x ≤ π ∧
        (kepler_newton realLibm M e)^[n] x - r ≤ b - n / 10 := by
  intro n
  induction n with
  | zero => intro x b hx _; simpa using hx
  | succ n ih =>
    intro x b hx hn
    push_cast at hn
    rw [Function.iterate_succ_apply]
    have hn0 : (0 : ℝ) ≤ n := Nat.cast_nonneg n
    have hb1 : 1 ≤ b := by linarith
    have h1 := kepler_chain_step M e r x b (b - 1 / 10) he0 he hr0 hr hx (by nlinarith)
    have h2 := ih _ _ h1 (by linarith)
    refine ⟨h2.1, h2.2.1, ?_⟩
    push_cast
    linarith [h2.2.2]

/-- Newton steps from the right of the root never increase the distance to it. -/
theorem kepler_chain_near (M e r : ℝ) (he0 : 0 ≤ e) (he : e ≤ 9 / 10)
    (hr0 : 0 ≤ r) (hr : kepler_residual realLibm M e r = 0) :
    ∀ (n : ℕ) (x b : ℝ), (r ≤ x ∧ x ≤ π ∧ x - r ≤ b) →
      r ≤ (kepler_newton realLibm M e)^[n] x ∧ (kepler_newton realLibm M e)^[n] x ≤ π ∧
        (kepler_newton realLibm M e)^[n] x - r ≤ b := by
  intro n
  induction n with
  | zero => intro x b hx; simpa using hx
  | succ n ih =>
    intro x b hx
    rw [Function.iterate_succ_apply]
    obtain ⟨h1, h2, -⟩ := kepler_step_contracts M e r x he0 he hr0 hr hx.1 hx.2.1
    exact ih _ _ ⟨h1, le_trans h2 hx.2.1, by linarith [hx.2.2]⟩

/-- Fifteen Newton steps take a bound of `0.95` down to `4.44e-11`. -/
theorem kepler_chain_middle (M e r x : ℝ) (he0 : 0 ≤ e) (he : e ≤ 9 / 10)
    (hr0 : 0 ≤ r) (hr : kepler_residual realLibm M e r = 0)
    (h : r ≤ x ∧ x ≤ π ∧ x - r ≤ 95 / 100) :
    r ≤ (kepler_newton realLibm M e)^[15] x ∧ (kepler_newton realLibm M e)^[15] x ≤ π ∧
      (kepler_newton realLibm M e)^[15] x - r ≤ 444 / 10000000000000 := by
  have s0 := h
  have s1 := kepler_chain_step M e r _ _ (851/1000) he0 he hr0 hr s0 (by norm_num)
  have s2 := kepler_chain_step M e r _ _ (753/1000) he0 he hr0 hr s1 (by norm_num)
  have s3 := kepler_chain_step M e r _ _ (657/1000) he0 he hr0 hr s2 (by norm_num)
  have s4 := kepler_chain_step M e r _ _ (562/1000) he0 he hr0 hr s3 (by norm_num)
  have s5 := kepler_chain_step M e r _ _ (47/100) he0 he hr0 hr s4 (by norm_num)
  have s6 := kepler_chain_step M e r _ _ (381/1000) he0 he hr0 hr s5 (by norm_num)
  have s7 := kepler_chain_step M e r _ _ (295/1000) he0 he hr0 hr s6 (by norm_num)
  have s8 := kepler_chain_step M e r _ _ (215/1000) he0 he hr0 hr s7 (by norm_num)
  have s9 := kepler_chain_step M e r _ _ (142/1000) he0 he hr0 hr s8 (by norm_num)
  have s10 := kepler_chain_step M e r _ _ (797/10000) he0 he hr0 hr s9 (by norm_num)
  have s11 := kepler_chain_step M e r _ _ (333/10000) he0 he hr0 hr s10 (by norm_num)
  have s12 := kepler_chain_step M e r _ _ (768/100000) he0 he hr0 hr s11 (by norm_num)
  have s13 := kepler_chain_step M e r _ _ (497/1000000) he0 he hr0 hr s12 (by norm_num)
  have s14 := kepler_chain_step M e r _ _ (222/100000000) he0 he hr0 hr s13 (by norm_num)
  have s15 := kepler_chain_step M e r _ _ (444/10000000000000) he0 he hr0 hr s14 (by norm_num)
  exact s15

/-- The loop of `solve_kepler_equation` returns either a Newton iterate that
moved by less than the tolerance, or the iterate reached when the cap is hit. -/
theorem kepler_loop_cases (M e : ℝ) : ∀ (k : ℕ) (x : ℝ),
    (∃ y, kepler_loop realLibm M e k x = kepler_newton realLibm M e y ∧
      |kepler_newton realLibm M e y - y| < 1 / 100000000) ∨
    kepler_loop realLibm M e k x = (kepler_newton realLibm M e)^[k] x := by
  intro k
  induction k with
  | zero => intro x; exact Or.inr rfl
  | succ k ih =>
    intro x
    simp only [kepler_loop]
    split_ifs with hc
    · exact Or.inl ⟨x, rfl, hc⟩
    · rw [Function.iterate_succ_apply]
      exact ih _

/-- Fifty iterations are one, then 22, then 15, then 12. -/
theorem iterate_fifty {β : Type} (f : β → β) (x : β) :
    f^[50] x = f^[12] (f^[15] (f^[22] (f x))) := by
  rw [← Function.iterate_succ_apply, ← Function.iterate_add_apply,
    ← Function.iterate_add_apply]

/-- The fiftieth Newton iterate from `E₀ = M ∈ [0, π]` is within `4.44e-11` of
the root, from the right. -/
theorem kepler_fifty_steps (M e : ℝ) (he0 : 0 ≤ e) (he : e ≤ 9 / 10) (hM0 : 0 ≤ M)
    (hM : M ≤ π) :
    ∃ r, kepler_residual realLibm M e r = 0 ∧
      r ≤ (kepler_newton realLibm M e)^[50] M ∧
      (kepler_newton realLibm M e)^[50] M - r ≤ 444 / 10000000000000 := by
  obtain ⟨r, hr1, hr2, hr⟩ := kepler_root_exists M e he0 hM0 hM
  have hr0 : 0 ≤ r := le_trans hM0 hr1
  obtain ⟨h1, h2⟩ := kepler_first_step M e r he0 he hM0 hM hr1 hr2 hr
  have hpi := Real.pi_lt_d2
  have s1 : r ≤ kepler_newton realLibm M e M ∧ kepler_newton realLibm M e M ≤ π ∧
      kepler_newton realLibm M e M - r ≤ 315 / 100 := ⟨h1, h2, by linarith⟩
  have s2 := kepler_chain_far M e r he0 he hr0 hr 22 _ _ s1 (by norm_num)
  have s3 := kepler_chain_middle M e r _ he0 he hr0 hr
    ⟨s2.1, s2.2.1, le_trans s2.2.2 (by norm_num)⟩
  have s4 := kepler_chain_near M e r he0 he hr0 hr 12 _ _ s3
  rw [iterate_fifty]
  exact ⟨r, hr, s4.1, s4.2.2⟩

/-- The residual bound for mean anomalies in `[0, π]`. -/
theorem solve_kepler_residual_half (M e : ℝ) (he0 : 0 ≤ e) (he : e ≤ 9 / 10) (hM0 : 0 ≤ M)
    (hM : M ≤ π) :
    |kepler_residual realLibm M e (solve_kepler_equation realLibm M e)| < 1 / 1000000 := by
  unfold solve_kepler_equation
  rcases kepler_loop_cases M e 50 M with ⟨y, hy, hsmall⟩ | hcap
  · rw [hy]
    have h := kepler_residual_newton M e y he0 he
    have : 2 * e * |kepler_newton realLibm M e y - y| ≤ 2 * (9 / 10) * (1 / 100000000) := by
      gcongr
    linarith
  · rw [hcap]
    obtain ⟨r, hr, h1, h2⟩ := kepler_fifty_steps M e he0 he hM0 hM
    obtain ⟨h3, h4⟩ := kepler_residual_slope M e r _ he0 h1
    rw [hr, sub_zero] at h3 h4
    have h5 : 0 ≤ kepler_residual realLibm M e ((kepler_newton realLibm M e)^[50] M) := by
      nlinarith
    rw [abs_of_nonneg h5]
    nlinarith

/-- Reflection `E ↦ 2π - E`, `M ↦ 2π - M` commutes with the Newton step. -/
theorem kepler_newton_reflect (M e y : ℝ) :
    kepler_newton realLibm M e (2 * π - y) = 2 * π - kepler_newton realLibm (2 * π - M) e y := by
  rw [kepler_newton_real, kepler_newton_real, Real.sin_two_pi_sub, Real.cos_two_pi_sub]
  have : 2 * π - y - e * -sin y - M = -(y - e * sin y - (2 * π - M)) := by ring
  rw [this, neg_div]
  ring

/-- Reflection negates the residual. -/
theorem kepler_residual_reflect (M e y : ℝ) :
    kepler_residual realLibm M e (2 * π - y) = -kepler_residual realLibm (2 * π - M) e y := by
  rw [kepler_residual_real, kepler_residual_real, Real.sin_two_pi_sub]
  ring

/-- Reflection commutes with the loop of `solve_kepler_equation`. -/
theorem kepler_loop_reflect (M e : ℝ) : ∀ (k : ℕ) (y : ℝ),
    kepler_loop realLibm M e k (2 * π - y) = 2 * π - kepler_loop realLibm (2 * π - M) e k y := by
  intro k
  induction k with
  | zero => intro y; rfl
  | succ k ih =>
    intro y
    simp only [kepler_loop]
    have hstep : kepler_newton realLibm M e (2 * π - y) - (2 * π - y) =
        -(kepler_newton realLibm (2 * π - M) e y - y) := by
      rw [kepler_newton_reflect]; ring
    rw [hstep, abs_neg]
    split_ifs with hc
    · exact kepler_newton_reflect M e y
    · rw [kepler_newton_reflect, ih]

/-- C8. Kepler solver convergence: for every eccentricity `e ∈ [0, 0.9]` and mean
anomaly `M ∈ [0, 2π)` the value `E` returned by `solve_kepler_equation` satisfies
`|E − e·sin(E) − M| < 1e-6` (real arithmetic). -/
theorem solve_kepler_equation_residual (M e : ℝ) (he0 : 0 ≤ e) (he : e ≤ 9 / 10)
    (hM0 : 0 ≤ M) (hM : M < 2 * π) :
    |solve_kepler_equation realLibm M e - e * sin (solve_kepler_equation realLibm M e) - M|
      < 1 / 1000000 := by
  rw [← kepler_residual_real]
  rcases le_total M π with hle | hge
  · exact solve_kepler_residual_half M e he0 he hM0 hle
  · have h := solve_kepler_residual_half (2 * π - M) e he0 he (by linarith) (by linarith)
    have hs : solve_kepler_equation realLibm M e =
        2 * π - solve_kepler_equation realLibm (2 * π - M) e := by
      unfold solve_kepler_equation
      have := kepler_loop_reflect M e 50 (2 * π - M)
      rw [sub_sub_cancel] at this
      exact this
    rw [hs, kepler_residual_reflect, abs_neg]
    exact h

/-- Witness for C8: eccentricity `1/2` and mean anomaly `1`. -/
theorem solve_kepler_equation_residual_witness :
    (0 : ℝ) ≤ 1 / 2 ∧ (1 / 2 : ℝ) ≤ 9 / 10 ∧ (0 : ℝ) ≤ 1 ∧ (1 : ℝ) < 2 * π ∧
    |solve_kepler_equation realLibm 1 (1 / 2)
        - 1 / 2 * sin (solve_kepler_equation realLibm 1 (1 / 2)) - 1| < 1 / 1000000 :=
  ⟨by norm_num, by norm_num, by norm_num, by linarith [Real.pi_gt_three],
   solve_kepler_equation_residual 1 (1 / 2) (by norm_num) (by norm_num) (by norm_num)
     (by linarith [Real.pi_gt_three])⟩

end Kepler

section DopplerModel

variable {α : Type} [LinearOrderedField α]

/-- The code's Doppler shift in closed form: `-(range_rate * carrier) / c`, the
two factors 1000 cancelling. -/
theorem calculate_doppler_shift_eq (view : TopocentricView α) (carrier : α) :
    calculate_doppler_shift view carrier = -(view.range_rate * carrier) / 299792458 := by
  unfold calculate_doppler_shift SPEED_OF_LIGHT
  field_simp
  ring

/-- For every view and carrier the contract value is a thousand times the value
the code returns. -/
theorem doppler_shift_spec_eq (view : TopocentricView α) (carrier : α) :
    doppler_shift_spec view carrier = 1000 * calculate_doppler_shift view carrier := by
  rw [calculate_doppler_shift_eq]
  unfold doppler_shift_spec
  ring

/-- C9. At a range rate of +1 km/s and a 10 GHz carrier the code returns
`-10^10 / 299792458` Hz, about −33.4 Hz, while the contract
`−range_rate_mps · carrier_hz / c` gives about −33.4 kHz: the code divides by
`SPEED_OF_LIGHT * 1000` and so returns a thousandth of the contract value. -/
theorem calculate_doppler_shift_off_by_1000 :
    calculate_doppler_shift (⟨0, 0, 0, 1⟩ : TopocentricView ℚ) 10000000000
      = -(10000000000 / 299792458) ∧
    -34 < calculate_doppler_shift (⟨0, 0, 0, 1⟩ : TopocentricView ℚ) 10000000000 ∧
    calculate_doppler_shift (⟨0, 0, 0, 1⟩ : TopocentricView ℚ) 10000000000 < -33 ∧
    -33357 < doppler_shift_spec (⟨0, 0, 0, 1⟩ : TopocentricView ℚ) 10000000000 ∧
    doppler_shift_spec (⟨0, 0, 0, 1⟩ : TopocentricView ℚ) 10000000000 < -33356 ∧
    doppler_shift_spec (⟨0, 0, 0, 1⟩ : TopocentricView ℚ) 10000000000 =
      1000 * calculate_doppler_shift (⟨0, 0, 0, 1⟩ : TopocentricView ℚ) 10000000000 := by
  norm_num [calculate_doppler_shift, doppler_shift_spec, SPEED_OF_LIGHT]

/-- C10. Doppler sign convention: for a positive carrier frequency the shift is
strictly negative for a positive range rate (receding), strictly positive for a
negative range rate (approaching), and zero for a zero range rate. -/
theorem calculate_doppler_shift_sign (view : TopocentricView α) (carrier : α)
    (hc : 0 < carrier) :
    (0 < view.range_rate → calculate_doppler_shift view carrier < 0) ∧
    (view.range_rate < 0 → 0 < calculate_doppler_shift view carrier) ∧
    (view.range_rate = 0 → calculate_doppler_shift view carrier = 0) := by
  rw [calculate_doppler_shift_eq]
  have hcl : (0 : α) < 299792458 := by norm_num
  refine ⟨fun h => ?_, fun h => ?_, fun h => ?_⟩
  · exact div_neg_of_neg_of_pos (neg_neg_of_pos (mul_pos h hc)) hcl
  · exact div_pos (neg_pos.mpr (mul_neg_of_neg_of_pos h hc)) hcl
  · rw [h, zero_mul, neg_zero, zero_div]

/-- Witness for C10: a 10 GHz carrier and a satellite receding at 1 km/s. -/
theorem calculate_doppler_shift_sign_witness :
    (0 : ℚ) < 10000000000 ∧
    calculate_doppler_shift (⟨0, 0, 0, 1⟩ : TopocentricView ℚ) 10000000000 < 0 :=
  ⟨by norm_num,
   (calculate_doppler_shift_sign (⟨0, 0, 0, 1⟩ : TopocentricView ℚ) 10000000000
      (by norm_num)).1 (by norm_num)⟩

end DopplerModel

section Sweep

variable {α : Type} [LinearOrderedField α]

/-- The sweep, one iteration unfolded. -/
theorem sweep_succ {σ : Type} (e step : α) (visit : α → σ → σ) (fuel : Nat) (f : α) (init : σ)
    (h : f ≤ e) :
    sweep e step visit (fuel + 1) f init = sweep e step visit fuel (f + step) (visit f init) := by
  simp only [sweep, whileLoop, h, decide_True, if_true]

/-- The sweep does nothing once the frequency is past the end. -/
theorem sweep_done {σ : Type} (e step : α) (visit : α → σ → σ) (fuel : Nat) (f : α) (init : σ)
    (h : e < f) : sweep e step visit fuel f init = some init := by
  have h2 : ¬ f ≤ e := not_le.mpr h
  cases fuel <;> simp [sweep, whileLoop, h2]

/-- The frequencies `f, f + step, …` of a sweep with `n` candidates. -/
theorem sweep_eq_foldl {σ : Type} (e step : α) (visit : α → σ → σ) :
    ∀ (n : Nat) (f : α) (init : σ), (∀ k : Nat, k < n → f + k * step ≤ e) →
      e < f + n * step → ∀ fuel, n ≤ fuel →
      sweep e step visit fuel f init =
        some (((List.range n).map fun k : Nat => f + (k : α) * step).foldl
          (fun st x => visit x st) init) := by
  intro n
  induction n with
  | zero =>
    intro f init _ hend fuel _
    rw [sweep_done e step visit fuel f init (by simpa using hend)]
    rfl
  | succ n ih =>
    intro f init hle hend fuel hfuel
    obtain ⟨fuel', rfl⟩ : ∃ fuel', fuel = fuel' + 1 := ⟨fuel - 1, by omega⟩
    have h0 : f ≤ e := by simpa using hle 0 (by omega)
    rw [sweep_succ e step visit fuel' f init h0,
      ih (f + step) (visit f init)
        (fun k hk => by
          have := hle (k + 1) (by omega)
          push_cast at this
          linarith)
        (by push_cast at hend; linarith) fuel' (by omega)]
    rw [List.range_succ_eq_map, List.map_cons, List.foldl_cons, List.map_map]
    simp only [Nat.cast_zero, zero_mul, add_zero]
    congr 2
    apply List.map_congr_left
    intro k _
    simp only [Function.comp, Nat.cast_succ]
    ring

/-- A sweep with a positive step has finitely many candidates: there is `n` with
`f + k step ≤ e` exactly for `k < n`. -/
theorem sweep_count [Archimedean α] (e step f : α) (hstep : 0 < step) :
    ∃ n : Nat, (∀ k : Nat, k < n → f + k * step ≤ e) ∧ e < f + n * step := by
  classical
  have hex : ∃ n : Nat, e < f + n * step := by
    obtain ⟨n, hn⟩ := exists_nat_gt ((e - f) / step)
    refine ⟨n, ?_⟩
    rw [div_lt_iff₀ hstep] at hn
    linarith
  refine ⟨Nat.find hex, fun k hk => ?_, Nat.find_spec hex⟩
  exact not_lt.mp (Nat.find_min hex hk)

/-- Recording the visited frequencies gives them back in order. -/
theorem foldl_record {β : Type} (l : List β) : ∀ acc : List β,
    l.foldl (fun visited x => visited ++ [x]) acc = acc ++ l := by
  induction l with
  | nil => intro acc; simp
  | cons a t ih => intro acc; rw [List.foldl_cons, ih]; simp

/-- The candidates of a search: `start + k step` for `k < n`, and the search
result is the fold of the loop body over them. -/
theorem search_with_eq [Archimedean α] (metric : α → α) (center width step : α)
    (hstep : 0 < step) :
    ∃ n : Nat, (∀ k : Nat, k < n ↔ center - width / 2 + k * step ≤ center + width / 2) ∧
      ∀ fuel, n ≤ fuel →
        swept_candidates fuel center width step =
          some ((List.range n).map fun k : Nat => center - width / 2 + (k : α) * step) ∧
        search_with metric fuel center width step =
          some (((List.range n).map fun k : Nat => center - width / 2 + (k : α) * step).foldl
            (fun r x => r.consider x (metric x))
            { best_frequency := center, best_metric := 0, found := false }) := by
  obtain ⟨n, hle, hend⟩ := sweep_count (center + width / 2) step (center - width / 2) hstep
  refine ⟨n, fun k => ⟨hle k, fun hk => ?_⟩, fun fuel hfuel => ⟨?_, ?_⟩⟩
  · by_contra hnk
    have hnk : n ≤ k := not_lt.mp hnk
    have : (n : α) ≤ k := Nat.cast_le.mpr hnk
    nlinarith
  · unfold swept_candidates
    rw [sweep_eq_foldl _ _ _ n _ _ hle hend fuel hfuel, foldl_record]
    rfl
  · unfold search_with
    exact sweep_eq_foldl _ _ _ n _ _ hle hend fuel hfuel

end Sweep

section Search

variable {α : Type} [LinearOrderedField α]

/-- C14 (as stated): the centre frequency is not always a candidate.  A sweep of
width 1 in steps of 1 around 0 visits `-1/2` and `1/2` only. -/
theorem center_not_swept :
    swept_candidates 2 (0 : ℚ) 1 1 = some [-1 / 2, 1 / 2] ∧
    (0 : ℚ) ∉ ([-1 / 2, 1 / 2] : List ℚ) := by
  refine ⟨by norm_num [swept_candidates, sweep, whileLoop], ?_⟩
  norm_num

/-- C14 (amended). For every centre, width `≥ 0` and step `> 0` the sweep visits
at least one candidate, the first being `center - width/2`, and the centre
frequency is one of the candidates exactly when `width/2` is a whole multiple of
the step (as it is for width 0). -/
theorem center_swept_iff [Archimedean α] (center width step : α) (hw : 0 ≤ width)
    (hstep : 0 < step) :
    ∃ N cands, (∀ fuel, N ≤ fuel → swept_candidates fuel center width step = some cands) ∧
      cands.head? = some (center - width / 2) ∧
      (center ∈ cands ↔ ∃ k : Nat, width / 2 = k * step) := by
  obtain ⟨n, hn, h⟩ := search_with_eq (fun _ => (0 : α)) center width step hstep
  have hpos : 0 < n := (hn 0).mpr (by simp only [Nat.cast_zero, zero_mul, add_zero]; linarith)
  refine ⟨n, _, fun fuel hf => (h fuel hf).1, ?_, ?_⟩
  · obtain ⟨n', rfl⟩ : ∃ n', n = n' + 1 := ⟨n - 1, by omega⟩
    rw [List.range_succ_eq_map]
    simp
  · rw [List.mem_map]
    constructor
    · rintro ⟨k, -, hk⟩
      exact ⟨k, by linarith⟩
    · rintro ⟨k, hk⟩
      refine ⟨k, List.mem_range.mpr ((hn k).mpr ?_), by linarith⟩
      linarith

/-- Witness for C14: a search of ±5000 Hz in steps of 100 Hz around 0. -/
theorem center_swept_iff_witness :
    (0 : ℚ) ≤ 10000 ∧ (0 : ℚ) < 100 ∧
    ∃ N cands, (∀ fuel, N ≤ fuel → swept_candidates fuel (0 : ℚ) 10000 100 = some cands) ∧
      cands.head? = some ((0 : ℚ) - 10000 / 2) ∧
      ((0 : ℚ) ∈ cands ↔ ∃ k : Nat, (10000 : ℚ) / 2 = k * 100) :=
  ⟨by norm_num, by norm_num, center_swept_iff 0 10000 100 (by norm_num) (by norm_num)⟩

end Search

section SearchExamples

open Real

/-- The two-sample tone at a quarter of the sample rate is `1, i`. -/
theorem tone_quarter_rate :
    tone realLibm 250000 1000000 2 = [⟨1, 0⟩, ⟨0, 1⟩] := by
  have h : 2 * π * 250000 / 1000000 = π / 2 := by ring
  simp [tone, polar, realLibm, List.range_succ, h]

/-- The metric of the tone `1, i` at its own frequency is 0, and at the opposite
frequency it is 1. -/
theorem compute_correlation_quarter_rate :
    compute_correlation realLibm [⟨1, 0⟩, ⟨0, 1⟩] 250000 1000000 = 0 ∧
    compute_correlation realLibm [⟨1, 0⟩, ⟨0, 1⟩] (-250000) 1000000 = 1 := by
  have h : (250000 : ℝ) * 2 * π / 1000000 = π / 2 := by ring
  have h' : (-250000 : ℝ) * 2 * π / 1000000 = -(π / 2) := by ring
  have h4 : Real.sqrt 4 = 2 := by
    rw [show (4 : ℝ) = 2 * 2 by norm_num]
    exact Real.sqrt_mul_self (by norm_num)
  constructor
  · simp [compute_correlation, polar, ComplexSample.mul, realLibm, h]
  · simp only [compute_correlation, polar, ComplexSample.mul, realLibm, h', List.foldl_cons,
      List.foldl_nil, zero_add, Real.cos_zero, Real.sin_zero, Real.cos_neg, Real.sin_neg,
      Real.cos_pi_div_two, Real.sin_pi_div_two]
    norm_num
    rw [h4]
    norm_num

/-- C13. The metric is not computed by de-rotation: for the noise-free tone
`exp(+i·2π·f·k/fs)` with `f = fs/4` and two samples (`1, i`) the metric of the
candidate `f` is 0, not 1 (the metric 1 is at the candidate `-f`), and a search
with `center = f`, `width = 0` returns `found = false` with `best_metric = 0`. -/
theorem search_misses_tone :
    tone realLibm 250000 1000000 2 = [⟨1, 0⟩, ⟨0, 1⟩] ∧
    compute_correlation realLibm (tone realLibm 250000 1000000 2) 250000 1000000 = 0 ∧
    compute_correlation realLibm (tone realLibm 250000 1000000 2) (-250000) 1000000 = 1 ∧
    search_frequency_range realLibm 1 (tone realLibm 250000 1000000 2) 250000 0 100 1000000 =
      some { best_frequency := 250000, best_metric := 0, found := false } := by
  rw [tone_quarter_rate]
  obtain ⟨h1, h2⟩ := compute_correlation_quarter_rate
  refine ⟨rfl, h1, h2, ?_⟩
  simp only [search_frequency_range, search_with, sweep, whileLoop, SearchResult.consider]
  norm_num [h1]

end SearchExamples

section PLL

variable {α : Type} [LinearOrderedField α]

/-- C17 (amended). For every PLL state and input sample, `process` returns
`input * conj(exp(i·phase))`, takes `err = arg(output)`, adds `err` to the
integral accumulator, and updates the frequency estimate by one hundredth of
`kp·err + ki·integral_new`: `frequency_new = frequency_old + 0.01·(kp·err +
ki·integral_new)`; the phase then advances by `frequency_new·2π/10^6`, and the
gains are unchanged. -/
theorem pll_process_update (m : Libm α) (p : PhaseLockedLoop α) (input : ComplexSample α) :
    (p.process m input).2 = derotate m input p.phase ∧
    (p.process m input).1.integral_error = p.integral_error + arg m (p.process m input).2 ∧
    (p.process m input).1.frequency =
      p.frequency + (p.kp * arg m (p.process m input).2 +
        p.ki * (p.process m input).1.integral_error) * (1 / 100) ∧
    (p.process m input).1.phase =
      p.phase + (p.process m input).1.frequency * 2 * m.M_PI / 1000000 ∧
    (p.process m input).1.kp = p.kp ∧ (p.process m input).1.ki = p.ki := by
  refine ⟨?_, rfl, rfl, rfl, rfl, rfl⟩
  simp [PhaseLockedLoop.process, derotate, polar, ComplexSample.conj]

end PLL

section PLLExample

open Real

/-- C17 (as stated): the frequency is not updated by `kp·err + ki·integral_new`.
From the default state (frequency 0, phase 0, `kp = 0.1`, `ki = 0.01`) the input
`i` gives the output `i`, `err = π/2`, `integral_new = π/2`, and the new
frequency is `0.00055·π`, not `0.055·π`. -/
theorem pll_frequency_step_scaled :
    ((PhaseLockedLoop.new_default (0 : ℝ)).process realLibm ⟨0, 1⟩).2 = ⟨0, 1⟩ ∧
    arg realLibm ((PhaseLockedLoop.new_default (0 : ℝ)).process realLibm ⟨0, 1⟩).2 = π / 2 ∧
    ((PhaseLockedLoop.new_default (0 : ℝ)).process realLibm ⟨0, 1⟩).1.integral_error = π / 2 ∧
    ((PhaseLockedLoop.new_default (0 : ℝ)).process realLibm ⟨0, 1⟩).1.frequency
      = 11 / 20000 * π ∧
    ((PhaseLockedLoop.new_default (0 : ℝ)).process realLibm ⟨0, 1⟩).1.frequency ≠
      (PhaseLockedLoop.new_default (0 : ℝ)).frequency +
        ((PhaseLockedLoop.new_default (0 : ℝ)).kp *
            arg realLibm ((PhaseLockedLoop.new_default (0 : ℝ)).process realLibm ⟨0, 1⟩).2 +
          (PhaseLockedLoop.new_default (0 : ℝ)).ki *
            ((PhaseLockedLoop.new_default (0 : ℝ)).process realLibm ⟨0, 1⟩).1.integral_error) := by
  have harg : Complex.arg ⟨0, 1⟩ = π / 2 := Complex.arg_I
  have hrun : (PhaseLockedLoop.new_default (0 : ℝ)).process realLibm ⟨0, 1⟩ =
      ({ frequency := 11 / 20000 * π, phase := 11 / 20000 * π * 2 * π / 1000000,
         kp := 1 / 10, ki := 1 / 100, integral_error := π / 2 }, ⟨0, 1⟩) := by
    simp only [PhaseLockedLoop.process, PhaseLockedLoop.new_default, PhaseLockedLoop.new, polar,
      ComplexSample.conj, ComplexSample.mul, arg, realLibm, Real.cos_zero, Real.sin_zero]
    norm_num [harg]
    constructor <;> ring
  rw [hrun]
  refine ⟨rfl, harg, rfl, rfl, ?_⟩
  simp only [PhaseLockedLoop.new_default, PhaseLockedLoop.new, arg, realLibm, harg]
  have := Real.pi_pos
  intro h
  nlinarith

end PLLExample

section Demodulator

variable {α : Type} [LinearOrderedField α]

/-- The four values of a decision. -/
theorem qpsk_bits_eq (i q : α) :
    qpsk_bits i q = (if 0 < i then 1 else 0) + (if 0 < q then 2 else 0) := by
  unfold qpsk_bits
  split_ifs <;> rfl

/-- The loop of `demodulate`: it threads the PLL through the symbols and appends
one decision per symbol, made from the PLL output for that symbol. -/
theorem demodulate_foldl (m : Libm α) (symbols : List (ComplexSample α)) :
    ∀ d : QPSKDemodulator α,
      symbols.foldl
        (fun (d : QPSKDemodulator α) symbol =>
          let r := d.pll.process m symbol
          let tracked := r.2
          let i := tracked.re
          let q := tracked.im
          let bits := qpsk_bits i q
          { d with pll := r.1, decisions := d.decisions ++ [bits] })
        d =
      { d with
        pll := (PhaseLockedLoop.process_each m d.pll symbols).1
        decisions := d.decisions ++
          (PhaseLockedLoop.process_each m d.pll symbols).2.map fun z => qpsk_bits z.re z.im } := by
  induction symbols with
  | nil => intro d; simp [PhaseLockedLoop.process_each]
  | cons x xs ih =>
    intro d
    rw [List.foldl_cons, ih]
    simp [PhaseLockedLoop.process_each]

/-- What `demodulate` returns and leaves behind. -/
theorem demodulate_eq (m : Libm α) (d : QPSKDemodulator α) (symbols : List (ComplexSample α)) :
    d.demodulate m symbols =
      ({ d with
          pll := (PhaseLockedLoop.process_each m d.pll symbols).1
          decisions :=
            (PhaseLockedLoop.process_each m d.pll symbols).2.map fun z => qpsk_bits z.re z.im },
        (PhaseLockedLoop.process_each m d.pll symbols).2.map fun z => qpsk_bits z.re z.im) := by
  simp only [QPSKDemodulator.demodulate, demodulate_foldl, List.nil_append]

/-- Successive PLL `process` calls return one output per input. -/
theorem pll_process_each_length (m : Libm α) (symbols : List (ComplexSample α)) :
    ∀ p : PhaseLockedLoop α, (PhaseLockedLoop.process_each m p symbols).2.length
      = symbols.length := by
  induction symbols with
  | nil => intro p; rfl
  | cons x xs ih => intro p; simp [PhaseLockedLoop.process_each, ih]

/-- C15. For every demodulator state and every symbol sequence of length `N ≥ 0`,
`demodulate` returns exactly `N` decisions, each one of 0, 1, 2, 3; the result
does not depend on the decisions stored by an earlier call, it is what the
demodulator stores afterwards, and it is empty iff the input is empty. -/
theorem demodulate_decisions (m : Libm α) (d : QPSKDemodulator α)
    (symbols : List (ComplexSample α)) :
    (d.demodulate m symbols).2.length = symbols.length ∧
    (∀ b ∈ (d.demodulate m symbols).2, b = 0 ∨ b = 1 ∨ b = 2 ∨ b = 3) ∧
    (∀ earlier : List Nat,
      ({ d with decisions := earlier }.demodulate m symbols).2 = (d.demodulate m symbols).2) ∧
    (d.demodulate m symbols).1.decisions = (d.demodulate m symbols).2 ∧
    ((d.demodulate m symbols).2 = [] ↔ symbols = []) := by
  have hlen : (d.demodulate m symbols).2.length = symbols.length := by
    rw [demodulate_eq]
    simp [pll_process_each_length]
  refine ⟨hlen, ?_, ?_, ?_, ?_⟩
  · intro b hb
    rw [demodulate_eq] at hb
    obtain ⟨z, -, hz⟩ := List.mem_map.mp hb
    rw [← hz, qpsk_bits_eq]
    split_ifs <;> simp
  · intro earlier
    rw [demodulate_eq, demodulate_eq]
  · rw [demodulate_eq]
  · rw [← List.length_eq_zero, hlen, List.length_eq_zero]

/-- C16. The `k`-th decision of `demodulate` is made from the PLL output for the
`k`-th symbol alone: bit 0 is set iff its in-phase part is `> 0`, bit 1 iff its
quadrature part is `> 0`, no other bit is set; and the mapping is Gray-coded:
two quadrants that share an edge (the sign condition of exactly one of the two
parts differs) get decisions that differ in exactly one bit. -/
theorem demodulate_gray_coded (m : Libm α) (d : QPSKDemodulator α)
    (symbols : List (ComplexSample α)) :
    (d.demodulate m symbols).2 =
      (PhaseLockedLoop.process_each m d.pll symbols).2.map (fun z => qpsk_bits z.re z.im) ∧
    (∀ i q : α, ((qpsk_bits i q).testBit 0 = true ↔ 0 < i) ∧
      ((qpsk_bits i q).testBit 1 = true ↔ 0 < q) ∧
      ∀ n, 2 ≤ n → (qpsk_bits i q).testBit n = false) ∧
    (∀ i q i' q' : α,
      ((¬ (0 < i ↔ 0 < i') ∧ (0 < q ↔ 0 < q')) ∨ ((0 < i ↔ 0 < i') ∧ ¬ (0 < q ↔ 0 < q'))) →
      (qpsk_bits i q ^^^ qpsk_bits i' q' = 1 ∨ qpsk_bits i q ^^^ qpsk_bits i' q' = 2)) := by
  refine ⟨by rw [demodulate_eq], ?_, ?_⟩
  · intro i q
    rw [qpsk_bits_eq]
    refine ⟨?_, ?_, ?_⟩
    · split_ifs with h1 h2 h2 <;> simp [h1]
    · split_ifs with h1 h2 h2 <;> simp [h2, Nat.testBit]
    · intro n hn
      obtain ⟨k, rfl⟩ : ∃ k, n = k + 2 := ⟨n - 2, by omega⟩
      split_ifs <;> simp [Nat.testBit, Nat.shiftRight_succ_inside]
  · intro i q i' q' h
    rw [qpsk_bits_eq, qpsk_bits_eq]
    by_cases h1 : 0 < i <;> by_cases h2 : 0 < q <;> by_cases h3 : 0 < i' <;>
      by_cases h4 : 0 < q' <;> simp [h1, h2, h3, h4] at h ⊢

end Demodulator

section Topocentric

open Real

/-- The azimuth returned by `get_topocentric`, in terms of the local `east` and `south`. -/
theorem get_topocentric_azimuth_eq (sat : StateVector ℝ) (station : GroundStation ℝ) :
    (get_topocentric realLibm sat station).azimuth =
      if realLibm.atan2
            (sez_east realLibm station
              (sat.x - (ground_station_to_eci realLibm station).x)
              (sat.y - (ground_station_to_eci realLibm station).y))
            (sez_south realLibm station
              (sat.x - (ground_station_to_eci realLibm station).x)
              (sat.y - (ground_station_to_eci realLibm station).y)
              (sat.z - (ground_station_to_eci realLibm station).z)) * RAD_TO_DEG realLibm < 0
      then
        realLibm.atan2
            (sez_east realLibm station
              (sat.x - (ground_station_to_eci realLibm station).x)
              (sat.y - (ground_station_to_eci realLibm station).y))
            (sez_south realLibm station
              (sat.x - (ground_station_to_eci realLibm station).x)
              (sat.y - (ground_station_to_eci realLibm station).y)
              (sat.z - (ground_station_to_eci realLibm station).z)) * RAD_TO_DEG realLibm + 360
      else
        realLibm.atan2
            (sez_east realLibm station
              (sat.x - (ground_station_to_eci realLibm station).x)
              (sat.y - (ground_station_to_eci realLibm station).y))
            (sez_south realLibm station
              (sat.x - (ground_station_to_eci realLibm station).x)
              (sat.y - (ground_station_to_eci realLibm station).y)
              (sat.z - (ground_station_to_eci realLibm station).z)) * RAD_TO_DEG realLibm :=
  rfl

/-- An angle in `(-π, π]` converted to degrees and raised by 360 when negative
lies in `[0, 360)`. -/
theorem normalize_degrees (a : ℝ) (h1 : -π < a) (h2 : a ≤ π) :
    0 ≤ (if a * (180 / π) < 0 then a * (180 / π) + 360 else a * (180 / π)) ∧
    (if a * (180 / π) < 0 then a * (180 / π) + 360 else a * (180 / π)) < 360 := by
  have hpi := Real.pi_pos
  have hk : 0 < 180 / π := by positivity
  have e1 : π * (180 / π) = 180 := by field_simp
  have hlo : -180 < a * (180 / π) := by nlinarith
  have hhi : a * (180 / π) ≤ 180 := by nlinarith
  split_ifs with h
  · constructor <;> linarith
  · exact ⟨not_lt.mp h, by linarith⟩

/-- C18. For every satellite state vector and ground station, the azimuth
returned by `get_topocentric` is `atan2(east, south)` converted to degrees, raised
by 360 when negative, and so `0 ≤ azimuth < 360` (real arithmetic). -/
theorem get_topocentric_azimuth (sat : StateVector ℝ) (station : GroundStation ℝ) :
    ((get_topocentric realLibm sat station).azimuth =
        realLibm.atan2
          (sez_east realLibm station
            (sat.x - (ground_station_to_eci realLibm station).x)
            (sat.y - (ground_station_to_eci realLibm station).y))
          (sez_south realLibm station
            (sat.x - (ground_station_to_eci realLibm station).x)
            (sat.y - (ground_station_to_eci realLibm station).y)
            (sat.z - (ground_station_to_eci realLibm station).z)) * (180 / π) ∨
      (get_topocentric realLibm sat station).azimuth =
        realLibm.atan2
          (sez_east realLibm station
            (sat.x - (ground_station_to_eci realLibm station).x)
            (sat.y - (ground_station_to_eci realLibm station).y))
          (sez_south realLibm station
            (sat.x - (ground_station_to_eci realLibm station).x)
            (sat.y - (ground_station_to_eci realLibm station).y)
            (sat.z - (ground_station_to_eci realLibm station).z)) * (180 / π) + 360) ∧
    0 ≤ (get_topocentric realLibm sat station).azimuth ∧
    (get_topocentric realLibm sat station).azimuth < 360 := by
  rw [get_topocentric_azimuth_eq]
  set a := realLibm.atan2
          (sez_east realLibm station
            (sat.x - (ground_station_to_eci realLibm station).x)
            (sat.y - (ground_station_to_eci realLibm station).y))
          (sez_south realLibm station
            (sat.x - (ground_station_to_eci realLibm station).x)
            (sat.y - (ground_station_to_eci realLibm station).y)
            (sat.z - (ground_station_to_eci realLibm station).z)) with ha
  have h1 : -π < a := Complex.neg_pi_lt_arg _
  have h2 : a ≤ π := Complex.arg_le_pi _
  have hr : RAD_TO_DEG realLibm = 180 / π := rfl
  rw [hr]
  refine ⟨?_, normalize_degrees a h1 h2⟩
  split_ifs
  · exact Or.inr rfl
  · exact Or.inl rfl

end Topocentric

section Overhead

open Real

/-- The ECI state of the sea-level station at latitude 0, longitude 0. -/
theorem ground_station_origin :
    ground_station_to_eci realLibm (⟨0, 0, 0⟩ : GroundStation ℝ) =
      { x := 6371, y := 0, z := 0, vx := 0, vy := 7292115 / 100000000000 * 6371, vz := 0 } := by
  simp [ground_station_to_eci, realLibm, EARTH_RADIUS_KM]

/-- Kepler's equation with mean anomaly 0 and eccentricity 0 is solved by 0 at once. -/
theorem solve_kepler_equation_zero : solve_kepler_equation realLibm 0 0 = 0 := by
  show kepler_loop realLibm 0 0 (49 + 1) 0 = 0
  simp [kepler_loop, kepler_newton, realLibm]

/-- At epoch a circular equatorial orbit with all angles 0 is on the x axis at
the distance of the semi-major axis. -/
theorem get_position_epoch (mm : ℝ) :
    ((SatelliteEphemeris.new realLibm
        { mean_motion := mm, inclination := 0, raan := 0, eccentricity := 0,
          argument_perigee := 0, mean_anomaly := 0 }).get_position realLibm 0).x =
      (SatelliteEphemeris.new realLibm
        { mean_motion := mm, inclination := 0, raan := 0, eccentricity := 0,
          argument_perigee := 0, mean_anomaly := 0 }).semi_major_axis ∧
    ((SatelliteEphemeris.new realLibm
        { mean_motion := mm, inclination := 0, raan := 0, eccentricity := 0,
          argument_perigee := 0, mean_anomaly := 0 }).get_position realLibm 0).y = 0 ∧
    ((SatelliteEphemeris.new realLibm
        { mean_motion := mm, inclination := 0, raan := 0, eccentricity := 0,
          argument_perigee := 0, mean_anomaly := 0 }).get_position realLibm 0).z = 0 := by
  have hf : realLibm.fmod 0 (2 * realLibm.M_PI) = 0 := by
    simp [realLibm]
  have hk := solve_kepler_equation_zero
  have ha : realLibm.atan2 0 1 = 0 := by
    show Complex.arg ⟨1, 0⟩ = 0
    exact Complex.arg_one
  have hs : realLibm.sqrt 1 = 1 := Real.sqrt_one
  have hc : realLibm.cos 0 = 1 := Real.cos_zero
  have hsn : realLibm.sin 0 = 0 := Real.sin_zero
  simp only [SatelliteEphemeris.get_position, SatelliteEphemeris.new,
    SatelliteEphemeris.perifocal_to_eci, mul_zero, add_zero, hf, hk, zero_div, hc, hsn, sub_zero,
    hs, mul_one, ha, one_mul, zero_mul, neg_zero, true_and]

/-- The elevation of a satellite on the x axis seen from the sea-level station at
latitude 0, longitude 0. -/
theorem overhead_elevation (sat : StateVector ℝ) (hy : sat.y = 0) (hz : sat.z = 0) :
    (get_topocentric realLibm sat ⟨0, 0, 0⟩).elevation =
      Real.arcsin ((sat.x - 6371) / Real.sqrt ((sat.x - 6371) * (sat.x - 6371))) * (180 / π) := by
  have hc : realLibm.cos 0 = 1 := Real.cos_zero
  have hsn : realLibm.sin 0 = 0 := Real.sin_zero
  simp only [get_topocentric, ground_station_origin, sez_zenith, hy, hz, zero_mul, hc, hsn,
    sub_zero, mul_zero, add_zero, one_mul]
  rfl

/-- Above the station the elevation is 90 degrees, below it is -90 degrees. -/
theorem overhead_elevation_cases (sat : StateVector ℝ) (hy : sat.y = 0) (hz : sat.z = 0) :
    (6371 < sat.x → (get_topocentric realLibm sat ⟨0, 0, 0⟩).elevation = 90) ∧
    (sat.x < 6371 → (get_topocentric realLibm sat ⟨0, 0, 0⟩).elevation = -90) := by
  have hpi := Real.pi_pos
  have e1 : π / 2 * (180 / π) = 90 := by field_simp; ring
  rw [overhead_elevation sat hy hz]
  constructor
  · intro h
    have hd : 0 < sat.x - 6371 := by linarith
    rw [Real.sqrt_mul_self hd.le, div_self hd.ne', Real.arcsin_one, e1]
  · intro h
    have hd : sat.x - 6371 < 0 := by linarith
    have hs : Real.sqrt ((sat.x - 6371) * (sat.x - 6371)) = -(sat.x - 6371) := by
      rw [← neg_mul_neg]
      exact Real.sqrt_mul_self (by linarith)
    rw [hs, div_neg, div_self hd.ne, Real.arcsin_neg, Real.arcsin_one, neg_mul, e1]

/-- The semi-major axis computed by the constructor. -/
theorem semi_major_axis_eq (tle : TLE ℝ) :
    (SatelliteEphemeris.new realLibm tle).semi_major_axis =
      (EARTH_MU / (tle.mean_motion * 2 * π / 1440 * (tle.mean_motion * 2 * π / 1440))) ^
        (1 / 3 : ℝ) := rfl

/-- The cube root of `6371³`. -/
theorem cube_root_earth_radius : ((6371 : ℝ) ^ 3) ^ (1 / 3 : ℝ) = 6371 := by
  have h := Real.pow_rpow_inv_natCast (x := 6371) (n := 3) (by norm_num) (by norm_num)
  rw [show (1 / 3 : ℝ) = ((3 : ℕ) : ℝ)⁻¹ by norm_num]
  exact h

/-- The semi-major axis is below the Earth radius when `μ < 6371³ n²`, and above
it when `6371³ n² < μ`, where `n` is the mean motion in radians per minute. -/
theorem semi_major_axis_cases (tle : TLE ℝ) (hmm : 0 < tle.mean_motion) :
    ((EARTH_MU : ℝ) < 6371 ^ 3 *
        (tle.mean_motion * 2 * π / 1440 * (tle.mean_motion * 2 * π / 1440)) →
      (SatelliteEphemeris.new realLibm tle).semi_major_axis < 6371) ∧
    (6371 ^ 3 * (tle.mean_motion * 2 * π / 1440 * (tle.mean_motion * 2 * π / 1440)) <
        (EARTH_MU : ℝ) →
      6371 < (SatelliteEphemeris.new realLibm tle).semi_major_axis) := by
  have hpi := Real.pi_pos
  have hn : 0 < tle.mean_motion * 2 * π / 1440 := by positivity
  have hnn : 0 < tle.mean_motion * 2 * π / 1440 * (tle.mean_motion * 2 * π / 1440) :=
    mul_pos hn hn
  have hmu : (0 : ℝ) < EARTH_MU := by unfold EARTH_MU; norm_num
  rw [semi_major_axis_eq]
  constructor
  · intro h
    have hx : EARTH_MU / (tle.mean_motion * 2 * π / 1440 * (tle.mean_motion * 2 * π / 1440)) <
        (6371 : ℝ) ^ 3 := by
      rw [div_lt_iff₀ hnn]; exact h
    have := Real.rpow_lt_rpow (div_pos hmu hnn).le hx (by norm_num : (0 : ℝ) < 1 / 3)
    rwa [cube_root_earth_radius] at this
  · intro h
    have hx : (6371 : ℝ) ^ 3 <
        EARTH_MU / (tle.mean_motion * 2 * π / 1440 * (tle.mean_motion * 2 * π / 1440)) := by
      rw [lt_div_iff₀ hnn]; exact h
    have := Real.rpow_lt_rpow (by norm_num) hx (by norm_num : (0 : ℝ) < 1 / 3)
    rwa [cube_root_earth_radius] at this

/-- C20 at a failing input: the circular equatorial orbit with all angles 0 and
the 15.49 rev/day of the tests (and likewise 20 rev/day), seen at epoch from the
sea-level station at latitude 0, longitude 0.  The constructor combines `EARTH_MU`
in km³/s² with the mean motion in radians per minute, so the semi-major axis it
computes is below the Earth radius of 6371 km; the satellite is then under the
station and the reported elevation is -90 degrees, not 90. -/
theorem overhead_pass_below_station :
    (SatelliteEphemeris.new realLibm
        { mean_motion := (20 : ℝ), inclination := 0, raan := 0, eccentricity := 0,
          argument_perigee := 0, mean_anomaly := 0 }).semi_major_axis < 6371 ∧
    (get_topocentric realLibm
        ((SatelliteEphemeris.new realLibm
          { mean_motion := (20 : ℝ), inclination := 0, raan := 0, eccentricity := 0,
            argument_perigee := 0, mean_anomaly := 0 }).get_position realLibm 0)
        ⟨0, 0, 0⟩).elevation = -90 ∧
    (SatelliteEphemeris.new realLibm
        { mean_motion := (1549 / 100 : ℝ), inclination := 0, raan := 0, eccentricity := 0,
          argument_perigee := 0, mean_anomaly := 0 }).semi_major_axis < 6371 ∧
    (get_topocentric realLibm
        ((SatelliteEphemeris.new realLibm
          { mean_motion := (1549 / 100 : ℝ), inclination := 0, raan := 0, eccentricity := 0,
            argument_perigee := 0, mean_anomaly := 0 }).get_position realLibm 0)
        ⟨0, 0, 0⟩).elevation = -90 ∧
    (-90 : ℝ) ≠ 90 := by
  have hpi := Real.pi_gt_three
  have h20 := (semi_major_axis_cases
    { mean_motion := (20 : ℝ), inclination := 0, raan := 0, eccentricity := 0,
      argument_perigee := 0, mean_anomaly := 0 } (by norm_num)).1 (by
        have hn : (1 : ℝ) / 12 ≤ 20 * 2 * π / 1440 := by linarith
        have : (1 : ℝ) / 144 ≤ 20 * 2 * π / 1440 * (20 * 2 * π / 1440) := by nlinarith
        show (EARTH_MU : ℝ) < 6371 ^ 3 * (20 * 2 * π / 1440 * (20 * 2 * π / 1440))
        unfold EARTH_MU
        nlinarith)
  have h15 := (semi_major_axis_cases
    { mean_motion := (1549 / 100 : ℝ), inclination := 0, raan := 0, eccentricity := 0,
      argument_perigee := 0, mean_anomaly := 0 } (by norm_num)).1 (by
        have hn : (1 : ℝ) / 16 ≤ 1549 / 100 * 2 * π / 1440 := by linarith
        have : (1 : ℝ) / 256 ≤ 1549 / 100 * 2 * π / 1440 * (1549 / 100 * 2 * π / 1440) := by
          nlinarith
        show (EARTH_MU : ℝ) <
          6371 ^ 3 * (1549 / 100 * 2 * π / 1440 * (1549 / 100 * 2 * π / 1440))
        unfold EARTH_MU
        nlinarith)
  obtain ⟨x20, y20, z20⟩ := get_position_epoch 20
  obtain ⟨x15, y15, z15⟩ := get_position_epoch (1549 / 100)
  refine ⟨h20, ?_, h15, ?_, by norm_num⟩
  · exact (overhead_elevation_cases _ y20 z20).2 (by rw [x20]; exact h20)
  · exact (overhead_elevation_cases _ y15 z15).2 (by rw [x15]; exact h15)

/-- The transform itself is right above the station: for every circular
equatorial orbit (eccentricity 0, inclination 0, RAAN 0, argument of perigee 0,
mean anomaly 0, positive mean motion) whose semi-major axis, as computed by the
constructor, is greater than the Earth radius of 6371 km, and a sea-level station
at latitude 0, longitude 0, `get_topocentric(get_position(0), station)` reports
an elevation of 90 degrees (real arithmetic). -/
theorem overhead_pass_elevation (mm : ℝ) (_hmm : 0 < mm)
    (ha : 6371 < (SatelliteEphemeris.new realLibm
        { mean_motion := mm, inclination := 0, raan := 0, eccentricity := 0,
          argument_perigee := 0, mean_anomaly := 0 }).semi_major_axis) :
    (get_topocentric realLibm
        ((SatelliteEphemeris.new realLibm
          { mean_motion := mm, inclination := 0, raan := 0, eccentricity := 0,
            argument_perigee := 0, mean_anomaly := 0 }).get_position realLibm 0)
        ⟨0, 0, 0⟩).elevation = 90 := by
  obtain ⟨hx, hy, hz⟩ := get_position_epoch mm
  exact (overhead_elevation_cases _ hy hz).1 (by rw [hx]; exact ha)

/-- An orbit above the station: a mean motion of 0.1 rev/day, for which the
computed semi-major axis is above 6371 km. -/
theorem overhead_pass_elevation_witness :
    (0 : ℝ) < 1 / 10 ∧
    6371 < (SatelliteEphemeris.new realLibm
        { mean_motion := (1 / 10 : ℝ), inclination := 0, raan := 0, eccentricity := 0,
          argument_perigee := 0, mean_anomaly := 0 }).semi_major_axis ∧
    (get_topocentric realLibm
        ((SatelliteEphemeris.new realLibm
          { mean_motion := (1 / 10 : ℝ), inclination := 0, raan := 0, eccentricity := 0,
            argument_perigee := 0, mean_anomaly := 0 }).get_position realLibm 0)
        ⟨0, 0, 0⟩).elevation = 90 := by
  have hpi := Real.pi_lt_d2
  have hpos := Real.pi_pos
  have ha := (semi_major_axis_cases
    { mean_motion := (1 / 10 : ℝ), inclination := 0, raan := 0, eccentricity := 0,
      argument_perigee := 0, mean_anomaly := 0 } (by norm_num)).2 (by
        have hn : 1 / 10 * 2 * π / 1440 ≤ (1 : ℝ) / 2000 := by linarith
        have hn0 : 0 ≤ 1 / 10 * 2 * π / 1440 := by positivity
        have : 1 / 10 * 2 * π / 1440 * (1 / 10 * 2 * π / 1440) ≤ (1 : ℝ) / 4000000 := by
          nlinarith
        show 6371 ^ 3 * (1 / 10 * 2 * π / 1440 * (1 / 10 * 2 * π / 1440)) < (EARTH_MU : ℝ)
        unfold EARTH_MU
        nlinarith)
  exact ⟨by norm_num, ha, overhead_pass_elevation (1 / 10) (by norm_num) ha⟩

end Overhead

section ErrorReporting

variable {α : Type} [LinearOrderedField α]

/-- C21 (as stated): a zero range is not guarded.  With the satellite at the ECI
position of the sea-level station at latitude 0, longitude 0, `get_topocentric`
signals no domain error: it returns a view, and the range in it is 0. -/
theorem get_topocentric_zero_range_returns :
    get_topocentric_outcome realLibm
        (ground_station_to_eci realLibm (⟨0, 0, 0⟩ : GroundStation ℝ)) ⟨0, 0, 0⟩ ≠
      Except.error CallError.domain_error ∧
    ∃ view : TopocentricView ℝ,
      get_topocentric_outcome realLibm
        (ground_station_to_eci realLibm (⟨0, 0, 0⟩ : GroundStation ℝ)) ⟨0, 0, 0⟩ =
          Except.ok view ∧
      view.range = 0 := by
  refine ⟨by simp [get_topocentric_outcome], _, rfl, ?_⟩
  simp [get_topocentric, realLibm]

/-- C21 (amended). When the satellite position coincides with the station's ECI
position, `get_topocentric` is not guarded and signals no error: for every
station and every satellite velocity it returns a view whose range is 0 and
whose elevation and range-rate are quotients by that zero range (real
arithmetic). -/
theorem get_topocentric_unguarded (station : GroundStation ℝ) (vx vy vz : ℝ) :
    get_topocentric_outcome realLibm
        ⟨(ground_station_to_eci realLibm station).x, (ground_station_to_eci realLibm station).y,
          (ground_station_to_eci realLibm station).z, vx, vy, vz⟩ station =
      Except.ok (get_topocentric realLibm
        ⟨(ground_station_to_eci realLibm station).x, (ground_station_to_eci realLibm station).y,
          (ground_station_to_eci realLibm station).z, vx, vy, vz⟩ station) ∧
    (get_topocentric realLibm
        ⟨(ground_station_to_eci realLibm station).x, (ground_station_to_eci realLibm station).y,
          (ground_station_to_eci realLibm station).z, vx, vy, vz⟩ station).range = 0 ∧
    (get_topocentric realLibm
        ⟨(ground_station_to_eci realLibm station).x, (ground_station_to_eci realLibm station).y,
          (ground_station_to_eci realLibm station).z, vx, vy, vz⟩ station).elevation =
      realLibm.asin (sez_zenith realLibm station 0 0 0 /
        (get_topocentric realLibm
          ⟨(ground_station_to_eci realLibm station).x, (ground_station_to_eci realLibm station).y,
            (ground_station_to_eci realLibm station).z, vx, vy, vz⟩ station).range) *
        RAD_TO_DEG realLibm ∧
    (get_topocentric realLibm
        ⟨(ground_station_to_eci realLibm station).x, (ground_station_to_eci realLibm station).y,
          (ground_station_to_eci realLibm station).z, vx, vy, vz⟩ station).range_rate =
      ((vx - (ground_station_to_eci realLibm station).vx) * 0 +
          (vy - (ground_station_to_eci realLibm station).vy) * 0 +
          (vz - (ground_station_to_eci realLibm station).vz) * 0) /
        (get_topocentric realLibm
          ⟨(ground_station_to_eci realLibm station).x, (ground_station_to_eci realLibm station).y,
            (ground_station_to_eci realLibm station).z, vx, vy, vz⟩ station).range := by
  refine ⟨rfl, ?_, ?_, ?_⟩
  · simp [get_topocentric, realLibm]
  · simp only [get_topocentric, sub_self]
  · simp only [get_topocentric, sub_self]

/-- C22 (as stated): invalid elements are not detected at construction.  With
eccentricity 1, and with mean motion 0, the constructor reports no error and
returns an ephemeris holding those elements; with eccentricity 1 and mean
anomaly 0 the propagation at epoch then starts the Kepler solver where the
Newton derivative `1 - e cos E` is zero. -/
theorem new_accepts_invalid_elements :
    (∃ s : SatelliteEphemeris ℝ,
      SatelliteEphemeris.new_outcome realLibm
        { mean_motion := 15, inclination := 0, raan := 0, eccentricity := 1,
          argument_perigee := 0, mean_anomaly := 0 } = Except.ok s ∧
      s.tle.eccentricity = 1 ∧
      1 - s.tle.eccentricity * realLibm.cos (s.mean_anomaly_at realLibm 0) = 0) ∧
    (∃ s : SatelliteEphemeris ℝ,
      SatelliteEphemeris.new_outcome realLibm
        { mean_motion := 0, inclination := 0, raan := 0, eccentricity := 0,
          argument_perigee := 0, mean_anomaly := 0 } = Except.ok s ∧
      s.tle.mean_motion = 0 ∧ s.mean_motion_radians = 0) := by
  refine ⟨⟨_, rfl, rfl, ?_⟩, ⟨_, rfl, rfl, ?_⟩⟩
  · simp [SatelliteEphemeris.mean_anomaly_at, SatelliteEphemeris.new, realLibm]
  · simp [SatelliteEphemeris.new]

/-- C22 (amended). Constructing a `SatelliteEphemeris` performs no validation:
for every element set, eccentricity ≥ 1 or mean motion ≤ 0 included, the
constructor reports no error and returns an ephemeris that holds the elements
unchanged, with `mean_motion_radians = mean_motion · 2π / 1440` and
`semi_major_axis = pow(mu / n², 1/3)`. -/
theorem new_performs_no_validation (m : Libm α) (tle : TLE α) :
    SatelliteEphemeris.new_outcome m tle = Except.ok (SatelliteEphemeris.new m tle) ∧
    (SatelliteEphemeris.new m tle).tle = tle ∧
    (SatelliteEphemeris.new m tle).mean_motion_radians = tle.mean_motion * 2 * m.M_PI / 1440 ∧
    (SatelliteEphemeris.new m tle).semi_major_axis =
      m.pow (EARTH_MU / ((SatelliteEphemeris.new m tle).mean_motion_radians *
        (SatelliteEphemeris.new m tle).mean_motion_radians)) (1 / 3) :=
  ⟨rfl, rfl, rfl, rfl⟩

/-- C23 (as stated): a non-positive sample rate is not detected at construction.
With sample rate 0, and with sample rate -1, the constructor reports no error and
returns a compensator holding that rate; with sample rate -1 a following
`update_doppler(0)` divides by it and moves the target from 0 to -1000. -/
theorem new_accepts_nonpositive_sample_rate :
    (∃ c : DopplerCompensator ℚ,
      DopplerCompensator.new_outcome 0 (95 / 100) = Except.ok c ∧ c.sample_rate = 0) ∧
    (∃ c : DopplerCompensator ℚ,
      DopplerCompensator.new_outcome (-1) (95 / 100) = Except.ok c ∧ c.sample_rate = -1 ∧
      (c.update_doppler 0).target_doppler_shift = -1000) := by
  refine ⟨⟨_, rfl, rfl⟩, ⟨_, rfl, rfl, ?_⟩⟩
  norm_num [DopplerCompensator.update_doppler, DopplerCompensator.new]

/-- C23 (amended). Constructing a `DopplerCompensator` performs no validation:
for every sample rate, zero and negative included, the constructor reports no
error and returns a compensator that holds the rate unchanged, also after
`update_doppler`; for every non-zero rate, negative included, `update_doppler`
then limits the step to `1000 / sample_rate` and `compensate` advances the phase
by `current · 2π / sample_rate` with that very rate as divisor.  (At rate zero
the two quotients are divisions by zero, of which nothing is stated.) -/
theorem new_sample_rate_unchecked (m : Libm α) (sample_rate_hz smoothing doppler_hz : α)
    (fuel : Nat) (sample : ComplexSample α) :
    DopplerCompensator.new_outcome sample_rate_hz smoothing =
      Except.ok (DopplerCompensator.new sample_rate_hz smoothing) ∧
    (DopplerCompensator.new sample_rate_hz smoothing).sample_rate = sample_rate_hz ∧
    ((DopplerCompensator.new sample_rate_hz smoothing).update_doppler doppler_hz).sample_rate =
      sample_rate_hz ∧
    (sample_rate_hz ≠ 0 →
      ((DopplerCompensator.new sample_rate_hz smoothing).update_doppler
          doppler_hz).target_doppler_shift =
        (if doppler_hz > 1000 / sample_rate_hz then 1000 / sample_rate_hz
          else if doppler_hz < -1000 / sample_rate_hz then -1000 / sample_rate_hz
          else doppler_hz) ∧
      ((DopplerCompensator.new sample_rate_hz smoothing).update_doppler doppler_hz).compensate
          m fuel sample =
        (wrap_phase m fuel
          (0 + ((DopplerCompensator.new sample_rate_hz smoothing).update_doppler
            doppler_hz).current_doppler_shift * 2 * m.M_PI / sample_rate_hz)).map
          fun phase =>
            ({ (DopplerCompensator.new sample_rate_hz smoothing).update_doppler doppler_hz with
                phase_accumulator := phase },
              sample.mul (polar m 1 phase))) := by
  refine ⟨rfl, rfl, rfl, fun _hsr => ⟨?_, rfl⟩⟩
  simp [DopplerCompensator.update_doppler, DopplerCompensator.new]

/-- Witness for C23: sample rate -1, smoothing 0.95 and a request of 0 Hz, over
the reals; the step limit is `1000 / -1`. -/
theorem new_sample_rate_unchecked_witness :
    (-1 : ℝ) ≠ 0 ∧
    ((DopplerCompensator.new (-1 : ℝ) (95 / 100)).update_doppler 0).target_doppler_shift =
      (if (0 : ℝ) > 1000 / -1 then 1000 / -1
        else if (0 : ℝ) < -1000 / -1 then -1000 / -1
        else 0) :=
  ⟨by norm_num,
    ((new_sample_rate_unchecked realLibm (-1) (95 / 100) 0 0 ⟨1, 0⟩).2.2.2 (by norm_num)).1⟩

end ErrorReporting

section KeplerLoop

variable {α : Type} [LinearOrderedField α]

/-- The loop of `solve_kepler_equation` with a cap of `k` steps, started at `x`:
it returns the iterate number `i + 1` at the first step `i < k` whose change is
below the tolerance, and the iterate number `k` when no step is. -/
theorem kepler_loop_exit (m : Libm α) (M e : α) : ∀ (k : Nat) (x : α),
    (∃ i, i < k ∧
      (∀ j, j < i → ¬ |(kepler_newton m M e)^[j + 1] x - (kepler_newton m M e)^[j] x| <
        1 / 100000000) ∧
      |(kepler_newton m M e)^[i + 1] x - (kepler_newton m M e)^[i] x| < 1 / 100000000 ∧
      kepler_loop m M e k x = (kepler_newton m M e)^[i + 1] x) ∨
    ((∀ j, j < k → ¬ |(kepler_newton m M e)^[j + 1] x - (kepler_newton m M e)^[j] x| <
        1 / 100000000) ∧
      kepler_loop m M e k x = (kepler_newton m M e)^[k] x) := by
  intro k
  induction k with
  | zero =>
    intro x
    exact Or.inr ⟨fun j hj => absurd hj (Nat.not_lt_zero j), rfl⟩
  | succ k ih =>
    intro x
    by_cases h : |kepler_newton m M e x - x| < 1 / 100000000
    · refine Or.inl ⟨0, Nat.succ_pos k, fun j hj => absurd hj (Nat.not_lt_zero j), h, ?_⟩
      simp only [kepler_loop, if_pos h]
      rfl
    · have hstep : kepler_loop m M e (k + 1) x = kepler_loop m M e k (kepler_newton m M e x) := by
        simp only [kepler_loop, if_neg h]
      rcases ih (kepler_newton m M e x) with ⟨i, hi, hbefore, hat, hres⟩ | ⟨hall, hres⟩
      · refine Or.inl ⟨i + 1, Nat.succ_lt_succ hi, ?_, ?_, ?_⟩
        · intro j hj
          cases j with
          | zero => exact h
          | succ j =>
            have := hbefore j (Nat.lt_of_succ_lt_succ hj)
            simpa only [Function.iterate_succ_apply] using this
        · simpa only [Function.iterate_succ_apply] using hat
        · rw [hstep, hres]
          simp only [Function.iterate_succ_apply]
      · refine Or.inr ⟨?_, ?_⟩
        · intro j hj
          cases j with
          | zero => exact h
          | succ j =>
            have := hall j (Nat.lt_of_succ_lt_succ hj)
            simpa only [Function.iterate_succ_apply] using this
        · rw [hstep, hres]
          simp only [Function.iterate_succ_apply]

end KeplerLoop

section KeplerSafety

open Real

/-- C24. For every eccentricity `0 ≤ e < 1` and every mean anomaly `M`,
`solve_kepler_equation` never fails: at every `E` the Newton step is
`E - (E - e sin E - M) / (1 - e cos E)` with a strictly positive divisor
`1 - e cos E`; the iterates start at `E0 = M`; the function returns iterate
`i + 1` at the first step `i < 50` with `|E_{i+1} - E_i| < 1e-8`, and iterate 50
when no step of the 50 is below the tolerance (real arithmetic). -/
theorem solve_kepler_equation_never_fails (e M : ℝ) (he0 : 0 ≤ e) (he1 : e < 1) :
    (∀ E : ℝ, 0 < 1 - e * Real.cos E ∧
      kepler_newton realLibm M e E = E - (E - e * Real.sin E - M) / (1 - e * Real.cos E)) ∧
    (kepler_newton realLibm M e)^[0] M = M ∧
    ((∃ i, i < 50 ∧
        (∀ j, j < i →
          ¬ |(kepler_newton realLibm M e)^[j + 1] M - (kepler_newton realLibm M e)^[j] M| <
            1 / 100000000) ∧
        |(kepler_newton realLibm M e)^[i + 1] M - (kepler_newton realLibm M e)^[i] M| <
          1 / 100000000 ∧
        solve_kepler_equation realLibm M e = (kepler_newton realLibm M e)^[i + 1] M) ∨
      ((∀ j, j < 50 →
          ¬ |(kepler_newton realLibm M e)^[j + 1] M - (kepler_newton realLibm M e)^[j] M| <
            1 / 100000000) ∧
        solve_kepler_equation realLibm M e = (kepler_newton realLibm M e)^[50] M)) := by
  refine ⟨fun E => ⟨?_, rfl⟩, rfl, kepler_loop_exit realLibm M e 50 M⟩
  have hc := Real.cos_le_one E
  nlinarith

/-- Witness for C24: eccentricity `1/2`, mean anomaly `1`. -/
theorem solve_kepler_equation_never_fails_witness :
    (0 : ℝ) ≤ 1 / 2 ∧ (1 / 2 : ℝ) < 1 ∧
    ∀ E : ℝ, 0 < 1 - 1 / 2 * Real.cos E ∧
      kepler_newton realLibm 1 (1 / 2) E =
        E - (E - 1 / 2 * Real.sin E - 1) / (1 - 1 / 2 * Real.cos E) :=
  ⟨by norm_num, by norm_num,
    (solve_kepler_equation_never_fails (1 / 2) 1 (by norm_num) (by norm_num)).1⟩

end KeplerSafety

section MeanAnomaly

open Real

/-- The method `get_position` in terms of its local variables. -/
theorem get_position_eq {α : Type} [LinearOrderedField α] (m : Libm α)
    (s : SatelliteEphemeris α) (t : α) :
    s.get_position m t = s.perifocal_to_eci m (s.true_anomaly_at m t) (s.radius_at m t) := rfl

/-- The real `fmod` by a positive modulus: the result differs from the dividend
by an integer multiple of the modulus and has the sign of the dividend. -/
theorem fmod_real (x y : ℝ) (hy : 0 < y) :
    (∃ k : ℤ, realLibm.fmod x y = x - k * y) ∧
    (0 ≤ x → 0 ≤ realLibm.fmod x y ∧ realLibm.fmod x y < y) ∧
    (x ≤ 0 → -y < realLibm.fmod x y ∧ realLibm.fmod x y ≤ 0) := by
  have hxy : x = x / y * y := by field_simp
  by_cases h : 0 ≤ x / y
  · have hf : realLibm.fmod x y = x - y * (⌊x / y⌋ : ℝ) := by
      simp only [realLibm, if_pos h]
    have h1 := Int.floor_le (x / y)
    have h2 := Int.lt_floor_add_one (x / y)
    have hr : realLibm.fmod x y = (x / y - ⌊x / y⌋) * y := by
      rw [hf, sub_mul, ← hxy]; ring
    have hlo : 0 ≤ realLibm.fmod x y := by
      rw [hr]; exact mul_nonneg (by linarith) hy.le
    have hhi : realLibm.fmod x y < y := by
      rw [hr]
      calc (x / y - ⌊x / y⌋) * y < 1 * y := by
            apply mul_lt_mul_of_pos_right _ hy
            linarith
        _ = y := one_mul y
    refine ⟨⟨⌊x / y⌋, by rw [hf]; ring⟩, fun _ => ⟨hlo, hhi⟩, fun hx => ?_⟩
    have hq : x / y = 0 := le_antisymm (div_nonpos_of_nonpos_of_nonneg hx hy.le) h
    have : realLibm.fmod x y = 0 := by
      rw [hr, hq]; simp
    rw [this]
    exact ⟨by linarith, le_refl 0⟩
  · have hq : x / y < 0 := not_le.mp h
    have hx : x < 0 := by
      by_contra hx0
      exact h (div_nonneg (not_lt.mp hx0) hy.le)
    have hf : realLibm.fmod x y = x - y * (⌈x / y⌉ : ℝ) := by
      simp only [realLibm, if_neg h]
    have h1 := Int.le_ceil (x / y)
    have h2 := Int.ceil_lt_add_one (x / y)
    have hr : realLibm.fmod x y = (x / y - ⌈x / y⌉) * y := by
      rw [hf, sub_mul, ← hxy]; ring
    refine ⟨⟨⌈x / y⌉, by rw [hf]; ring⟩, fun hx0 => absurd hx0 (not_le.mpr hx), fun _ => ⟨?_, ?_⟩⟩
    · rw [hr]
      calc -y = (-1) * y := by ring
        _ < (x / y - ⌈x / y⌉) * y := by
            apply mul_lt_mul_of_pos_right _ hy
            linarith
    · rw [hr]
      exact mul_nonpos_of_nonpos_of_nonneg (by linarith) hy.le

/-- C25 (as stated): the reduced mean anomaly is not always in `[0, 2π)`.  With
mean anomaly at epoch 0 and the mean motion 15.49 rev/day of the tests, one
minute before epoch the value passed to the Kepler solver is
`-(15.49 · 2π / 1440)`, which is negative. -/
theorem mean_anomaly_at_negative :
    (SatelliteEphemeris.new realLibm
        { mean_motion := 1549 / 100, inclination := 0, raan := 0, eccentricity := 0,
          argument_perigee := 0, mean_anomaly := 0 }).mean_anomaly_at realLibm (-1) =
      -(1549 / 100 * 2 * π / 1440) ∧
    (SatelliteEphemeris.new realLibm
        { mean_motion := 1549 / 100, inclination := 0, raan := 0, eccentricity := 0,
          argument_perigee := 0, mean_anomaly := 0 }).mean_anomaly_at realLibm (-1) < 0 := by
  have hpi := Real.pi_pos
  have hq : (0 + 1549 / 100 * 2 * π / 1440 * (-1)) / (2 * π) = -(1549 / 144000) := by
    field_simp; ring
  have hc : ⌈(-(1549 / 144000) : ℝ)⌉ = 0 := by
    rw [Int.ceil_eq_iff]; norm_num
  have hv : (SatelliteEphemeris.new realLibm
        { mean_motion := 1549 / 100, inclination := 0, raan := 0, eccentricity := 0,
          argument_perigee := 0, mean_anomaly := 0 }).mean_anomaly_at realLibm (-1) =
      -(1549 / 100 * 2 * π / 1440) := by
    simp only [SatelliteEphemeris.mean_anomaly_at, SatelliteEphemeris.new, realLibm]
    rw [hq, if_neg (by norm_num), hc]
    simp
  refine ⟨hv, ?_⟩
  rw [hv]
  have : 0 < 1549 / 100 * 2 * π / 1440 := by positivity
  linarith

/-- C25 (amended). For every element set and every time `t` in minutes from
epoch, positive or negative, the mean anomaly that `get_position` passes to the
Kepler solver is `fmod(M0 + n·t, 2π)` with `n = mean_motion · 2π / 1440`: it
differs from `M0 + n·t` by an integer multiple of `2π` and has the sign of
`M0 + n·t`, so it lies in `[0, 2π)` when `M0 + n·t ≥ 0` and in `(-2π, 0]` when
`M0 + n·t ≤ 0` (real arithmetic). -/
theorem mean_anomaly_at_fmod (tle : TLE ℝ) (t : ℝ) :
    (SatelliteEphemeris.new realLibm tle).mean_motion_radians =
      tle.mean_motion * 2 * π / 1440 ∧
    (SatelliteEphemeris.new realLibm tle).eccentric_anomaly_at realLibm t =
      solve_kepler_equation realLibm
        ((SatelliteEphemeris.new realLibm tle).mean_anomaly_at realLibm t) tle.eccentricity ∧
    (∃ k : ℤ, (SatelliteEphemeris.new realLibm tle).mean_anomaly_at realLibm t =
      tle.mean_anomaly + tle.mean_motion * 2 * π / 1440 * t - k * (2 * π)) ∧
    (0 ≤ tle.mean_anomaly + tle.mean_motion * 2 * π / 1440 * t →
      0 ≤ (SatelliteEphemeris.new realLibm tle).mean_anomaly_at realLibm t ∧
      (SatelliteEphemeris.new realLibm tle).mean_anomaly_at realLibm t < 2 * π) ∧
    (tle.mean_anomaly + tle.mean_motion * 2 * π / 1440 * t ≤ 0 →
      -(2 * π) < (SatelliteEphemeris.new realLibm tle).mean_anomaly_at realLibm t ∧
      (SatelliteEphemeris.new realLibm tle).mean_anomaly_at realLibm t ≤ 0) := by
  have h := fmod_real (tle.mean_anomaly + tle.mean_motion * 2 * π / 1440 * t) (2 * π)
    (by positivity)
  exact ⟨rfl, rfl, h⟩

end MeanAnomaly

section Orbit

open Real

/-- The 3-1-3 rotation of `perifocal_to_eci` preserves length: a vector
`(px, py, 0)` of the orbital plane keeps its squared norm. -/
theorem rotation_norm_sq (cr sr ci si ca sa px py : ℝ) (hr : sr ^ 2 + cr ^ 2 = 1)
    (hi : si ^ 2 + ci ^ 2 = 1) (ha : sa ^ 2 + ca ^ 2 = 1) :
    ((cr * ca - sr * sa * ci) * px + (-cr * sa - sr * ca * ci) * py) ^ 2 +
      ((sr * ca + cr * sa * ci) * px + (-sr * sa + cr * ca * ci) * py) ^ 2 +
      (si * sa * px + si * ca * py) ^ 2 = px ^ 2 + py ^ 2 := by
  linear_combination
    ((ca * px - sa * py) ^ 2 + ci ^ 2 * (sa * px + ca * py) ^ 2) * hr +
      (sa * px + ca * py) ^ 2 * hi + (px ^ 2 + py ^ 2) * ha

/-- The position returned by `perifocal_to_eci` has squared norm `radius²`. -/
theorem perifocal_to_eci_norm_sq (s : SatelliteEphemeris ℝ) (ta radius : ℝ) :
    (s.perifocal_to_eci realLibm ta radius).x ^ 2 + (s.perifocal_to_eci realLibm ta radius).y ^ 2 +
      (s.perifocal_to_eci realLibm ta radius).z ^ 2 = radius ^ 2 := by
  simp only [SatelliteEphemeris.perifocal_to_eci, realLibm]
  rw [rotation_norm_sq _ _ _ _ _ _ _ _ (Real.sin_sq_add_cos_sq _) (Real.sin_sq_add_cos_sq _)
    (Real.sin_sq_add_cos_sq _)]
  linear_combination radius ^ 2 * Real.sin_sq_add_cos_sq ta

/-- C30. For every element set with `0 ≤ e < 1` and mean motion `> 0` and every
time `t`, the position returned by `get_position` has squared norm
`x² + y² + z² = (a (1 - e cos E))²`, where `E` is the eccentric anomaly found by
the solver and `a = (mu / n²)^(1/3)` is the semi-major axis of the constructor;
consequently `a (1 - e) ≤ |position| ≤ a (1 + e)` (real arithmetic). -/
theorem get_position_norm (tle : TLE ℝ) (t : ℝ) (he0 : 0 ≤ tle.eccentricity)
    (he1 : tle.eccentricity < 1) (_hmm : 0 < tle.mean_motion) :
    (SatelliteEphemeris.new realLibm tle).semi_major_axis =
      (EARTH_MU / ((SatelliteEphemeris.new realLibm tle).mean_motion_radians *
        (SatelliteEphemeris.new realLibm tle).mean_motion_radians)) ^ (1 / 3 : ℝ) ∧
    ((SatelliteEphemeris.new realLibm tle).get_position realLibm t).x ^ 2 +
        ((SatelliteEphemeris.new realLibm tle).get_position realLibm t).y ^ 2 +
        ((SatelliteEphemeris.new realLibm tle).get_position realLibm t).z ^ 2 =
      ((SatelliteEphemeris.new realLibm tle).semi_major_axis *
        (1 - tle.eccentricity *
          Real.cos ((SatelliteEphemeris.new realLibm tle).eccentric_anomaly_at realLibm t))) ^ 2 ∧
    (SatelliteEphemeris.new realLibm tle).semi_major_axis * (1 - tle.eccentricity) ≤
      Real.sqrt (((SatelliteEphemeris.new realLibm tle).get_position realLibm t).x ^ 2 +
        ((SatelliteEphemeris.new realLibm tle).get_position realLibm t).y ^ 2 +
        ((SatelliteEphemeris.new realLibm tle).get_position realLibm t).z ^ 2) ∧
    Real.sqrt (((SatelliteEphemeris.new realLibm tle).get_position realLibm t).x ^ 2 +
        ((SatelliteEphemeris.new realLibm tle).get_position realLibm t).y ^ 2 +
        ((SatelliteEphemeris.new realLibm tle).get_position realLibm t).z ^ 2) ≤
      (SatelliteEphemeris.new realLibm tle).semi_major_axis * (1 + tle.eccentricity) := by
  have hnorm := perifocal_to_eci_norm_sq (SatelliteEphemeris.new realLibm tle)
    ((SatelliteEphemeris.new realLibm tle).true_anomaly_at realLibm t)
    ((SatelliteEphemeris.new realLibm tle).radius_at realLibm t)
  rw [← get_position_eq] at hnorm
  have hrad : (SatelliteEphemeris.new realLibm tle).radius_at realLibm t =
      (SatelliteEphemeris.new realLibm tle).semi_major_axis *
        (1 - tle.eccentricity *
          Real.cos ((SatelliteEphemeris.new realLibm tle).eccentric_anomaly_at realLibm t)) := rfl
  have ha0 : 0 ≤ (SatelliteEphemeris.new realLibm tle).semi_major_axis := by
    rw [semi_major_axis_eq]
    apply Real.rpow_nonneg
    apply div_nonneg
    · unfold EARTH_MU; norm_num
    · exact mul_self_nonneg _
  have hc1 := Real.cos_le_one
    ((SatelliteEphemeris.new realLibm tle).eccentric_anomaly_at realLibm t)
  have hc2 := Real.neg_one_le_cos
    ((SatelliteEphemeris.new realLibm tle).eccentric_anomaly_at realLibm t)
  rw [hnorm, hrad]
  set a := (SatelliteEphemeris.new realLibm tle).semi_major_axis
  set c := Real.cos ((SatelliteEphemeris.new realLibm tle).eccentric_anomaly_at realLibm t)
  have hf : 0 ≤ 1 - tle.eccentricity * c := by nlinarith
  refine ⟨rfl, rfl, ?_, ?_⟩
  · rw [Real.sqrt_sq (mul_nonneg ha0 hf)]
    apply mul_le_mul_of_nonneg_left _ ha0
    nlinarith
  · rw [Real.sqrt_sq (mul_nonneg ha0 hf)]
    apply mul_le_mul_of_nonneg_left _ ha0
    nlinarith

/-- Witness for C30: the elements of the unit tests with all angles 0, ten
minutes after epoch. -/
theorem get_position_norm_witness :
    (0 : ℝ) ≤ 1 / 10000 ∧ (1 / 10000 : ℝ) < 1 ∧ (0 : ℝ) < 1549 / 100 ∧
    ((SatelliteEphemeris.new realLibm
          { mean_motion := 1549 / 100, inclination := 0, raan := 0, eccentricity := 1 / 10000,
            argument_perigee := 0, mean_anomaly := 0 }).get_position realLibm 10).x ^ 2 +
        ((SatelliteEphemeris.new realLibm
          { mean_motion := 1549 / 100, inclination := 0, raan := 0, eccentricity := 1 / 10000,
            argument_perigee := 0, mean_anomaly := 0 }).get_position realLibm 10).y ^ 2 +
        ((SatelliteEphemeris.new realLibm
          { mean_motion := 1549 / 100, inclination := 0, raan := 0, eccentricity := 1 / 10000,
            argument_perigee := 0, mean_anomaly := 0 }).get_position realLibm 10).z ^ 2 =
      ((SatelliteEphemeris.new realLibm
          { mean_motion := 1549 / 100, inclination := 0, raan := 0, eccentricity := 1 / 10000,
            argument_perigee := 0, mean_anomaly := 0 }).semi_major_axis *
        (1 - 1 / 10000 *
          Real.cos ((SatelliteEphemeris.new realLibm
            { mean_motion := 1549 / 100, inclination := 0, raan := 0, eccentricity := 1 / 10000,
              argument_perigee := 0, mean_anomaly := 0 }).eccentric_anomaly_at realLibm 10))) ^ 2 :=
  ⟨by norm_num, by norm_num, by norm_num,
    (get_position_norm
      { mean_motion := 1549 / 100, inclination := 0, raan := 0, eccentricity := 1 / 10000,
        argument_perigee := 0, mean_anomaly := 0 } 10 (by norm_num) (by norm_num)
      (by norm_num)).2.1⟩

end Orbit

section VisViva

open Real

/-- At epoch a circular equatorial orbit with all angles 0 is at the distance of
the semi-major axis and moves along the y axis at `sqrt(mu/a · (2/a - 1/a))`. -/
theorem get_position_epoch_velocity (mm : ℝ) :
    (SatelliteEphemeris.new realLibm
        { mean_motion := mm, inclination := 0, raan := 0, eccentricity := 0,
          argument_perigee := 0, mean_anomaly := 0 }).radius_at realLibm 0 =
      (SatelliteEphemeris.new realLibm
        { mean_motion := mm, inclination := 0, raan := 0, eccentricity := 0,
          argument_perigee := 0, mean_anomaly := 0 }).semi_major_axis ∧
    ((SatelliteEphemeris.new realLibm
        { mean_motion := mm, inclination := 0, raan := 0, eccentricity := 0,
          argument_perigee := 0, mean_anomaly := 0 }).get_position realLibm 0).vx = 0 ∧
    ((SatelliteEphemeris.new realLibm
        { mean_motion := mm, inclination := 0, raan := 0, eccentricity := 0,
          argument_perigee := 0, mean_anomaly := 0 }).get_position realLibm 0).vy =
      Real.sqrt (EARTH_MU /
          (SatelliteEphemeris.new realLibm
            { mean_motion := mm, inclination := 0, raan := 0, eccentricity := 0,
              argument_perigee := 0, mean_anomaly := 0 }).semi_major_axis *
        (2 / (SatelliteEphemeris.new realLibm
            { mean_motion := mm, inclination := 0, raan := 0, eccentricity := 0,
              argument_perigee := 0, mean_anomaly := 0 }).semi_major_axis -
          1 / (SatelliteEphemeris.new realLibm
            { mean_motion := mm, inclination := 0, raan := 0, eccentricity := 0,
              argument_perigee := 0, mean_anomaly := 0 }).semi_major_axis)) ∧
    ((SatelliteEphemeris.new realLibm
        { mean_motion := mm, inclination := 0, raan := 0, eccentricity := 0,
          argument_perigee := 0, mean_anomaly := 0 }).get_position realLibm 0).vz = 0 := by
  have hf : realLibm.fmod 0 (2 * realLibm.M_PI) = 0 := by
    simp [realLibm]
  have hk := solve_kepler_equation_zero
  have ha : realLibm.atan2 0 1 = 0 := by
    show Complex.arg ⟨1, 0⟩ = 0
    exact Complex.arg_one
  have hs : realLibm.sqrt 1 = 1 := Real.sqrt_one
  have hc : realLibm.cos 0 = 1 := Real.cos_zero
  have hsn : realLibm.sin 0 = 0 := Real.sin_zero
  simp only [SatelliteEphemeris.get_position, SatelliteEphemeris.new,
    SatelliteEphemeris.radius_at, SatelliteEphemeris.eccentric_anomaly_at,
    SatelliteEphemeris.mean_anomaly_at,
    SatelliteEphemeris.perifocal_to_eci, mul_zero, add_zero, hf, hk, zero_div, hc, hsn, sub_zero,
    hs, mul_one, ha, one_mul, zero_mul, neg_zero, true_and, zero_add, sub_self]
  exact ⟨rfl, trivial⟩

/-- The semi-major axis computed by the constructor exceeds 1 km whenever the
mean motion is positive and below 1 radian per minute. -/
theorem one_lt_semi_major_axis (tle : TLE ℝ) (hmm : 0 < tle.mean_motion)
    (hn : tle.mean_motion * 2 * π / 1440 < 1) :
    1 < (SatelliteEphemeris.new realLibm tle).semi_major_axis := by
  have hpi := Real.pi_pos
  have hn0 : 0 < tle.mean_motion * 2 * π / 1440 := by positivity
  rw [semi_major_axis_eq]
  apply Real.one_lt_rpow _ (by norm_num)
  rw [lt_div_iff₀ (mul_pos hn0 hn0)]
  have : tle.mean_motion * 2 * π / 1440 * (tle.mean_motion * 2 * π / 1440) < 1 := by nlinarith
  unfold EARTH_MU
  linarith

/-- C26 at a failing input: the circular equatorial orbit with all angles 0 and
the mean motion 15.49 rev/day of the tests, at epoch.  The orbital radius is the
semi-major axis `a`, the squared speed of the returned state is `mu / a²`, the
vis-viva value `mu (2/r - 1/a)` is `mu / a`, and the two differ because
`a > 1`. -/
theorem get_position_speed_not_vis_viva :
    (SatelliteEphemeris.new realLibm
        { mean_motion := 1549 / 100, inclination := 0, raan := 0, eccentricity := 0,
          argument_perigee := 0, mean_anomaly := 0 }).radius_at realLibm 0 =
      (SatelliteEphemeris.new realLibm
        { mean_motion := 1549 / 100, inclination := 0, raan := 0, eccentricity := 0,
          argument_perigee := 0, mean_anomaly := 0 }).semi_major_axis ∧
    ((SatelliteEphemeris.new realLibm
          { mean_motion := 1549 / 100, inclination := 0, raan := 0, eccentricity := 0,
            argument_perigee := 0, mean_anomaly := 0 }).get_position realLibm 0).vx ^ 2 +
        ((SatelliteEphemeris.new realLibm
          { mean_motion := 1549 / 100, inclination := 0, raan := 0, eccentricity := 0,
            argument_perigee := 0, mean_anomaly := 0 }).get_position realLibm 0).vy ^ 2 +
        ((SatelliteEphemeris.new realLibm
          { mean_motion := 1549 / 100, inclination := 0, raan := 0, eccentricity := 0,
            argument_perigee := 0, mean_anomaly := 0 }).get_position realLibm 0).vz ^ 2 =
      EARTH_MU / (SatelliteEphemeris.new realLibm
        { mean_motion := 1549 / 100, inclination := 0, raan := 0, eccentricity := 0,
          argument_perigee := 0, mean_anomaly := 0 }).semi_major_axis ^ 2 ∧
    EARTH_MU *
        (2 / (SatelliteEphemeris.new realLibm
            { mean_motion := 1549 / 100, inclination := 0, raan := 0, eccentricity := 0,
              argument_perigee := 0, mean_anomaly := 0 }).radius_at realLibm 0 -
          1 / (SatelliteEphemeris.new realLibm
            { mean_motion := 1549 / 100, inclination := 0, raan := 0, eccentricity := 0,
              argument_perigee := 0, mean_anomaly := 0 }).semi_major_axis) =
      EARTH_MU / (SatelliteEphemeris.new realLibm
        { mean_motion := 1549 / 100, inclination := 0, raan := 0, eccentricity := 0,
          argument_perigee := 0, mean_anomaly := 0 }).semi_major_axis ∧
    EARTH_MU / (SatelliteEphemeris.new realLibm
        { mean_motion := 1549 / 100, inclination := 0, raan := 0, eccentricity := 0,
          argument_perigee := 0, mean_anomaly := 0 }).semi_major_axis ^ 2 <
      EARTH_MU / (SatelliteEphemeris.new realLibm
        { mean_motion := 1549 / 100, inclination := 0, raan := 0, eccentricity := 0,
          argument_perigee := 0, mean_anomaly := 0 }).semi_major_axis := by
  have hpi := Real.pi_lt_d2
  have hpos := Real.pi_pos
  have ha := one_lt_semi_major_axis
    { mean_motion := 1549 / 100, inclination := 0, raan := 0, eccentricity := 0,
      argument_perigee := 0, mean_anomaly := 0 } (by norm_num)
    (by show (1549 / 100 : ℝ) * 2 * π / 1440 < 1; linarith)
  obtain ⟨hr, hvx, hvy, hvz⟩ := get_position_epoch_velocity (1549 / 100)
  rw [hr, hvx, hvy, hvz]
  set a := (SatelliteEphemeris.new realLibm
    { mean_motion := 1549 / 100, inclination := 0, raan := 0, eccentricity := 0,
      argument_perigee := 0, mean_anomaly := 0 }).semi_major_axis
  have ha0 : 0 < a := by linarith
  have hmu : (0 : ℝ) < EARTH_MU := by unfold EARTH_MU; norm_num
  refine ⟨rfl, ?_, ?_, ?_⟩
  · have hq : EARTH_MU / a * (2 / a - 1 / a) = EARTH_MU / a ^ 2 := by
      field_simp; ring
    rw [hq]
    have hnn : 0 ≤ EARTH_MU / a ^ 2 := by positivity
    rw [Real.sq_sqrt hnn]
    ring
  · field_simp; ring
  · apply div_lt_div_of_pos_left hmu ha0
    nlinarith

end VisViva

section WindowedSinc

variable {α : Type} [LinearOrderedField α]

/-- After the first loop of `generate_sinc_taps`, entry `i` of the taps is the
value stored by iteration `i`, for every index the loop has visited. -/
theorem sinc_taps_unnormalized_getD (m : Libm α) (cutoff : α) (num_taps : Nat) :
    ∀ i, i < (toInt32 num_taps).toNat →
      (sinc_taps_unnormalized m cutoff num_taps).1.getD i 0 = sinc_tap m cutoff num_taps i := by
  have hle := toInt32_toNat_le num_taps
  have hstep : ∀ (i : Nat) (st : List α × α), i < (toInt32 num_taps).toNat →
      (st.1.length = num_taps ∧ ∀ j, j < i → st.1.getD j 0 = sinc_tap m cutoff num_taps j) →
      (st.1.set i (sinc_tap m cutoff num_taps i)).length = num_taps ∧
        ∀ j, j < i + 1 →
          (st.1.set i (sinc_tap m cutoff num_taps i)).getD j 0 = sinc_tap m cutoff num_taps j := by
    intro i st hi hJ
    obtain ⟨h1, h2⟩ := hJ
    refine ⟨by rw [List.length_set]; exact h1, ?_⟩
    intro j hj
    rw [List.getD_eq_getElem?_getD, List.getElem?_set]
    by_cases hji : i = j
    · have hil : i < st.1.length := by rw [h1]; exact lt_of_lt_of_le hi hle
      rw [if_pos hji, if_pos hil, hji, Option.getD_some]
    · rw [if_neg hji, ← List.getD_eq_getElem?_getD]
      exact h2 j (lt_of_le_of_ne (Nat.lt_succ_iff.mp hj) (fun h => hji h.symm))
  have h := forLoop_invariant
    (fun i (st : List α × α) =>
      let tap := sinc_tap m cutoff num_taps i
      (st.1.set i tap, st.2 + tap))
    (fun i st => st.1.length = num_taps ∧
      ∀ j, j < i → st.1.getD j 0 = sinc_tap m cutoff num_taps j)
    (toInt32 num_taps).toNat hstep
    (toInt32 num_taps).toNat 0 (List.replicate num_taps 0, 0) (Nat.zero_add _)
    ⟨List.length_replicate _ _, fun j hj => absurd hj (Nat.not_lt_zero j)⟩
  exact h.2

end WindowedSinc

section WindowedSincExample

open Real

/-- C27 at a failing input: the filter of the tests and of the demonstration,
`cutoff = 0.1` with 64 taps.  Before normalisation the centre tap 32 is
`2 · cutoff = 1/5`, without the Hamming factor, and tap 31 is `1/5` times the
windowed sinc value at 31; the Hamming value at index 32 is not 1, so no common
factor makes every tap the windowed sinc value at its index. -/
theorem generate_sinc_taps_centre_not_windowed :
    (sinc_taps_unnormalized realLibm (1 / 10 : ℝ) 64).1.getD 32 0 = 1 / 5 ∧
    (sinc_taps_unnormalized realLibm (1 / 10 : ℝ) 64).1.getD 31 0 =
      1 / 5 * windowed_sinc realLibm (1 / 10) 64 31 ∧
    windowed_sinc realLibm (1 / 10 : ℝ) 64 31 ≠ 0 ∧
    windowed_sinc realLibm (1 / 10 : ℝ) 64 32 < 1 ∧
    ¬ ∃ K : ℝ, ∀ i, i < 64 →
      (sinc_taps_unnormalized realLibm (1 / 10 : ℝ) 64).1.getD i 0 =
        K * windowed_sinc realLibm (1 / 10) 64 i := by
  have hpi := Real.pi_pos
  have c64 : (toInt32 64).toNat = 64 := by rw [toInt32_of_lt 64 (by norm_num)]; rfl
  have c32 : toInt32 (64 / 2) = 32 := by rw [toInt32_of_lt _ (by norm_num)]; rfl
  have t32 : (sinc_taps_unnormalized realLibm (1 / 10 : ℝ) 64).1.getD 32 0 = 1 / 5 := by
    rw [sinc_taps_unnormalized_getD _ _ _ 32 (by rw [c64]; norm_num)]
    simp only [sinc_tap, c32]
    norm_num
  have hsin : 0 < Real.sin (π / 5) :=
    Real.sin_pos_of_pos_of_lt_pi (by positivity) (by linarith)
  have hw31 : 0 < (54 / 100 - 46 / 100 * Real.cos (2 * π * 31 / 63) : ℝ) := by
    have := Real.cos_le_one (2 * π * 31 / 63)
    linarith
  have w31 : windowed_sinc realLibm (1 / 10 : ℝ) 64 31 =
      Real.sin (π / 5) / (π / 5) * (54 / 100 - 46 / 100 * Real.cos (2 * π * 31 / 63)) := by
    simp only [windowed_sinc, sinc, hamming, realLibm]
    norm_num
    left
    rw [show π * (1 / 5) = π / 5 by ring]
  have t31 : (sinc_taps_unnormalized realLibm (1 / 10 : ℝ) 64).1.getD 31 0 =
      1 / 5 * windowed_sinc realLibm (1 / 10) 64 31 := by
    rw [sinc_taps_unnormalized_getD _ _ _ 31 (by rw [c64]; norm_num), w31]
    simp only [sinc_tap, c32, realLibm]
    norm_num
    rw [show 2 * π * (1 / 10) = π / 5 by ring]
    field_simp
    ring
  have hne31 : windowed_sinc realLibm (1 / 10 : ℝ) 64 31 ≠ 0 := by
    rw [w31]
    positivity
  have w32 : windowed_sinc realLibm (1 / 10 : ℝ) 64 32 =
      54 / 100 + 46 / 100 * Real.cos (π / 63) := by
    simp only [windowed_sinc, sinc, hamming, realLibm]
    norm_num
    rw [show 2 * π * 32 / 63 = π / 63 + π by ring, Real.cos_add_pi]
    ring
  have hcos : Real.cos (π / 63) < 1 := by
    have hle := Real.cos_le_one (π / 63)
    rcases lt_or_eq_of_le hle with h | h
    · exact h
    · exfalso
      have := (Real.cos_eq_one_iff_of_lt_of_lt (by linarith : -(2 * π) < π / 63)
        (by linarith : π / 63 < 2 * π)).mp h
      linarith
  have hlt32 : windowed_sinc realLibm (1 / 10 : ℝ) 64 32 < 1 := by
    rw [w32]; linarith
  refine ⟨t32, t31, hne31, hlt32, ?_⟩
  rintro ⟨K, hK⟩
  have h31 := hK 31 (by norm_num)
  have h32 := hK 32 (by norm_num)
  rw [t31] at h31
  rw [t32] at h32
  have hKv : K = 1 / 5 := (mul_right_cancel₀ hne31 h31).symm
  rw [hKv] at h32
  linarith

end WindowedSincExample

section Analyzer

variable {α : Type} [LinearOrderedField α]

/-- The first accumulator of the loop of `analyze` adds up the squared
magnitudes. -/
theorem analyze_loop_power (m : Libm α) (signal : List (ComplexSample α)) :
    ∀ st : α × α × α,
      (signal.foldl
        (fun (st : α × α × α) sample =>
          let magnitude := ComplexSample.abs m sample
          (st.1 + magnitude * magnitude, max st.2.1 magnitude, st.2.2 + magnitude)) st).1 =
      st.1 + (signal.map fun s => ComplexSample.abs m s * ComplexSample.abs m s).sum := by
  induction signal with
  | nil => intro st; simp
  | cons x xs ih =>
    intro st
    rw [List.foldl_cons, ih]
    simp only [List.map_cons, List.sum_cons]
    ring

/-- Over the reals the squared magnitude of a sample is `re² + im²`. -/
theorem complex_abs_sq (s : ComplexSample ℝ) :
    ComplexSample.abs realLibm s * ComplexSample.abs realLibm s = s.re * s.re + s.im * s.im :=
  Real.mul_self_sqrt (add_nonneg (mul_self_nonneg _) (mul_self_nonneg _))

/-- C28. For every non-empty signal, `SignalAnalyzer::analyze` reports
`signal_power` equal to the mean of the squared sample magnitudes
`(Σ (re² + im²)) / N`; hence `signal_power` is 0 when every sample is zero and
strictly positive when at least one sample is non-zero (real arithmetic). -/
theorem analyze_signal_power (signal : List (ComplexSample ℝ)) (hne : signal ≠ []) :
    (SignalAnalyzer.analyze realLibm signal).signal_power = mean_square_magnitude signal ∧
    ((∀ s ∈ signal, s.re = 0 ∧ s.im = 0) →
      (SignalAnalyzer.analyze realLibm signal).signal_power = 0) ∧
    ((∃ s ∈ signal, s.re ≠ 0 ∨ s.im ≠ 0) →
      0 < (SignalAnalyzer.analyze realLibm signal).signal_power) := by
  have hpow : (SignalAnalyzer.analyze realLibm signal).signal_power =
      mean_square_magnitude signal := by
    simp only [SignalAnalyzer.analyze, mean_square_magnitude]
    rw [analyze_loop_power, zero_add]
    congr 2
    apply List.map_congr_left
    intro s _
    exact complex_abs_sq s
  have hlen : (0 : ℝ) < (signal.length : ℝ) := by
    exact_mod_cast List.length_pos.mpr hne
  refine ⟨hpow, ?_, ?_⟩
  · intro hz
    rw [hpow]
    unfold mean_square_magnitude
    have : (signal.map fun s => s.re * s.re + s.im * s.im) = signal.map fun _ => (0 : ℝ) := by
      apply List.map_congr_left
      intro s hs
      obtain ⟨h1, h2⟩ := hz s hs
      rw [h1, h2]
      ring
    rw [this]
    simp
  · rintro ⟨s, hs, hnz⟩
    rw [hpow]
    unfold mean_square_magnitude
    apply div_pos _ hlen
    have hterm : 0 < s.re * s.re + s.im * s.im := by
      rcases hnz with h | h
      · have := mul_self_pos.mpr h
        have := mul_self_nonneg s.im
        linarith
      · have := mul_self_pos.mpr h
        have := mul_self_nonneg s.re
        linarith
    have hmem : s.re * s.re + s.im * s.im ∈ signal.map fun s => s.re * s.re + s.im * s.im :=
      List.mem_map.mpr ⟨s, hs, rfl⟩
    have hnn : ∀ x ∈ signal.map (fun s : ComplexSample ℝ => s.re * s.re + s.im * s.im),
        0 ≤ x := by
      intro x hx
      obtain ⟨u, -, rfl⟩ := List.mem_map.mp hx
      exact add_nonneg (mul_self_nonneg _) (mul_self_nonneg _)
    exact lt_of_lt_of_le hterm (List.single_le_sum hnn _ hmem)

/-- Witness for C28: the two samples `1 + i` and `0`, with mean square
magnitude `(2 + 0) / 2 = 1`. -/
theorem analyze_signal_power_witness :
    ([⟨1, 1⟩, ⟨0, 0⟩] : List (ComplexSample ℝ)) ≠ [] ∧
    (SignalAnalyzer.analyze realLibm [⟨1, 1⟩, ⟨0, 0⟩]).signal_power = 1 := by
  refine ⟨by simp, ?_⟩
  rw [(analyze_signal_power [⟨1, 1⟩, ⟨0, 0⟩] (by simp)).1]
  norm_num [mean_square_magnitude]

end Analyzer

section DelayLine

variable {α : Type} [LinearOrderedField α]

/-- Successive `process` calls on a filter fed `hist` leave a filter fed the new
samples as well, newest first. -/
theorem process_each_fed (h : List α) (input : List α) :
    ∀ (f : FIRFilter α) (hist : List α), f.Fed h hist →
      (FIRFilter.process_each f input).1.Fed h (input.reverse ++ hist) := by
  induction input with
  | nil => intro f hist hf; simpa [FIRFilter.process_each] using hf
  | cons x xs ih =>
    intro f hist hf
    have h1 := ih (f.process x).1 (x :: hist) (process_fed f h hist x hf).1
    simpa [FIRFilter.process_each] using h1

/-- C29. Delay-line invariant: for every `FIRFilter` built from a non-empty tap
vector, after any sequence `xs` of `process` calls the delay line has exactly as
many entries as there are taps and `delay_index` is below the tap count, so the
write index and every read index `(delay_index + i) % taps` of `process` are in
bounds; the entry at `delay_index` is the sample pushed tap-count calls earlier
(zero if there were fewer calls), and the next `process(x)` overwrites that
entry with `x` and changes no other entry. -/
theorem delay_line_invariant (taps : List α) (hne : taps ≠ []) (xs : List α) (x : α) :
    ((FIRFilter.new taps).process_each xs).1.coefficients = taps ∧
    ((FIRFilter.new taps).process_each xs).1.delay_line.length = taps.length ∧
    ((FIRFilter.new taps).process_each xs).1.delay_index < taps.length ∧
    ((FIRFilter.new taps).process_each xs).1.delay_index <
      ((FIRFilter.new taps).process_each xs).1.delay_line.length ∧
    (∀ i, i < ((FIRFilter.new taps).process_each xs).1.coefficients.length →
      (((FIRFilter.new taps).process_each xs).1.delay_index + i) %
          ((FIRFilter.new taps).process_each xs).1.coefficients.length <
        ((FIRFilter.new taps).process_each xs).1.delay_line.length) ∧
    ((FIRFilter.new taps).process_each xs).1.delay_line.getD
        ((FIRFilter.new taps).process_each xs).1.delay_index 0 =
      xs.reverse.getD (taps.length - 1) 0 ∧
    ((((FIRFilter.new taps).process_each xs).1.process x).1.delay_line =
      ((FIRFilter.new taps).process_each xs).1.delay_line.set
        ((FIRFilter.new taps).process_each xs).1.delay_index x) ∧
    ((((FIRFilter.new taps).process_each xs).1.process x).1.delay_line.getD
        ((FIRFilter.new taps).process_each xs).1.delay_index 0 = x) ∧
    (∀ j, j ≠ ((FIRFilter.new taps).process_each xs).1.delay_index →
      (((FIRFilter.new taps).process_each xs).1.process x).1.delay_line.getD j 0 =
        ((FIRFilter.new taps).process_each xs).1.delay_line.getD j 0) := by
  have hfed := process_each_fed taps xs (FIRFilter.new taps) [] (new_fed taps hne)
  rw [List.append_nil] at hfed
  obtain ⟨hc, hlen, hidx, hd⟩ := hfed
  have hT : 0 < taps.length := List.length_pos.mpr hne
  set f := ((FIRFilter.new taps).process_each xs).1
  have hset : (f.process x).1.delay_line = f.delay_line.set f.delay_index x := rfl
  refine ⟨hc, hlen, hidx, by rw [hlen]; exact hidx, ?_, ?_, hset, ?_, ?_⟩
  · intro i _
    rw [hc, hlen]
    exact Nat.mod_lt _ hT
  · have := hd (taps.length - 1) (by omega)
    rw [show f.delay_index + 1 + (taps.length - 1) = f.delay_index + taps.length by omega,
      Nat.add_mod_right, Nat.mod_eq_of_lt hidx] at this
    exact this
  · rw [hset, List.getD_eq_getElem?_getD, List.getElem?_set, if_pos rfl,
      if_pos (by rw [hlen]; exact hidx)]
    rfl
  · intro j hj
    rw [hset, List.getD_eq_getElem?_getD, List.getElem?_set, if_neg (Ne.symm hj),
      ← List.getD_eq_getElem?_getD]

/-- Witness for C29: taps `[1, 2]` after the samples `3, 4, 5`, followed by a
call with `6`. -/
theorem delay_line_invariant_witness :
    ([1, 2] : List ℚ) ≠ [] ∧
    ((FIRFilter.new ([1, 2] : List ℚ)).process_each [3, 4, 5]).1.delay_line.length =
      ([1, 2] : List ℚ).length ∧
    ((FIRFilter.new ([1, 2] : List ℚ)).process_each [3, 4, 5]).1.delay_index <
      ([1, 2] : List ℚ).length ∧
    ((FIRFilter.new ([1, 2] : List ℚ)).process_each [3, 4, 5]).1.delay_line.getD
        ((FIRFilter.new ([1, 2] : List ℚ)).process_each [3, 4, 5]).1.delay_index 0 =
      ([3, 4, 5] : List ℚ).reverse.getD (([1, 2] : List ℚ).length - 1) 0 := by
  have h := delay_line_invariant ([1, 2] : List ℚ) (by simp) [3, 4, 5] 6
  exact ⟨by simp, h.2.1, h.2.2.1, h.2.2.2.2.2.1⟩

end DelayLine

end SatelliteSignal
